import Mathlib

/-!
# The mesh reader and the mesh reindexing of the avatar sample (`Ply.cpp`)

A shallow embedding of `ItSeez3D::FlipNormals`, `ItSeez3D::ConvertToUnrealFormat`,
`ItSeez3D::AdjustPhysicalUnits` and `ItSeez3D::LoadModelFromBinPLY` with the properties of
the mesh that is read and of the reindexed mesh.

Modelling conventions.

* `TArray<T>` is a `List T`; an element access `xs[i]` with an index outside
  `[0, xs.Num())` does not return (range check of `TArray`), which is the result `none`.
* `int`/`int32` values are `Int`.  The only arithmetic on them is `numVertices++`, and every
  slot handed out that way is used as an index into a table right away, so that it stays below
  the length of a `TArray` (`< 2^31`) in every run that returns.
* The scalars of `FVector` and `FVector2D` are only copied and compared with `==`/`!=`.
  They are an arbitrary type `F` with a value `-1` and a comparison `FloatCompare.eq`, the
  `==` of `float`, which need not hold between a value and itself (NaN).
* A call that does not return normally (range check, failed `assert`, a loop that does not
  stop) has the result `none`.
-/

namespace ItSeez3D

/-- Texture coordinate pair (`FVector2D`). -/
structure FVector2D (F : Type) where
  X : F
  Y : F
deriving DecidableEq

/-- The comparison `a == b` of two `float` values.  It is a parameter of the model: the
theorems use what `LawfulFloatCompare` says about it, and that it holds between a value and
itself is not part of that. -/
class FloatCompare (F : Type) where
  eq : F → F → Bool

/-- The comparison `a != b` of two `FVector2D`, `X != V.X || Y != V.Y` on the `float`
components (`FVector2D` is a type of the engine, whose headers are not among the sources). -/
def FVector2D.ne {F : Type} [FloatCompare F] (a b : FVector2D F) : Bool :=
  !FloatCompare.eq a.X b.X || !FloatCompare.eq a.Y b.Y

/-- Position (`FVector`). -/
structure FVector (F : Type) where
  X : F
  Y : F
  Z : F
deriving DecidableEq

/-- Element read `xs[i]` of a `TArray`. -/
def TArray.at? {α : Type} (xs : List α) (i : Int) : Option α :=
  if 0 ≤ i then xs[i.toNat]? else none

/-- Element write `xs[i] = v` of a `TArray`. -/
def TArray.put? {α : Type} (xs : List α) (i : Int) (v : α) : Option (List α) :=
  if 0 ≤ i ∧ i < xs.length then some (xs.set i.toNat v) else none

/-- Resize `xs.SetNum(n)`: keeps the first `n` elements and pads with default-constructed
elements `fill` (whose content the default constructors of `FVector`/`FVector2D` leave open). -/
def TArray.SetNum {α : Type} (xs : List α) (n : Int) (fill : α) : List α :=
  xs.take n.toNat ++ List.replicate (n.toNat - xs.length) fill

/-- Loop `for (int i = 0; i < n; ++i) body`, threading the state; stops at the first
iteration that does not return. -/
def forLoop {σ : Type} (body : σ → Nat → Option σ) : Nat → σ → Option σ
  | 0, s => some s
  | n + 1, s => (forLoop body n s).bind fun t => body t n

/-- C `assert`: the call is aborted when the condition is false. -/
def assert (b : Bool) : Option Unit := if b then some () else none

/-! ## FlipNormals -/

/-- One iteration of the loop of `FlipNormals`:
`std::swap(faces[3 * i + 1], faces[3 * i + 2]); std::swap(faceUv[i][1], faceUv[i][2]);` -/
def flipTriangle {F : Type} (s : List Int × List (List (FVector2D F))) (i : Nat) :
    Option (List Int × List (List (FVector2D F))) := do
  let a ← TArray.at? s.1 (3 * (i : Int) + 1)
  let b ← TArray.at? s.1 (3 * (i : Int) + 2)
  let faces1 ← TArray.put? s.1 (3 * (i : Int) + 1) b
  let faces2 ← TArray.put? faces1 (3 * (i : Int) + 2) a
  let row ← TArray.at? s.2 i
  let x ← TArray.at? row 1
  let y ← TArray.at? row 2
  let row1 ← TArray.put? row 1 y
  let row2 ← TArray.put? row1 2 x
  let faceUv1 ← TArray.put? s.2 i row2
  pure (faces2, faceUv1)

/-- Model of `ItSeez3D::FlipNormals(faces, faceUv)`; the result is the pair of the two arrays
after the call. -/
def FlipNormals {F : Type} (faces : List Int) (faceUv : List (List (FVector2D F))) :
    Option (List Int × List (List (FVector2D F))) := do
  assert (faces.length % 3 == 0)
  forLoop flipTriangle (faces.length / 3) (faces, faceUv)

/-! ## ConvertToUnrealFormat -/

/-- The marker `FVector2D uninitialized{ -1, -1 }` of a slot without texture coordinates. -/
def uninitialized {F : Type} [Neg F] [One F] : FVector2D F := ⟨-1, -1⟩

/-- The `while` loop of `ConvertToUnrealFormat`: walks the duplicates of `vertexIdx` until a
slot is free or holds `currentUv`, allocating a new slot at the end of the chain.  Returns
`duplicate`, `numVertices` and `vertexIdx` at the exit of the loop; `fuel` bounds the number of
evaluations of the loop condition. -/
def chainWalk {F : Type} [FloatCompare F] [Neg F] [One F] (vertexUv : List (FVector2D F))
    (currentUv : FVector2D F) :
    Nat → List Int → Int → Int → Option (List Int × Int × Int)
  | 0, _, _, _ => none
  | fuel + 1, duplicate, numVertices, vertexIdx =>
    match TArray.at? vertexUv vertexIdx with
    | none => none
    | some c =>
      if FVector2D.ne c uninitialized && FVector2D.ne c currentUv then
        match TArray.at? duplicate vertexIdx with
        | none => none
        | some d =>
          if d = -1 then
            match TArray.put? duplicate vertexIdx numVertices with
            | none => none
            | some duplicate1 =>
              chainWalk vertexUv currentUv fuel duplicate1 (numVertices + 1) numVertices
          else chainWalk vertexUv currentUv fuel duplicate numVertices d
      else some (duplicate, numVertices, vertexIdx)

/-- The variables of the corner loop of `ConvertToUnrealFormat`. -/
structure ReindexState (F : Type) where
  faces : List Int
  duplicate : List Int
  vertexUv : List (FVector2D F)
  numVertices : Int

/-- Body of the inner loop (`j`) of `ConvertToUnrealFormat` for corner `j` of face `faceIdx`.
The `while` loop gets `vertexUv.Num() + 1` evaluations of its condition: a walk that stops
visits no slot of the tables twice, so it needs at most `vertexUv.Num()` of them. -/
def processCorner {F : Type} [FloatCompare F] [Neg F] [One F]
    (faceUv : List (List (FVector2D F))) (faceIdx : Nat) (s : ReindexState F) (j : Nat) :
    Option (ReindexState F) := do
  let vertexIdx ← TArray.at? s.faces ((faceIdx : Int) * 3 + j)
  let row ← TArray.at? faceUv faceIdx
  let currentUv ← TArray.at? row j
  let r ← chainWalk s.vertexUv currentUv (s.vertexUv.length + 1) s.duplicate s.numVertices
    vertexIdx
  let vertexUv1 ← TArray.put? s.vertexUv r.2.2 currentUv
  let faces1 ← TArray.put? s.faces ((faceIdx : Int) * 3 + j) r.2.2
  pure ⟨faces1, r.1, vertexUv1, r.2.1⟩

/-- Body of the outer loop (`faceIdx`) of `ConvertToUnrealFormat`. -/
def processFace {F : Type} [FloatCompare F] [Neg F] [One F]
    (faceUv : List (List (FVector2D F))) (s : ReindexState F) (faceIdx : Nat) :
    Option (ReindexState F) :=
  forLoop (processCorner faceUv faceIdx) 3 s

/-- The corner loop of `ConvertToUnrealFormat` with the initialisation before it. -/
def cornerLoop {F : Type} [FloatCompare F] [Neg F] [One F]
    (numOriginal : Nat) (faceUv : List (List (FVector2D F))) (faces : List Int) :
    Option (ReindexState F) :=
  forLoop (processFace faceUv) (faces.length / 3)
    ⟨faces, List.replicate faces.length (-1), List.replicate faces.length uninitialized,
      numOriginal⟩

/-- Body of `for (int i = 0; i < originalVertices.Num(); ++i)`. -/
def copyOriginal {F : Type} (originalVertices : List (FVector F))
    (s : List (FVector F) × List Int) (i : Nat) : Option (List (FVector F) × List Int) := do
  let p ← TArray.at? originalVertices i
  let vertices1 ← TArray.put? s.1 i p
  let indexMap1 ← TArray.put? s.2 i i
  pure (vertices1, indexMap1)

/-- Body of the loop over `duplicate` that fills the slots of the duplicates. -/
def copyDuplicate {F : Type} (duplicate : List Int)
    (s : List (FVector F) × List Int) (i : Nat) : Option (List (FVector F) × List Int) := do
  let d ← TArray.at? duplicate i
  if d ≠ -1 then do
    let p ← TArray.at? s.1 i
    let vertices1 ← TArray.put? s.1 d p
    let indexMap1 ← TArray.put? s.2 d i
    pure (vertices1, indexMap1)
  else pure s

/-- Body of the loop `uv[i] = vertexUv[i]`. -/
def copyUv {F : Type} (vertexUv : List (FVector2D F)) (uv : List (FVector2D F)) (i : Nat) :
    Option (List (FVector2D F)) := do
  let c ← TArray.at? vertexUv i
  TArray.put? uv i c

/-- The arrays `ConvertToUnrealFormat` leaves behind. -/
structure UnrealMesh (F : Type) where
  faces : List Int
  vertices : List (FVector F)
  uv : List (FVector2D F)
  indexMap : List Int

/-- The part of `ConvertToUnrealFormat` after the corner loop. -/
def buildOutput {F : Type} (junkV : FVector F) (junkUv : FVector2D F)
    (originalVertices : List (FVector F)) (vertices : List (FVector F))
    (uv : List (FVector2D F)) (indexMap : List Int) (s : ReindexState F) :
    Option (UnrealMesh F) := do
  let vertices0 := TArray.SetNum vertices s.numVertices junkV
  let indexMap0 := TArray.SetNum indexMap s.numVertices 0
  let r1 ← forLoop (copyOriginal originalVertices) originalVertices.length (vertices0, indexMap0)
  let r2 ← forLoop (copyDuplicate s.duplicate) s.numVertices.toNat r1
  let uv0 := TArray.SetNum uv s.numVertices junkUv
  let uv1 ← forLoop (copyUv s.vertexUv) s.numVertices.toNat uv0
  pure ⟨s.faces, r2.1, uv1, r2.2⟩

/-- Model of `ItSeez3D::ConvertToUnrealFormat`.  `vertices`, `uv` and `indexMap` are the
contents of the three output arrays before the call, `junkV` and `junkUv` the contents of a
default-constructed `FVector` and `FVector2D`. -/
def ConvertToUnrealFormat {F : Type} [FloatCompare F] [Neg F] [One F]
    (junkV : FVector F) (junkUv : FVector2D F)
    (originalVertices : List (FVector F)) (faceUv : List (List (FVector2D F)))
    (faces : List Int) (vertices : List (FVector F)) (uv : List (FVector2D F))
    (indexMap : List Int) : Option (UnrealMesh F) :=
  (cornerLoop originalVertices.length faceUv faces).bind
    (buildOutput junkV junkUv originalVertices vertices uv indexMap)

/-! ## AdjustPhysicalUnits -/

/-- `FVector::operator*=(float)`: every component is multiplied by the scalar. -/
def FVector.scaleBy {F : Type} [Mul F] (p : FVector F) (scale : F) : FVector F :=
  ⟨p.X * scale, p.Y * scale, p.Z * scale⟩

/-- Model of `ItSeez3D::AdjustPhysicalUnits(vertices, scale)`:
`for (auto &p : vertices) p *= scale;` -/
def AdjustPhysicalUnits {F : Type} [Mul F] (vertices : List (FVector F)) (scale : F) :
    List (FVector F) :=
  vertices.map fun p => p.scaleBy scale

/-! ## LoadModelFromBinPLY

The stream `std::istream &inputMesh` is the list of the bytes that are still to be read.  A
read past the end delivers the bytes that are left and leaves the rest of its buffer as it
was; the code never looks at the state of the stream.  A `float` is made from four bytes by
`decodeFloat`, which is a parameter of the model. -/

/-- The character codes of a text. -/
def bytesOf (s : String) : List Nat := s.toList.map Char.toNat

/-- The argument of `line.find("element vertex ")`. -/
def kwElementVertex : List Nat := bytesOf ("element vertex ")

/-- The argument of `line.find("property float x")`. -/
def kwPropertyFloatX : List Nat := bytesOf ("property float x")

/-- The argument of `line.find("property float nx")`. -/
def kwPropertyFloatNx : List Nat := bytesOf ("property float nx")

/-- The argument of `line.find("element face ")`. -/
def kwElementFace : List Nat := bytesOf ("element face ")

/-- The argument of `line.find("property list uchar int vertex_indices")`. -/
def kwVertexIndices : List Nat := bytesOf ("property list uchar int vertex_indices")

/-- The argument of `line.find("property list uchar float texcoord")`. -/
def kwTexcoord : List Nat := bytesOf ("property list uchar float texcoord")

/-- The argument of `line.find("end_header")`. -/
def kwEndHeader : List Nat := bytesOf ("end_header")

/-- The line and the rest of the stream of a `std::getline` on a stream that is not at its
end: the line ends before the first `'\n'`, which is taken out of the stream, or at the end
of the stream. -/
def getlineAux : List Nat → List Nat × List Nat
  | [] => ([], [])
  | c :: cs => if c = 10 then ([], cs) else ((c :: (getlineAux cs).1), (getlineAux cs).2)

/-- `std::getline(inputMesh, line)` as the condition of a loop: `none` when no byte is left
(nothing is extracted and the stream turns false), the line and the rest of the stream
otherwise. -/
def getline (inputMesh : List Nat) : Option (List Nat × List Nat) :=
  match inputMesh with
  | [] => none
  | _ :: _ => some (getlineAux inputMesh)

/-- `line.find(key) != std::string::npos`: `key` occurs in `line`. -/
def occursIn (key : List Nat) : List Nat → Bool
  | [] => decide (key = [])
  | c :: cs => key.isPrefixOf (c :: cs) || occursIn key cs

/-- `line.substr(line.find_last_of(" ") + 1)`: the text after the last space of `line`; the
whole line when it has no space (`npos + 1` is 0). -/
def afterLastSpace : List Nat → List Nat
  | [] => []
  | c :: cs => if 32 ∈ cs then afterLastSpace cs else if c = 32 then cs else c :: cs

/-- `isspace` in the "C" locale. -/
def isspace (c : Nat) : Bool := c == 32 || (9 ≤ c && c ≤ 13)

/-- The value of the leading decimal digits of a text, continuing from `acc`. -/
def atoiDigits : List Nat → Int → Int
  | [], acc => acc
  | c :: cs, acc => if 48 ≤ c ∧ c ≤ 57 then atoiDigits cs (acc * 10 + ((c : Int) - 48)) else acc

/-- `atoi`: white space, an optional sign and decimal digits; what follows the digits is
ignored and a text without digits gives 0.  A value that is not an `int` is undefined
behaviour (`none`). -/
def atoi (s : List Nat) : Option Int :=
  let v : Int :=
    match s.dropWhile isspace with
    | 45 :: r => - atoiDigits r 0
    | 43 :: r => atoiDigits r 0
    | r => atoiDigits r 0
  if -2147483648 ≤ v ∧ v < 2147483648 then some v else none

/-- Conversion of an `int` to `size_t` (64 bits). -/
def toSizeT (n : Int) : Nat := (n % 18446744073709551616).toNat

/-- The six reference parameters of `parsePlyHeader`.  A count is `none` as long as it has
no value (the two counts are uninitialised locals of `LoadModelFromBinPLY`). -/
structure PlyHeader where
  existVertices : Bool
  existVerticesNormals : Bool
  existFaces : Bool
  existUvMapping : Bool
  countElementVertexInMesh : Option Nat
  countElementFacesInMesh : Option Nat
deriving DecidableEq

/-- Body of the loop of `parsePlyHeader` for one line: the header after the line and whether
the loop is left by `break`. -/
def headerLine (hdr : PlyHeader) (line : List Nat) : Option (PlyHeader × Bool) :=
  if occursIn kwElementVertex line then
    (atoi (afterLastSpace line)).map fun n =>
      ({ hdr with countElementVertexInMesh := some (toSizeT n) }, false)
  else if occursIn kwPropertyFloatX line then
    some ({ hdr with existVertices := true }, false)
  else if occursIn kwPropertyFloatNx line then
    some ({ hdr with existVerticesNormals := true }, false)
  else if occursIn kwElementFace line then
    (atoi (afterLastSpace line)).map fun n =>
      ({ hdr with countElementFacesInMesh := some (toSizeT n) }, false)
  else if occursIn kwVertexIndices line then
    some ({ hdr with existFaces := true }, false)
  else if occursIn kwTexcoord line then
    some ({ hdr with existUvMapping := true }, false)
  else if occursIn kwEndHeader line then some (hdr, true)
  else some (hdr, false)

/-- Model of `parsePlyHeader`: the header and the stream after the loop
`while (std::getline(inputMesh, line))`; `fuel` bounds the number of lines. -/
def parsePlyHeader : Nat → List Nat → PlyHeader → Option (PlyHeader × List Nat)
  | 0, _, _ => none
  | fuel + 1, inputMesh, hdr =>
    match getline inputMesh with
    | none => some (hdr, inputMesh)
    | some (line, rest) =>
      match headerLine hdr line with
      | none => none
      | some (hdr1, true) => some (hdr1, rest)
      | some (hdr1, false) => parsePlyHeader fuel rest hdr1

/-- Content of a buffer that held `old` after a read that delivered the bytes `got`. -/
def overwrite (old got : List Nat) : List Nat := got ++ old.drop got.length

/-- The `k`-th group of four bytes of a buffer. -/
def word (bytes : List Nat) (k : Nat) : List Nat := (bytes.drop (4 * k)).take 4

/-- `TArray<float> values; values.SetNum(n); inputMesh.read((char *)values.GetData(),
sizeofFloat * n)`: the `n` values (the buffer is zeroed by `SetNum`) and the stream after the
read. -/
def readFloats {F : Type} (decodeFloat : List Nat → F) (n : Nat) (inputMesh : List Nat) :
    List F × List Nat :=
  ((List.range n).map fun k =>
      decodeFloat (word (overwrite (List.replicate (4 * n) 0) (inputMesh.take (4 * n))) k),
    inputMesh.drop (4 * n))

/-- The four bytes of an `int32` in memory, lowest byte first. -/
def int32Bytes (x : Int) : List Nat :=
  [(x % 256).toNat, (x / 256 % 256).toNat, (x / 65536 % 256).toNat,
    (x / 16777216 % 256).toNat]

/-- The `int32` that four bytes in memory hold, lowest byte first. -/
def leInt32 (bytes : List Nat) : Int :=
  let u : Int := (bytes.getD 0 0 % 256 : Nat) + 256 * (bytes.getD 1 0 % 256 : Nat) +
    65536 * (bytes.getD 2 0 % 256 : Nat) + 16777216 * (bytes.getD 3 0 % 256 : Nat)
  if u < 2147483648 then u else u - 4294967296

/-- `inputMesh.read` into a stretch of an `int32` array that holds `old`: the values after
the read and the stream after the read. -/
def readInts (old : List Int) (inputMesh : List Nat) : List Int × List Nat :=
  ((List.range old.length).map fun k =>
      leInt32 (word (overwrite (old.flatMap int32Bytes) (inputMesh.take (4 * old.length))) k),
    inputMesh.drop (4 * old.length))

/-- `xs.Init(fill, n)`: the count is passed as `int32`, an array of a count that does not
fit cannot be set up and filled. -/
def TArray.Init {α : Type} (fill : α) (n : Nat) : Option (List α) :=
  if n < 2147483648 then some (List.replicate n fill) else none

/-- The stream and the two arrays of the loop over the vertex records; an array is `none`
for a null pointer. -/
structure VertexState (F : Type) where
  inputMesh : List Nat
  vertices : Option (List (FVector F))
  verticesNormals : Option (List (FVector F))

/-- The statement `if (load) (*arr)[i] = FVector(values[first], values[first + 1],
values[first + 2]);` of the loop over the vertex records: the array after it. -/
def storeVector {F : Type} (load : Bool) (values : List F) (first : Int)
    (arr : Option (List (FVector F))) (i : Nat) : Option (Option (List (FVector F))) :=
  if load then do
    let xs ← arr
    let x ← TArray.at? values first
    let y ← TArray.at? values (first + 1)
    let z ← TArray.at? values (first + 2)
    let ys ← TArray.put? xs i ⟨x, y, z⟩
    pure (some ys)
  else pure arr

/-- Body of the loop over the vertex records of `LoadModelFromBinPLY`. -/
def readVertex {F : Type} (decodeFloat : List Nat → F) (verticesValuesInLine : Nat)
    (loadVertices loadVerticesNormals : Bool) (s : VertexState F) (i : Nat) :
    Option (VertexState F) := do
  let r := readFloats decodeFloat verticesValuesInLine s.inputMesh
  let vertices1 ← storeVector loadVertices r.1 0 s.vertices i
  let normals1 ← storeVector loadVerticesNormals r.1 3 s.verticesNormals i
  pure ⟨r.2, vertices1, normals1⟩

/-- The stream and the two arrays of the loop over the face records. -/
structure FaceState (F : Type) where
  inputMesh : List Nat
  faces : Option (List Int)
  uvMapping : Option (List (List (FVector2D F)))

/-- The part `if (loadFaces)` of the loop over the face records: the face array and the
stream after it.  The indices are read through the raw pointer `faces->GetData() + idx`, so
the stretch has to lie inside the array. -/
def readFaceIndices (loadFaces : Bool) (countVertices i : Nat) (faces : Option (List Int))
    (inputMesh : List Nat) : Option (Option (List Int) × List Nat) :=
  if loadFaces then do
    let fs ← faces
    let idx := i * countVertices
    let old := (fs.drop idx).take countVertices
    if old.length = countVertices then
      pure (some (fs.take idx ++ (readInts old inputMesh).1 ++ fs.drop (idx + countVertices)),
        (readInts old inputMesh).2)
    else none
  else pure (faces, inputMesh)

/-- The part `if (loadUvMapping)` of the loop over the face records: the UV array and the
stream after it. -/
def readFaceUv {F : Type} [Sub F] [One F] (decodeFloat : List Nat → F) (junkUv : FVector2D F)
    (loadUvMapping : Bool) (countVertices i : Nat)
    (uvMapping : Option (List (List (FVector2D F)))) (inputMesh : List Nat) :
    Option (Option (List (List (FVector2D F))) × List Nat) :=
  if loadUvMapping then do
    let uvs ← uvMapping
    let row ← TArray.at? uvs i
    let row0 := TArray.SetNum row countVertices junkUv
    let countUvMapping ← inputMesh.head?
    assert (countUvMapping == 6)
    let r := readFloats decodeFloat countUvMapping (inputMesh.drop 1)
    let row1 ← forLoop (fun (row : List (FVector2D F)) (j : Nat) => do
        let u ← TArray.at? r.1 (2 * (j : Int))
        let v ← TArray.at? r.1 (2 * (j : Int) + 1)
        TArray.put? row j ⟨u, 1 - v⟩) countVertices row0
    let uvs1 ← TArray.put? uvs i row1
    pure (some uvs1, r.2)
  else pure (uvMapping, inputMesh)

/-- Body of the loop over the face records of `LoadModelFromBinPLY`.  The count byte is an
uninitialised local: when the stream delivers no byte for it, it has no value to compare
(`none`). -/
def readFace {F : Type} [Sub F] [One F] (decodeFloat : List Nat → F) (junkUv : FVector2D F)
    (loadFaces loadUvMapping : Bool) (s : FaceState F) (i : Nat) : Option (FaceState F) := do
  let countVertices ← s.inputMesh.head?
  assert (countVertices == 3)
  let r1 ← readFaceIndices loadFaces countVertices i s.faces (s.inputMesh.drop 1)
  let r2 ← readFaceUv decodeFloat junkUv loadUvMapping countVertices i s.uvMapping r1.2
  pure ⟨r2.2, r1.1, r2.1⟩

/-- The four arrays after `LoadModelFromBinPLY` (`none` for a null pointer) and the stream
after it. -/
structure PlyOutput (F : Type) where
  vertices : Option (List (FVector F))
  verticesNormals : Option (List (FVector F))
  faces : Option (List Int)
  uvMapping : Option (List (List (FVector2D F)))
  inputMesh : List Nat

/-- The statement `if (load) arr->Init(fill, count);`: the array after it.  `count` is `none`
when the header has given the count no value. -/
def initArray {α : Type} (load : Bool) (count : Option Nat) (fill : α)
    (arr : Option (List α)) : Option (Option (List α)) :=
  if load then do
    let n ← count
    (TArray.Init fill n).map some
  else pure arr

/-- The statement `if (existVertices || existVerticesNormals) { ... }` of
`LoadModelFromBinPLY` with the loop over the vertex records. -/
def vertexSection {F : Type} (decodeFloat : List Nat → F) (hdr : PlyHeader)
    (loadVertices loadVerticesNormals : Bool) (s : VertexState F) : Option (VertexState F) :=
  if hdr.existVertices || hdr.existVerticesNormals then do
    let n ← hdr.countElementVertexInMesh
    forLoop (readVertex decodeFloat
      ((if hdr.existVertices then 3 else 0) + (if hdr.existVerticesNormals then 3 else 0))
      loadVertices loadVerticesNormals) n s
  else pure s

/-- The statement `if (loadFaces || loadUvMapping) { ... }` of `LoadModelFromBinPLY` with the
loop over the face records. -/
def faceSection {F : Type} [Sub F] [One F] (decodeFloat : List Nat → F)
    (junkUv : FVector2D F) (hdr : PlyHeader) (loadFaces loadUvMapping : Bool)
    (s : FaceState F) : Option (FaceState F) :=
  if loadFaces || loadUvMapping then do
    let n ← hdr.countElementFacesInMesh
    forLoop (readFace decodeFloat junkUv loadFaces loadUvMapping) n s
  else pure s

/-- The part of `LoadModelFromBinPLY` after the call of `parsePlyHeader`, for the header
`hdr` and the stream `body` that the call left. -/
def loadBody {F : Type} [Sub F] [One F] (decodeFloat : List Nat → F) (junkV : FVector F)
    (junkUv : FVector2D F) (hdr : PlyHeader) (body : List Nat)
    (vertices verticesNormals : Option (List (FVector F))) (faces : Option (List Int))
    (uvMapping : Option (List (List (FVector2D F)))) : Option (PlyOutput F) := do
  let loadVertices := vertices.isSome && hdr.existVertices
  let loadVerticesNormals := verticesNormals.isSome && hdr.existVerticesNormals
  let loadFaces := faces.isSome && hdr.existFaces
  let loadUvMapping := uvMapping.isSome && hdr.existUvMapping
  let vertices1 ← initArray loadVertices hdr.countElementVertexInMesh junkV vertices
  let normals1 ← initArray loadVerticesNormals hdr.countElementVertexInMesh junkV
    verticesNormals
  let faces1 ← initArray loadFaces
    (hdr.countElementFacesInMesh.map fun n => n * 3 % 18446744073709551616) 0 faces
  let uv1 ← initArray loadUvMapping hdr.countElementFacesInMesh [] uvMapping
  assert (hdr.existVertices || !hdr.existVerticesNormals)
  let vs ← vertexSection decodeFloat hdr loadVertices loadVerticesNormals
    ⟨body, vertices1, normals1⟩
  assert (hdr.existFaces || !hdr.existUvMapping)
  let fs ← faceSection decodeFloat junkUv hdr loadFaces loadUvMapping
    ⟨vs.inputMesh, faces1, uv1⟩
  pure ⟨vs.vertices, vs.verticesNormals, fs.faces, fs.uvMapping, fs.inputMesh⟩

/-- Model of `ItSeez3D::LoadModelFromBinPLY`.  `vertices`, `verticesNormals`, `faces` and
`uvMapping` are the four pointer arguments: `none` for a null pointer, the content of the
array before the call otherwise.  `junkV` and `junkUv` are the contents of a
default-constructed `FVector` and `FVector2D`.  The header loop gets one round per byte of
the stream and one more: every line takes at least one byte out of the stream. -/
def LoadModelFromBinPLY {F : Type} [Sub F] [One F] (decodeFloat : List Nat → F)
    (junkV : FVector F) (junkUv : FVector2D F) (inputMesh : List Nat)
    (vertices verticesNormals : Option (List (FVector F))) (faces : Option (List Int))
    (uvMapping : Option (List (List (FVector2D F)))) : Option (PlyOutput F) :=
  (parsePlyHeader (inputMesh.length + 1) inputMesh
      ⟨false, false, false, false, none, none⟩).bind fun r =>
    loadBody decodeFloat junkV junkUv r.1 r.2 vertices verticesNormals faces uvMapping

/-! ## Auxiliary definitions for `FlipNormals` -/

/-- Position read by `FlipNormals` for position `k` of the face array: the second and third
corner of each triangle trade places. -/
def swapIdx (k : Int) : Int :=
  if k % 3 = 1 then k + 1 else if k % 3 = 2 then k - 1 else k


/-- A row of three pairs with the second and third pair exchanged. -/
def flipRow {α : Type} : List α → List α
  | [a, b, c] => [a, c, b]
  | r => r


/-- Loop invariant of `FlipNormals` after `n` triangles. -/
def FlipInv {F : Type} (faces : List Int) (faceUv : List (List (FVector2D F))) (n : Nat)
    (s : List Int × List (List (FVector2D F))) : Prop :=
  s.1.length = faces.length ∧ s.2.length = faceUv.length ∧
  (∀ k : Int, TArray.at? s.1 k =
    if k < 3 * (n : Int) then TArray.at? faces (swapIdx k) else TArray.at? faces k) ∧
  (∀ i : Int, TArray.at? s.2 i =
    if i < (n : Int) then (TArray.at? faceUv i).map flipRow else TArray.at? faceUv i)


/-! ## Invariants of `ConvertToUnrealFormat` -/

/-- What the theorems use of the comparison of two `float` values: `==` is symmetric and
transitive, and `-1 == -1` holds.  That `a == a` holds for every `a` is not required (it
fails for NaN). -/
class LawfulFloatCompare (F : Type) [FloatCompare F] [Neg F] [One F] : Prop where
  symm : ∀ a b : F, FloatCompare.eq a b = true → FloatCompare.eq b a = true
  trans : ∀ a b c : F, FloatCompare.eq a b = true → FloatCompare.eq b c = true →
    FloatCompare.eq a c = true
  neg_one : FloatCompare.eq (-1 : F) (-1) = true

/-- The test `a != b` of two `FVector2D` holds. -/
def UvNe {F : Type} [FloatCompare F] (a b : FVector2D F) : Prop := FVector2D.ne a b = true

/-- Invariant of the tables `duplicate` and `vertexUv` and of `numVertices` between two
corners; `root` sends a slot to the original vertex it was duplicated from. -/
structure TableInv {F : Type} [FloatCompare F] [Neg F] [One F] (numOriginal : Nat)
    (root : Int → Int)
    (duplicate : List Int) (vertexUv : List (FVector2D F)) (numVertices : Int) : Prop where
  num_ge : (numOriginal : Int) ≤ numVertices
  dup_range : ∀ p d, TArray.at? duplicate p = some d → d ≠ -1 →
    (numOriginal : Int) ≤ d ∧ p < d ∧ d < numVertices
  dup_inj : ∀ p q d, TArray.at? duplicate p = some d → TArray.at? duplicate q = some d →
    d ≠ -1 → p = q
  dup_surj : ∀ d, (numOriginal : Int) ≤ d → d < numVertices →
    ∃ p, TArray.at? duplicate p = some d
  fresh_uv : ∀ i c, numVertices ≤ i → TArray.at? vertexUv i = some c → c = uninitialized
  fresh_dup : ∀ i d, numVertices ≤ i → TArray.at? duplicate i = some d → d = -1
  dup_init : ∀ p d c, TArray.at? duplicate p = some d → d ≠ -1 →
    TArray.at? vertexUv p = some c → UvNe c uninitialized
  root_orig : ∀ i, 0 ≤ i → i < (numOriginal : Int) → root i = i
  root_dup : ∀ p d, TArray.at? duplicate p = some d → d ≠ -1 → root d = root p
  root_range : ∀ i, 0 ≤ i → i < numVertices → 0 ≤ root i ∧ root i < (numOriginal : Int)

/-- Invariant of the `while` loop at slot `cur` on the chain of the original vertex `r`: every
slot of the chain before `cur` holds coordinates other than `c` and is linked forward. -/
def WalkInv {F : Type} [FloatCompare F] [Neg F] [One F] (root : Int → Int) (duplicate : List Int)
    (vertexUv : List (FVector2D F)) (numVertices : Int) (c : FVector2D F) (r : Int)
    (cur : Int) : Prop :=
  0 ≤ cur ∧ cur < numVertices ∧ root cur = r ∧
  ∀ a, 0 ≤ a → a < cur → root a = r →
    ∃ x d, TArray.at? vertexUv a = some x ∧ UvNe x uninitialized ∧ UvNe x c ∧
      TArray.at? duplicate a = some d ∧ d ≠ -1 ∧ d ≤ cur

/-- Texture coordinates of corner `k` (corner `k % 3` of face `k / 3`) in `faceUv`. -/
def cornerUv {F : Type} (faceUv : List (List (FVector2D F))) (k : Nat) :
    Option (FVector2D F) :=
  (TArray.at? faceUv ((k / 3 : Nat) : Int)).bind fun row =>
    TArray.at? row ((k % 3 : Nat) : Int)

/-- The test `!=` holds between the texture coordinates of the corners `k` and `k1`. -/
def cornerUvNe {F : Type} [FloatCompare F] (faceUv : List (List (FVector2D F)))
    (k k1 : Nat) : Bool :=
  match cornerUv faceUv k, cornerUv faceUv k1 with
  | some c, some c1 => FVector2D.ne c c1
  | _, _ => false

/-- What the `while` loop leaves behind when it was entered at the original vertex `v0` with
the coordinates `c` and left at slot `e`: `root`, `duplicate`, `numVertices` are the values
before the loop, `root1`, `duplicate1`, `numVertices1` those after it. -/
structure WalkPost {F : Type} [FloatCompare F] [Neg F] [One F] (numOriginal : Nat)
    (root root1 : Int → Int)
    (duplicate duplicate1 : List Int) (vertexUv : List (FVector2D F))
    (numVertices numVertices1 : Int) (c : FVector2D F) (v0 e : Int) : Prop where
  table : TableInv numOriginal root1 duplicate1 vertexUv numVertices1
  len_dup : duplicate1.length = duplicate.length
  e_range : 0 ≤ e ∧ e < numVertices1
  root_e : root1 e = v0
  e_uv : ∃ x, TArray.at? vertexUv e = some x ∧ (¬ UvNe x uninitialized ∨ ¬ UvNe x c)
  parent_uv : ∀ q xq, TArray.at? duplicate1 q = some e → TArray.at? vertexUv q = some xq →
    UvNe xq c
  start_uv : e ≠ v0 → ∃ x0, TArray.at? vertexUv v0 = some x0 ∧ UvNe x0 uninitialized
  root_same : ∀ i, i < numVertices → root1 i = root i
  num_mono : numVertices ≤ numVertices1
  new_slot : ∀ i, numVertices ≤ i → i < numVertices1 → i = e
  links : ∀ q d, TArray.at? duplicate1 q = some d → d ≠ -1 →
    TArray.at? duplicate q = some d ∨
    (d = e ∧ q < numVertices ∧ root q = v0 ∧
      ∃ x, TArray.at? vertexUv q = some x ∧ UvNe x uninitialized ∧ UvNe x c)

/-- Invariant of the corner loop of `ConvertToUnrealFormat` after `n` corners, for the face
array `faces0` the call started from. -/
structure ReindexInv {F : Type} [FloatCompare F] [Neg F] [One F] (numOriginal : Nat)
    (faceUv : List (List (FVector2D F))) (faces0 : List Int) (root : Int → Int) (n : Nat)
    (s : ReindexState F) : Prop where
  table : TableInv numOriginal root s.duplicate s.vertexUv s.numVertices
  len_faces : s.faces.length = faces0.length
  len_dup : s.duplicate.length = faces0.length
  len_uv : s.vertexUv.length = faces0.length
  faces_rest : ∀ k : Nat, n ≤ k → TArray.at? s.faces k = TArray.at? faces0 k
  faces_done : ∀ k : Nat, k < n → ∃ v c, TArray.at? s.faces k = some v ∧ 0 ≤ v ∧
    v < s.numVertices ∧ TArray.at? faces0 k = some (root v) ∧ cornerUv faceUv k = some c
  uv_src : ∀ i c, TArray.at? s.vertexUv i = some c → c ≠ uninitialized →
    ∃ k : Nat, k < n ∧ TArray.at? faces0 k = some (root i) ∧ cornerUv faceUv k = some c
  link_uv : ∀ p d cp cd, TArray.at? s.duplicate p = some d → d ≠ -1 →
    TArray.at? s.vertexUv p = some cp → TArray.at? s.vertexUv d = some cd → UvNe cp cd
  dup_src : ∀ p d, TArray.at? s.duplicate p = some d → d ≠ -1 →
    ∃ (k k1 : Nat) (c c1 : FVector2D F), k < n ∧ k1 < n ∧
      TArray.at? faces0 k = some (root p) ∧ TArray.at? faces0 k1 = some (root p) ∧
      cornerUv faceUv k = some c ∧ cornerUv faceUv k1 = some c1 ∧ UvNe c c1
  slot_used : ∀ i, 0 ≤ i → i < s.numVertices →
    ((numOriginal : Int) ≤ i ∨ ∃ k : Nat, k < n ∧ TArray.at? faces0 k = some i) →
    ∃ k : Nat, k < n ∧ TArray.at? s.faces k = some i

/-- The variables of the corner loop of `ConvertToUnrealFormat` after `m` faces and the
first `j` corners of face `m`. -/
def cornerLoopAt {F : Type} [FloatCompare F] [Neg F] [One F]
    (numOriginal : Nat) (faceUv : List (List (FVector2D F))) (faces : List Int)
    (m j : Nat) : Option (ReindexState F) :=
  (forLoop (processFace faceUv) m
    ⟨faces, List.replicate faces.length (-1), List.replicate faces.length uninitialized,
      numOriginal⟩).bind (forLoop (processCorner faceUv m) j)


/-- The slot below `numOriginal` that is reached from slot `i` by going from a slot to
`indexMap` of the slot again and again; `fuel` bounds the number of slots visited. -/
def originOf (indexMap : List Int) (numOriginal : Nat) : Nat → Int → Option Int
  | 0, _ => none
  | fuel + 1, i =>
    if 0 ≤ i ∧ i < (numOriginal : Int) then some i
    else (TArray.at? indexMap i).bind (originOf indexMap numOriginal fuel)
/-! ## Auxiliary definitions for `LoadModelFromBinPLY` -/

/-- The bytes of vertex record `i` as the loop over the vertex records gets them: `4 * n`
bytes from position `4 * n * i` of the stream after the header, zeros where the stream has
ended. -/
def vertexRecord (body : List Nat) (n i : Nat) : List Nat :=
  overwrite (List.replicate (4 * n) 0) ((body.drop (4 * n * i)).take (4 * n))

/-- The vector made from the values `first`, `first + 1`, `first + 2` of a record. -/
def vectorOf {F : Type} (decodeFloat : List Nat → F) (record : List Nat) (first : Nat) :
    FVector F :=
  ⟨decodeFloat (word record first), decodeFloat (word record (first + 1)),
    decodeFloat (word record (first + 2))⟩

/-- Invariant of one array of the loop over the vertex records after `m` records. -/
def VectorsRead {F : Type} (decodeFloat : List Nat → F) (body : List Nat) (n count : Nat)
    (load : Bool) (first : Nat) (arr0 : Option (List (FVector F))) (m : Nat)
    (arr : Option (List (FVector F))) : Prop :=
  if load then
    ∃ xs, arr = some xs ∧ xs.length = count ∧
      ∀ k : Nat, k < m →
        TArray.at? xs k = some (vectorOf decodeFloat (vertexRecord body n k) first)
  else arr = arr0

/-- The three vertex indices that the twelve index bytes of a face record hold. -/
def indicesOf (idx : List Nat) : List Int :=
  [leInt32 (word idx 0), leInt32 (word idx 1), leInt32 (word idx 2)]

/-- The three pairs made from the six values `f` that the UV bytes of a face record hold:
`(f[0], 1 - f[1])`, `(f[2], 1 - f[3])`, `(f[4], 1 - f[5])`. -/
def uvRowOf {F : Type} [Sub F] [One F] (decodeFloat : List Nat → F) (uvb : List Nat) :
    List (FVector2D F) :=
  [⟨decodeFloat (word uvb 0), 1 - decodeFloat (word uvb 1)⟩,
    ⟨decodeFloat (word uvb 2), 1 - decodeFloat (word uvb 3)⟩,
    ⟨decodeFloat (word uvb 4), 1 - decodeFloat (word uvb 5)⟩]

/-- The bytes that the loop over the face records takes for one record with the index bytes
`r.1` and the UV bytes `r.2`: the count 3, the index bytes when faces are loaded, and the
count 6 with the UV bytes when the UV mapping is loaded. -/
def faceRecordBytes (loadFaces loadUvMapping : Bool) (r : List Nat × List Nat) : List Nat :=
  3 :: ((if loadFaces then r.1 else []) ++ (if loadUvMapping then 6 :: r.2 else []))

/-- The face array after `m` of `count` face records `recs` have been read: the indices of
the records read, zeros (from `Init`) behind them; the array of the caller when faces are not
loaded. -/
def facesAfter (loadFaces : Bool) (count : Nat) (recs : List (List Nat × List Nat)) (m : Nat)
    (faces0 : Option (List Int)) : Option (List Int) :=
  if loadFaces then
    some ((recs.take m).flatMap (fun r => indicesOf r.1) ++ List.replicate (3 * (count - m)) 0)
  else faces0

/-- The UV array after `m` of `count` face records `recs` have been read: the rows of the
records read, empty rows (from `Init`) behind them; the array of the caller when the UV
mapping is not loaded. -/
def uvAfter {F : Type} [Sub F] [One F] (decodeFloat : List Nat → F) (loadUvMapping : Bool)
    (count : Nat) (recs : List (List Nat × List Nat)) (m : Nat)
    (uv0 : Option (List (List (FVector2D F)))) : Option (List (List (FVector2D F))) :=
  if loadUvMapping then
    some ((recs.take m).map (fun r => uvRowOf decodeFloat r.2) ++ List.replicate (count - m) [])
  else uv0


/-- The number of `float` values of one vertex record. -/
def valuesInLine (hdr : PlyHeader) : Nat :=
  (if hdr.existVertices then 3 else 0) + (if hdr.existVerticesNormals then 3 else 0)

/-- An array of vectors after the loop over `count` vertex records: the vectors made from
the values `first`, `first + 1`, `first + 2` of the records when the array is loaded, the
array of the caller otherwise. -/
def vectorsAfter {F : Type} (decodeFloat : List Nat → F) (body : List Nat) (n count : Nat)
    (load : Bool) (first : Nat) (arr : Option (List (FVector F))) :
    Option (List (FVector F)) :=
  if load then
    some ((List.range count).map fun i => vectorOf decodeFloat (vertexRecord body n i) first)
  else arr

/-- The part of `loadBody` behind the loop over the vertex records, for the stream `rest`
and the two arrays of vectors that the loop left. -/
def loadFaceStage {F : Type} [Sub F] [One F] (decodeFloat : List Nat → F)
    (junkUv : FVector2D F) (hdr : PlyHeader) (rest : List Nat)
    (verticesOut normalsOut : Option (List (FVector F))) (faces : Option (List Int))
    (uvMapping : Option (List (List (FVector2D F)))) : Option (PlyOutput F) :=
  (initArray (faces.isSome && hdr.existFaces)
    (hdr.countElementFacesInMesh.map fun n => n * 3 % 18446744073709551616) 0 faces).bind
  fun faces1 =>
  (initArray (uvMapping.isSome && hdr.existUvMapping) hdr.countElementFacesInMesh []
    uvMapping).bind fun uv1 =>
  (assert (hdr.existFaces || !hdr.existUvMapping)).bind fun _ =>
  (faceSection decodeFloat junkUv hdr (faces.isSome && hdr.existFaces)
    (uvMapping.isSome && hdr.existUvMapping) ⟨rest, faces1, uv1⟩).bind fun fs =>
  some ⟨verticesOut, normalsOut, fs.faces, fs.uvMapping, fs.inputMesh⟩

/-- The seven texts that `parsePlyHeader` looks for in a line. -/
def headerKeywords : List (List Nat) :=
  [kwElementVertex, kwPropertyFloatX, kwPropertyFloatNx, kwElementFace, kwVertexIndices,
    kwTexcoord, kwEndHeader]

/-- The number of the texts of `headerKeywords` that occur in a line. -/
def keywordCount (line : List Nat) : Nat :=
  (headerKeywords.map fun k => (occursIn k line).toNat).sum

/-- The last of the lines `ls` in which `key` occurs. -/
def lastLineWith (key : List Nat) (ls : List (List Nat)) : Option (List Nat) :=
  (ls.filter (occursIn key)).getLast?

/-- The count that a line with `element vertex ` or `element face ` gives: `atoi` of the text
after the last space of the line, as `size_t`. -/
def lineCount (line : List Nat) : Option Nat := (atoi (afterLastSpace line)).map toSizeT

/-- The header after a line in which at most one of the texts of `headerKeywords` occurs. -/
def headerAfterLine (hdr : PlyHeader) (line : List Nat) : PlyHeader :=
  ⟨hdr.existVertices || occursIn kwPropertyFloatX line,
    hdr.existVerticesNormals || occursIn kwPropertyFloatNx line,
    hdr.existFaces || occursIn kwVertexIndices line,
    hdr.existUvMapping || occursIn kwTexcoord line,
    if occursIn kwElementVertex line then lineCount line else hdr.countElementVertexInMesh,
    if occursIn kwElementFace line then lineCount line else hdr.countElementFacesInMesh⟩

/-- Following the spec's words ("last whitespace-separated token, parsed as integer"): the
value of the last of the tokens that white space separates in a line. -/
def specLastTokenValue (line : List Nat) : Option Int :=
  ((line.splitOnP isspace).filter fun t => !t.isEmpty).getLast?.bind atoi
/-! ## Sample meshes -/

/-- The comparison of the scalars of the sample meshes over `Int`. -/
instance intFloatCompare : FloatCompare Int := ⟨fun a b => decide (a = b)⟩

/-- The comparison of integers has the properties that the theorems use. -/
instance intLawfulFloatCompare : LawfulFloatCompare Int where
  symm := fun a b h => by
    simp only [FloatCompare.eq, decide_eq_true_eq] at h ⊢
    exact h.symm
  trans := fun a b c h1 h2 => by
    simp only [FloatCompare.eq, decide_eq_true_eq] at h1 h2 ⊢
    exact h1.trans h2
  neg_one := by simp [FloatCompare.eq]

/-- Scalars with a value that is not a number: as the `float` NaN, `nan` compares unequal to
every scalar, itself included. -/
inductive SampleFloat where
  | num (n : Int)
  | nan
deriving DecidableEq

/-- The comparison `==` of two `SampleFloat`. -/
instance sampleFloatCompare : FloatCompare SampleFloat :=
  ⟨fun a b =>
    match a, b with
    | SampleFloat.num x, SampleFloat.num y => decide (x = y)
    | _, _ => false⟩

/-- Negation of a `SampleFloat`. -/
instance sampleFloatNeg : Neg SampleFloat :=
  ⟨fun a =>
    match a with
    | SampleFloat.num x => SampleFloat.num (-x)
    | SampleFloat.nan => SampleFloat.nan⟩

/-- The scalar 1. -/
instance sampleFloatOne : One SampleFloat := ⟨SampleFloat.num 1⟩

/-- The comparison of `SampleFloat` has the properties that the theorems use, and `nan` does
not compare equal to itself. -/
instance sampleFloatLawful : LawfulFloatCompare SampleFloat where
  symm := fun a b h => by
    cases a <;> cases b <;> simp_all [FloatCompare.eq]
  trans := fun a b c h1 h2 => by
    cases a <;> cases b <;> cases c <;> simp_all [FloatCompare.eq]
  neg_one := by decide

/-- The four corners of the unit square. -/
def squareVertices : List (FVector Int) := [⟨0, 0, 0⟩, ⟨1, 0, 0⟩, ⟨1, 1, 0⟩, ⟨0, 1, 0⟩]

/-- The unit square as two triangles that share the edge from vertex 0 to vertex 2. -/
def squareFaces : List Int := [0, 1, 2, 0, 2, 3]

/-- Texture coordinates of the square in which both triangles agree at the shared vertices. -/
def squareUvWelded : List (List (FVector2D Int)) :=
  [[⟨0, 0⟩, ⟨1, 0⟩, ⟨1, 1⟩], [⟨0, 0⟩, ⟨1, 1⟩, ⟨0, 1⟩]]

/-- Texture coordinates of the square in which the second triangle gives vertex 0 other
coordinates than the first. -/
def squareUvSplit : List (List (FVector2D Int)) :=
  [[⟨0, 0⟩, ⟨1, 0⟩, ⟨1, 1⟩], [⟨5, 5⟩, ⟨1, 1⟩, ⟨0, 1⟩]]

/-- Texture coordinates of the square in which the first triangle gives vertex 0 the
coordinates `(-1, -1)` and the second triangle gives it `(0, 0)`. -/
def squareUvMarker : List (List (FVector2D Int)) :=
  [[⟨-1, -1⟩, ⟨1, 0⟩, ⟨1, 1⟩], [⟨0, 0⟩, ⟨1, 1⟩, ⟨0, 1⟩]]

/-- Apex 0 and the three base vertices of a fan of three triangles. -/
def fanVertices : List (FVector Int) := [⟨0, 0, 1⟩, ⟨1, 0, 0⟩, ⟨0, 1, 0⟩, ⟨-1, -1, 0⟩]

/-- Three triangles around vertex 0. -/
def fanFaces : List Int := [0, 1, 2, 0, 2, 3, 0, 3, 1]

/-- Texture coordinates of the fan: each triangle gives vertex 0 coordinates of its own, the
base vertices have the same coordinates in every triangle. -/
def fanUv : List (List (FVector2D Int)) :=
  [[⟨5, 0⟩, ⟨1, 0⟩, ⟨2, 0⟩], [⟨5, 1⟩, ⟨2, 0⟩, ⟨3, 0⟩], [⟨5, 2⟩, ⟨3, 0⟩, ⟨1, 0⟩]]

/-- The square after `ConvertToUnrealFormat` when no vertex needs a duplicate. -/
def squareMesh : UnrealMesh Int :=
  ⟨[0, 1, 2, 0, 2, 3], [⟨0, 0, 0⟩, ⟨1, 0, 0⟩, ⟨1, 1, 0⟩, ⟨0, 1, 0⟩],
    [⟨0, 0⟩, ⟨1, 0⟩, ⟨1, 1⟩, ⟨0, 1⟩], [0, 1, 2, 3]⟩

/-- The square after `ConvertToUnrealFormat` with the texture coordinates `squareUvSplit`:
slot 4 is the duplicate of vertex 0. -/
def squareSplitMesh : UnrealMesh Int :=
  ⟨[0, 1, 2, 4, 2, 3], [⟨0, 0, 0⟩, ⟨1, 0, 0⟩, ⟨1, 1, 0⟩, ⟨0, 1, 0⟩, ⟨0, 0, 0⟩],
    [⟨0, 0⟩, ⟨1, 0⟩, ⟨1, 1⟩, ⟨0, 1⟩, ⟨5, 5⟩], [0, 1, 2, 3, 0]⟩

/-- The fan after `ConvertToUnrealFormat`: slot 4 is the duplicate of vertex 0 and slot 5 the
duplicate of slot 4. -/
def fanMesh : UnrealMesh Int :=
  ⟨[0, 1, 2, 4, 2, 3, 5, 3, 1],
    [⟨0, 0, 1⟩, ⟨1, 0, 0⟩, ⟨0, 1, 0⟩, ⟨-1, -1, 0⟩, ⟨0, 0, 1⟩, ⟨0, 0, 1⟩],
    [⟨5, 0⟩, ⟨1, 0⟩, ⟨2, 0⟩, ⟨3, 0⟩, ⟨5, 1⟩, ⟨5, 2⟩], [0, 1, 2, 3, 0, 4]⟩

/-- One triangle on the first three corners of the unit square; vertex 3 is in no face. -/
def looseFaces : List Int := [0, 1, 2]

/-- Texture coordinates of the single triangle `looseFaces`. -/
def looseUv : List (List (FVector2D Int)) := [[⟨0, 0⟩, ⟨1, 0⟩, ⟨1, 1⟩]]

/-- The four corners of the unit square over `SampleFloat`. -/
def nanSquareVertices : List (FVector SampleFloat) :=
  [⟨SampleFloat.num 0, SampleFloat.num 0, SampleFloat.num 0⟩,
    ⟨SampleFloat.num 1, SampleFloat.num 0, SampleFloat.num 0⟩,
    ⟨SampleFloat.num 1, SampleFloat.num 1, SampleFloat.num 0⟩,
    ⟨SampleFloat.num 0, SampleFloat.num 1, SampleFloat.num 0⟩]

/-- Texture coordinates of the square in which both triangles give vertex 0 the same pair
`(nan, 0)` and agree at the other shared vertex. -/
def nanSquareUv : List (List (FVector2D SampleFloat)) :=
  [[⟨SampleFloat.nan, SampleFloat.num 0⟩, ⟨SampleFloat.num 1, SampleFloat.num 0⟩,
      ⟨SampleFloat.num 1, SampleFloat.num 1⟩],
    [⟨SampleFloat.nan, SampleFloat.num 0⟩, ⟨SampleFloat.num 1, SampleFloat.num 1⟩,
      ⟨SampleFloat.num 0, SampleFloat.num 1⟩]]
/-! ## Sample streams -/

/-- A header that declares two vertices with positions and one face with vertex indices and
texture coordinates. -/
def sampleHeader : List Nat :=
  bytesOf ("ply\nformat binary_little_endian 1.0\nelement vertex 2\nproperty float x\n") ++
  bytesOf ("property float y\nproperty float z\nelement face 1\n") ++
  bytesOf ("property list uchar int vertex_indices\n") ++
  bytesOf ("property list uchar float texcoord\nend_header\n")

/-- The header `sampleHeader` after `parsePlyHeader`. -/
def sampleHeaderFlags : PlyHeader := ⟨true, false, true, true, some 2, some 1⟩

/-- Two vertex records of three values each. -/
def sampleVertexBytes : List Nat :=
  [1, 0, 0, 0, 2, 0, 0, 0, 3, 0, 0, 0, 4, 0, 0, 0, 5, 0, 0, 0, 6, 0, 0, 0]

/-- One face record: the count 3, the indices 0, 1, 0, the count 6 and six values. -/
def sampleFaceBytes : List Nat :=
  [3, 0, 0, 0, 0, 1, 0, 0, 0, 0, 0, 0, 0,
    6, 7, 0, 0, 0, 8, 0, 0, 0, 9, 0, 0, 0, 10, 0, 0, 0, 11, 0, 0, 0, 12, 0, 0, 0]

/-- The sample stream: header, vertex records, face record. -/
def sampleStream : List Nat := sampleHeader ++ sampleVertexBytes ++ sampleFaceBytes

/-- The index bytes and the UV bytes of the face record of `sampleFaceBytes`. -/
def sampleRecords : List (List Nat × List Nat) :=
  [([0, 0, 0, 0, 1, 0, 0, 0, 0, 0, 0, 0],
    [7, 0, 0, 0, 8, 0, 0, 0, 9, 0, 0, 0, 10, 0, 0, 0, 11, 0, 0, 0, 12, 0, 0, 0])]


/-- A header that declares normals and no positions. -/
def sampleNormalsOnly : List Nat :=
  bytesOf ("ply\nelement vertex 1\nproperty float nx\nend_header\n")

/-- The header `sampleHeader` and 14 bytes: the first vertex record and two bytes of the
second. -/
def sampleShortStream : List Nat := sampleHeader ++ sampleVertexBytes.take 14

/-- A header whose line with the vertex count ends in a space. -/
def sampleTrailingSpace : List Nat := bytesOf ("element vertex 4 \nend_header\n")

/-- The lines of `sampleHeader` before the line with `end_header`. -/
def sampleHeaderLines : List (List Nat) :=
  [bytesOf ("ply"), bytesOf ("format binary_little_endian 1.0"), bytesOf ("element vertex 2"),
    bytesOf ("property float x"), bytesOf ("property float y"), bytesOf ("property float z"),
    bytesOf ("element face 1"), bytesOf ("property list uchar int vertex_indices"),
    bytesOf ("property list uchar float texcoord")]

/-- A header as `sampleHeader` that declares two faces. -/
def sampleTwoFaceHeader : List Nat :=
  bytesOf ("ply\nformat binary_little_endian 1.0\nelement vertex 2\nproperty float x\n") ++
  bytesOf ("property float y\nproperty float z\nelement face 2\n") ++
  bytesOf ("property list uchar int vertex_indices\n") ++
  bytesOf ("property list uchar float texcoord\nend_header\n")

/-- A stream with two vertex records and two face records. -/
def sampleTwoFaceStream : List Nat :=
  sampleTwoFaceHeader ++ sampleVertexBytes ++ sampleFaceBytes ++ sampleFaceBytes
/-! ## Array accesses and loops -/

theorem TArray.at?_natCast {α : Type} (xs : List α) (n : Nat) :
    TArray.at? xs (n : Int) = xs[n]? := by
  simp [TArray.at?]

theorem TArray.at?_bounds {α : Type} {xs : List α} {i : Int} {v : α}
    (h : TArray.at? xs i = some v) : 0 ≤ i ∧ i < xs.length := by
  unfold TArray.at? at h
  split at h
  · rename_i h0
    have := List.getElem?_eq_some_iff.1 h
    obtain ⟨hlt, -⟩ := this
    omega
  · simp at h

theorem TArray.at?_none {α : Type} {xs : List α} {i : Int}
    (h : i < 0 ∨ (xs.length : Int) ≤ i) : TArray.at? xs i = none := by
  cases h1 : TArray.at? xs i with
  | none => rfl
  | some v => have := TArray.at?_bounds h1; omega

theorem TArray.at?_of_bounds {α : Type} {xs : List α} {i : Int} (h0 : 0 ≤ i)
    (h1 : i < xs.length) : ∃ v, TArray.at? xs i = some v := by
  have hlt : i.toNat < xs.length := by omega
  exact ⟨xs[i.toNat], by simp [TArray.at?, h0, List.getElem?_eq_getElem hlt]⟩

theorem TArray.put?_bounds {α : Type} {xs ys : List α} {i : Int} {v : α}
    (h : TArray.put? xs i v = some ys) : 0 ≤ i ∧ i < xs.length := by
  unfold TArray.put? at h
  split at h
  · assumption
  · simp at h

theorem TArray.put?_length {α : Type} {xs ys : List α} {i : Int} {v : α}
    (h : TArray.put? xs i v = some ys) : ys.length = xs.length := by
  unfold TArray.put? at h
  split at h
  · simp at h; subst h; simp
  · simp at h

theorem TArray.put?_of_bounds {α : Type} {xs : List α} {i : Int} (v : α) (h0 : 0 ≤ i)
    (h1 : i < xs.length) : ∃ ys, TArray.put? xs i v = some ys :=
  ⟨xs.set i.toNat v, by simp [TArray.put?, h0, h1]⟩

theorem TArray.at?_put? {α : Type} {xs ys : List α} {i : Int} {v : α}
    (h : TArray.put? xs i v = some ys) (j : Int) :
    TArray.at? ys j = if j = i then some v else TArray.at? xs j := by
  have hb := TArray.put?_bounds h
  unfold TArray.put? at h
  rw [if_pos hb] at h
  simp at h
  subst h
  unfold TArray.at?
  by_cases hj : 0 ≤ j
  · simp only [hj, if_true]
    by_cases hji : j = i
    · subst hji
      have : j.toNat < xs.length := by omega
      simp [this]
    · have : i.toNat ≠ j.toNat := by omega
      simp [hji, List.getElem?_set_ne this]
  · have : j ≠ i := by omega
    simp [hj, this]

theorem TArray.at?_put?_self {α : Type} {xs ys : List α} {i : Int} {v : α}
    (h : TArray.put? xs i v = some ys) : TArray.at? ys i = some v := by
  rw [TArray.at?_put? h]; simp

theorem TArray.at?_put?_ne {α : Type} {xs ys : List α} {i j : Int} {v : α}
    (h : TArray.put? xs i v = some ys) (hne : j ≠ i) : TArray.at? ys j = TArray.at? xs j := by
  rw [TArray.at?_put? h]; simp [hne]

theorem TArray.at?_replicate {α : Type} {n : Nat} {a v : α} {i : Int}
    (h : TArray.at? (List.replicate n a) i = some v) : v = a := by
  unfold TArray.at? at h
  split at h
  · have := List.getElem?_eq_some_iff.1 h
    obtain ⟨hlt, he⟩ := this
    simp at he
    exact he.symm
  · simp at h

theorem TArray.ext {α : Type} {xs ys : List α}
    (h : ∀ i : Int, TArray.at? xs i = TArray.at? ys i) : xs = ys := by
  apply List.ext_getElem?
  intro n
  have := h n
  simpa [TArray.at?_natCast] using this

theorem TArray.SetNum_length {α : Type} (xs : List α) (n : Int) (fill : α) :
    (TArray.SetNum xs n fill).length = n.toNat := by
  simp [TArray.SetNum]
  omega

theorem forLoop_inv {σ : Type} (body : σ → Nat → Option σ) (Inv : Nat → σ → Prop) (N : Nat)
    (s0 : σ) (h0 : Inv 0 s0)
    (hstep : ∀ n s t, n < N → Inv n s → body s n = some t → Inv (n + 1) t) :
    ∀ t, forLoop body N s0 = some t → Inv N t := by
  have key : ∀ n, n ≤ N → ∀ t, forLoop body n s0 = some t → Inv n t := by
    intro n
    induction n with
    | zero =>
      intro _ t ht
      simp [forLoop] at ht
      subst ht
      exact h0
    | succ n ih =>
      intro hn t ht
      simp only [forLoop, Option.bind_eq_some] at ht
      obtain ⟨s, hs, hst⟩ := ht
      exact hstep n s t (by omega) (ih (by omega) s hs) hst
  exact key N le_rfl

theorem forLoop_total {σ : Type} (body : σ → Nat → Option σ) (Inv : Nat → σ → Prop) (N : Nat)
    (s0 : σ) (h0 : Inv 0 s0)
    (hstep : ∀ n s, n < N → Inv n s → ∃ t, body s n = some t ∧ Inv (n + 1) t) :
    ∃ t, forLoop body N s0 = some t ∧ Inv N t := by
  have key : ∀ n, n ≤ N → ∃ t, forLoop body n s0 = some t ∧ Inv n t := by
    intro n
    induction n with
    | zero => intro _; exact ⟨s0, rfl, h0⟩
    | succ n ih =>
      intro hn
      obtain ⟨s, hs, hi⟩ := ih (by omega)
      obtain ⟨t, ht, hit⟩ := hstep n s (by omega) hi
      exact ⟨t, by simp [forLoop, hs, ht], hit⟩
  exact key N le_rfl

/-! ## The comparison of texture coordinates -/

theorem not_UvNe_iff {F : Type} [FloatCompare F] (a b : FVector2D F) :
    ¬ UvNe a b ↔ FloatCompare.eq a.X b.X = true ∧ FloatCompare.eq a.Y b.Y = true := by
  unfold UvNe FVector2D.ne
  cases FloatCompare.eq a.X b.X <;> cases FloatCompare.eq a.Y b.Y <;> simp

theorem not_UvNe_symm {F : Type} [FloatCompare F] [Neg F] [One F] [LawfulFloatCompare F]
    {a b : FVector2D F} (h : ¬ UvNe a b) : ¬ UvNe b a := by
  rw [not_UvNe_iff] at h ⊢
  exact ⟨LawfulFloatCompare.symm _ _ h.1, LawfulFloatCompare.symm _ _ h.2⟩

theorem not_UvNe_trans {F : Type} [FloatCompare F] [Neg F] [One F] [LawfulFloatCompare F]
    {a b c : FVector2D F} (h1 : ¬ UvNe a b) (h2 : ¬ UvNe b c) : ¬ UvNe a c := by
  rw [not_UvNe_iff] at h1 h2 ⊢
  exact ⟨LawfulFloatCompare.trans _ _ _ h1.1 h2.1, LawfulFloatCompare.trans _ _ _ h1.2 h2.2⟩

/-- Coordinates that compare equal to `x` compare unequal to what `x` compares unequal
to. -/
theorem UvNe.congr_left {F : Type} [FloatCompare F] [Neg F] [One F] [LawfulFloatCompare F]
    {x y c : FVector2D F} (h : UvNe x y) (hxc : ¬ UvNe x c) : UvNe c y := by
  by_contra hcy
  exact not_UvNe_trans hxc hcy h

theorem UvNe.congr_right {F : Type} [FloatCompare F] [Neg F] [One F] [LawfulFloatCompare F]
    {x y c : FVector2D F} (h : UvNe y x) (hxc : ¬ UvNe x c) : UvNe y c := by
  by_contra hyc
  exact not_UvNe_trans hyc (not_UvNe_symm hxc) h

/-- The marker does not compare unequal to itself. -/
theorem not_UvNe_uninitialized {F : Type} [FloatCompare F] [Neg F] [One F]
    [LawfulFloatCompare F] : ¬ UvNe (uninitialized : FVector2D F) uninitialized := by
  rw [not_UvNe_iff]
  exact ⟨LawfulFloatCompare.neg_one, LawfulFloatCompare.neg_one⟩

theorem UvNe.ne_uninitialized {F : Type} [FloatCompare F] [Neg F] [One F]
    [LawfulFloatCompare F] {x : FVector2D F} (h : UvNe x uninitialized) :
    x ≠ uninitialized := by
  rintro rfl
  exact not_UvNe_uninitialized h

theorem UvNe.symm {F : Type} [FloatCompare F] [Neg F] [One F] [LawfulFloatCompare F]
    {a b : FVector2D F} (h : UvNe a b) : UvNe b a := by
  by_contra hba
  exact not_UvNe_symm hba h
/-! ## FlipNormals: what the loop computes -/


theorem swapIdx_swapIdx (k : Int) : swapIdx (swapIdx k) = k := by
  unfold swapIdx
  split_ifs <;> omega

theorem flipRow_flipRow {α : Type} (r : List α) : flipRow (flipRow r) = r := by
  match r with
  | [] => rfl
  | [_] => rfl
  | [_, _] => rfl
  | [_, _, _] => rfl
  | _ :: _ :: _ :: _ :: _ => rfl

theorem flipRow_length {α : Type} (r : List α) : (flipRow r).length = r.length := by
  match r with
  | [] => rfl
  | [_] => rfl
  | [_, _] => rfl
  | [_, _, _] => rfl
  | _ :: _ :: _ :: _ :: _ => rfl

theorem flipTriangle_step {F : Type} (faces : List Int) (faceUv : List (List (FVector2D F)))
    (hlen : faceUv.length = faces.length / 3) (hrow : ∀ row ∈ faceUv, row.length = 3)
    (n : Nat) (s : List Int × List (List (FVector2D F))) (hn : n < faces.length / 3)
    (hinv : FlipInv faces faceUv n s) :
    ∃ t, flipTriangle s n = some t ∧ FlipInv faces faceUv (n + 1) t := by
  obtain ⟨fs, uvs⟩ := s
  obtain ⟨hl1, hl2, hf, hu⟩ := hinv
  simp only at hl1 hl2 hf hu
  have hN : 3 * (n : Int) + 2 < faces.length := by omega
  obtain ⟨a, ha⟩ := @TArray.at?_of_bounds _ fs (3 * (n : Int) + 1) (by omega) (by omega)
  obtain ⟨b, hb⟩ := @TArray.at?_of_bounds _ fs (3 * (n : Int) + 2) (by omega) (by omega)
  obtain ⟨f1, hf1⟩ := @TArray.put?_of_bounds _ fs (3 * (n : Int) + 1) b (by omega)
    (by omega)
  have hf1l := TArray.put?_length hf1
  obtain ⟨f2, hf2⟩ := @TArray.put?_of_bounds _ f1 (3 * (n : Int) + 2) a (by omega)
    (by omega)
  have hf2l := TArray.put?_length hf2
  obtain ⟨row, hr⟩ := @TArray.at?_of_bounds _ uvs ((n : Int)) (by omega) (by omega)
  have hr0 : TArray.at? faceUv n = some row := by
    have := hu n
    simp at this
    rw [← this]; exact hr
  have hmem : row ∈ faceUv := by
    rw [TArray.at?_natCast] at hr0
    exact List.mem_iff_getElem?.2 ⟨n, hr0⟩
  have hrl := hrow row hmem
  obtain ⟨x0, x, y, rfl⟩ : ∃ x0 x y, row = [x0, x, y] := by
    match row, hrl with
    | [x0, x, y], _ => exact ⟨x0, x, y, rfl⟩
  obtain ⟨u1, hu1⟩ := @TArray.put?_of_bounds _ uvs ((n : Int)) [x0, y, x] (by omega)
    (by omega)
  refine ⟨(f2, u1), ?_, ?_, ?_, ?_, ?_⟩
  · have e1 : TArray.at? [x0, x, y] 1 = some x := by simp [TArray.at?]
    have e2 : TArray.at? [x0, x, y] 2 = some y := by simp [TArray.at?]
    have e3 : TArray.put? [x0, x, y] 1 y = some [x0, y, y] := by simp [TArray.put?]
    have e4 : TArray.put? [x0, y, y] 2 x = some [x0, y, x] := by simp [TArray.put?]
    simp only [flipTriangle, ha, hb, hf1, hf2, hr, hu1, e1, e2, e3, e4, Option.bind_eq_bind,
      Option.some_bind, Option.pure_def]
  · simp only; omega
  · simp only; rw [TArray.put?_length hu1]; exact hl2
  · intro k
    simp only
    rw [TArray.at?_put? hf2, TArray.at?_put? hf1, hf k]
    have ha2 := hf (3 * (n : Int) + 1)
    have hb2 := hf (3 * (n : Int) + 2)
    rw [ha] at ha2
    rw [hb] at hb2
    rw [if_neg (by omega)] at ha2 hb2
    by_cases h2 : k = 3 * (n : Int) + 2
    · subst h2
      have : swapIdx (3 * (n : Int) + 2) = 3 * (n : Int) + 1 := by unfold swapIdx; split_ifs <;> omega
      rw [if_pos rfl, if_pos (by push_cast; omega), this, ha2]
    · rw [if_neg h2]
      by_cases h1 : k = 3 * (n : Int) + 1
      · subst h1
        have : swapIdx (3 * (n : Int) + 1) = 3 * (n : Int) + 2 := by unfold swapIdx; split_ifs <;> omega
        rw [if_pos rfl, if_pos (by push_cast; omega), this, hb2]
      · rw [if_neg h1]
        by_cases h0 : k = 3 * (n : Int)
        · subst h0
          have : swapIdx (3 * (n : Int)) = 3 * (n : Int) := by unfold swapIdx; split_ifs <;> omega
          rw [if_neg (by omega), if_pos (by push_cast; omega), this]
        · by_cases hlt : k < 3 * (n : Int)
          · rw [if_pos hlt, if_pos (by push_cast; omega)]
          · rw [if_neg hlt, if_neg (by push_cast; omega)]
  · intro i
    simp only
    rw [TArray.at?_put? hu1, hu i]
    by_cases hi : i = (n : Int)
    · subst hi
      rw [if_pos rfl, if_pos (by push_cast; omega), hr0]
      rfl
    · rw [if_neg hi]
      by_cases hlt : i < (n : Int)
      · rw [if_pos hlt, if_pos (by push_cast; omega)]
      · rw [if_neg hlt, if_neg (by push_cast; omega)]

/-- What `FlipNormals` returns on triangles with one row of three pairs each. -/
theorem FlipNormals_spec {F : Type} (faces : List Int) (faceUv : List (List (FVector2D F)))
    (h3 : faces.length % 3 = 0) (hlen : faceUv.length = faces.length / 3)
    (hrow : ∀ row ∈ faceUv, row.length = 3) :
    ∃ faces1 faceUv1, FlipNormals faces faceUv = some (faces1, faceUv1) ∧
      faces1.length = faces.length ∧ faceUv1.length = faceUv.length ∧
      (∀ k : Int, TArray.at? faces1 k = TArray.at? faces (swapIdx k)) ∧
      (∀ i : Int, TArray.at? faceUv1 i = (TArray.at? faceUv i).map flipRow) := by
  obtain ⟨t, ht, hl1, hl2, hf, hu⟩ := forLoop_total flipTriangle (FlipInv faces faceUv)
    (faces.length / 3) (faces, faceUv)
    ⟨rfl, rfl, fun k => by
        by_cases hk : k < 3 * ((0 : Nat) : Int)
        · rw [if_pos hk, TArray.at?_none (Or.inl (by omega)), TArray.at?_none (Or.inl _)]
          unfold swapIdx; split_ifs <;> omega
        · rw [if_neg hk],
      fun i => by
        by_cases hi : i < ((0 : Nat) : Int)
        · rw [if_pos hi, TArray.at?_none (Or.inl (by omega))]; rfl
        · rw [if_neg hi]⟩
    (fun n s hn hinv => flipTriangle_step faces faceUv hlen hrow n s hn hinv)
  refine ⟨t.1, t.2, ?_, hl1, hl2, ?_, ?_⟩
  · simp [FlipNormals, assert, h3, ht]
  · intro k
    rw [hf k]
    split_ifs with hk
    · rfl
    · have hk2 : (faces.length : Int) ≤ k := by omega
      rw [TArray.at?_none (Or.inr hk2), TArray.at?_none (Or.inr _)]
      unfold swapIdx; split_ifs <;> omega
  · intro i
    rw [hu i]
    split_ifs with hi
    · rfl
    · rw [TArray.at?_none (Or.inr (by omega))]; rfl

/-! ## The chain walk -/

theorem TableInv.root_le {F : Type} [FloatCompare F] [Neg F] [One F] {numOriginal : Nat} {root : Int → Int}
    {duplicate : List Int} {vertexUv : List (FVector2D F)} {numVertices : Int}
    (T : TableInv numOriginal root duplicate vertexUv numVertices) {i : Int} (h0 : 0 ≤ i)
    (h1 : i < numVertices) : root i ≤ i := by
  by_cases h : i < (numOriginal : Int)
  · rw [T.root_orig i h0 h]
  · have := T.root_range i h0 h1
    omega

/-- No slot of the chain of `r` lies strictly between a slot and its duplicate. -/
theorem TableInv.no_slot_between {F : Type} [FloatCompare F] [Neg F] [One F] {numOriginal : Nat}
    {root : Int → Int} {duplicate : List Int} {vertexUv : List (FVector2D F)}
    {numVertices : Int} (T : TableInv numOriginal root duplicate vertexUv numVertices)
    {c : FVector2D F} {r cur d : Int}
    (W : WalkInv root duplicate vertexUv numVertices c r cur)
    (hd : TArray.at? duplicate cur = some d) (hd1 : d ≠ -1) :
    ∀ m : Nat, ∀ a : Int, a.toNat = m → cur < a → a < d → root a ≠ r := by
  obtain ⟨hc0, hc1, hcr, hW⟩ := W
  have hdr := T.dup_range cur d hd hd1
  intro m
  induction m using Nat.strong_induction_on with
  | _ m ih =>
    intro a ham hca had hra
    have ha1 : a < numVertices := by omega
    have haN : (numOriginal : Int) ≤ a := by
      by_contra hlt
      have e1 := T.root_orig a (by omega) (by omega)
      have e2 := T.root_le hc0 hc1
      omega
    obtain ⟨p, hp⟩ := T.dup_surj a haN ha1
    have hpa := T.dup_range p a hp (by omega)
    have hp0 := (TArray.at?_bounds hp).1
    have hrp : root p = r := by rw [← T.root_dup p a hp (by omega)]; exact hra
    rcases lt_trichotomy p cur with h | h | h
    · obtain ⟨x, d2, -, -, -, hd2, -, hle⟩ := hW p hp0 h hrp
      rw [hp] at hd2
      cases hd2
      omega
    · subst h
      rw [hp] at hd
      cases hd
      omega
    · exact ih p.toNat (by omega) p rfl h (by omega) hrp

theorem chainWalk_spec {F : Type} [FloatCompare F] [Neg F] [One F] [LawfulFloatCompare F] {numOriginal : Nat}
    {root : Int → Int} {duplicate : List Int} {vertexUv : List (FVector2D F)}
    {numVertices : Int} (T : TableInv numOriginal root duplicate vertexUv numVertices)
    (c : FVector2D F) (r : Int) :
    ∀ (fuel : Nat) (cur : Int) (res : List Int × Int × Int),
      WalkInv root duplicate vertexUv numVertices c r cur →
      chainWalk vertexUv c fuel duplicate numVertices cur = some res →
      (res.1 = duplicate ∧ res.2.1 = numVertices ∧
        WalkInv root duplicate vertexUv numVertices c r res.2.2 ∧
        ∃ x, TArray.at? vertexUv res.2.2 = some x ∧
          (¬ UvNe x uninitialized ∨ ¬ UvNe x c)) ∨
      (∃ p x, WalkInv root duplicate vertexUv numVertices c r p ∧
        TArray.at? vertexUv p = some x ∧ UvNe x uninitialized ∧ UvNe x c ∧
        TArray.at? duplicate p = some (-1) ∧
        TArray.put? duplicate p numVertices = some res.1 ∧
        res.2.1 = numVertices + 1 ∧ res.2.2 = numVertices ∧
        TArray.at? vertexUv numVertices = some uninitialized) := by
  intro fuel
  induction fuel with
  | zero => intro cur res _ h; simp [chainWalk] at h
  | succ fuel ih =>
    intro cur res W h
    unfold chainWalk at h
    cases hx : TArray.at? vertexUv cur with
    | none => simp [hx] at h
    | some x =>
      simp only [hx] at h
      by_cases hcond0 : (FVector2D.ne x uninitialized && FVector2D.ne x c) = true
      · rw [if_pos hcond0] at h
        have hcond : UvNe x uninitialized ∧ UvNe x c := Bool.and_eq_true_iff.1 hcond0
        cases hd : TArray.at? duplicate cur with
        | none => simp [hd] at h
        | some d =>
          simp only [hd] at h
          by_cases hd1 : d = -1
          · rw [if_pos hd1] at h
            subst hd1
            cases hp : TArray.put? duplicate cur numVertices with
            | none => simp [hp] at h
            | some dup1 =>
              simp only [hp] at h
              right
              cases fuel with
              | zero => simp [chainWalk] at h
              | succ fuel =>
                unfold chainWalk at h
                cases hy : TArray.at? vertexUv numVertices with
                | none => simp [hy] at h
                | some y =>
                  have hyU := T.fresh_uv numVertices y le_rfl hy
                  subst hyU
                  simp only [hy] at h
                  rw [if_neg (fun hn => not_UvNe_uninitialized (Bool.and_eq_true_iff.1 hn).1)]
                    at h
                  cases h
                  exact ⟨cur, x, W, hx, hcond.1, hcond.2, hd, hp, rfl, rfl, rfl⟩
          · rw [if_neg hd1] at h
            have hdr := T.dup_range cur d hd hd1
            have hbetween := T.no_slot_between W hd hd1
            obtain ⟨hc0, hc1, hcr, hW⟩ := W
            refine ih d res ⟨by omega, hdr.2.2, ?_, ?_⟩ h
            · rw [T.root_dup cur d hd hd1, hcr]
            · intro a ha0 had hra
              rcases lt_trichotomy a cur with hlt | heq | hgt
              · obtain ⟨x2, d2, h1, h2, h3, h4, h5, h6⟩ := hW a ha0 hlt hra
                exact ⟨x2, d2, h1, h2, h3, h4, h5, by omega⟩
              · subst heq
                exact ⟨x, d, hx, hcond.1, hcond.2, hd, hd1, le_rfl⟩
              · exact absurd hra (hbetween a.toNat a rfl hgt had)
      · rw [if_neg hcond0] at h
        cases h
        left
        refine ⟨rfl, rfl, W, x, hx, ?_⟩
        by_contra hne
        push_neg at hne
        exact hcond0 (Bool.and_eq_true_iff.2 ⟨hne.1, hne.2⟩)

theorem WalkInv.start_visited {F : Type} [FloatCompare F] [Neg F] [One F] {numOriginal : Nat}
    {root : Int → Int} {duplicate : List Int} {vertexUv : List (FVector2D F)}
    {numVertices : Int} (T : TableInv numOriginal root duplicate vertexUv numVertices)
    {c : FVector2D F} {v0 e : Int} (hv0 : 0 ≤ v0) (hv1 : v0 < (numOriginal : Int))
    (W : WalkInv root duplicate vertexUv numVertices c v0 e) (hne : e ≠ v0) :
    ∃ x0, TArray.at? vertexUv v0 = some x0 ∧ UvNe x0 uninitialized := by
  obtain ⟨he0, he1, her, hW⟩ := W
  have hle := T.root_le he0 he1
  rw [her] at hle
  obtain ⟨x, d, hx, hxU, -⟩ := hW v0 hv0 (by omega) (T.root_orig v0 hv0 hv1)
  exact ⟨x, hx, hxU⟩

/-- The loop left at a slot that was there before. -/
theorem WalkPost.of_exit {F : Type} [FloatCompare F] [Neg F] [One F] {numOriginal : Nat}
    {root : Int → Int} {duplicate : List Int} {vertexUv : List (FVector2D F)}
    {numVertices : Int} (T : TableInv numOriginal root duplicate vertexUv numVertices)
    {c : FVector2D F} {v0 e : Int} (hv0 : 0 ≤ v0) (hv1 : v0 < (numOriginal : Int))
    (W : WalkInv root duplicate vertexUv numVertices c v0 e)
    (hx : ∃ x, TArray.at? vertexUv e = some x ∧ (¬ UvNe x uninitialized ∨ ¬ UvNe x c)) :
    WalkPost numOriginal root root duplicate duplicate vertexUv numVertices numVertices c
      v0 e where
  table := T
  len_dup := rfl
  e_range := ⟨W.1, W.2.1⟩
  root_e := W.2.2.1
  e_uv := hx
  parent_uv := by
    intro q xq hq hxq
    have hr := T.dup_range q e hq (by have := W.1; omega)
    have hq0 := (TArray.at?_bounds hq).1
    have hrq : root q = v0 := by
      rw [← T.root_dup q e hq (by have := W.1; omega)]; exact W.2.2.1
    obtain ⟨x, d, h1, -, h3, -⟩ := W.2.2.2 q hq0 hr.2.1 hrq
    rw [hxq] at h1
    cases h1
    exact h3
  start_uv := WalkInv.start_visited T hv0 hv1 W
  root_same := fun _ _ => rfl
  num_mono := le_rfl
  new_slot := fun i h1 h2 => by omega
  links := fun q d hq _ => Or.inl hq

/-- The loop allocated a slot at the end of the chain and left there. -/
theorem WalkPost.of_alloc {F : Type} [FloatCompare F] [Neg F] [One F]
    [LawfulFloatCompare F] {numOriginal : Nat}
    {root : Int → Int} {duplicate duplicate1 : List Int} {vertexUv : List (FVector2D F)}
    {numVertices : Int} (T : TableInv numOriginal root duplicate vertexUv numVertices)
    {c x : FVector2D F} {v0 p : Int} (hv0 : 0 ≤ v0) (hv1 : v0 < (numOriginal : Int))
    (W : WalkInv root duplicate vertexUv numVertices c v0 p)
    (hx : TArray.at? vertexUv p = some x) (hxU : UvNe x uninitialized) (hxc : UvNe x c)
    (hd : TArray.at? duplicate p = some (-1))
    (hput : TArray.put? duplicate p numVertices = some duplicate1)
    (hy : TArray.at? vertexUv numVertices = some uninitialized) :
    WalkPost numOriginal root (Function.update root numVertices v0) duplicate duplicate1
      vertexUv numVertices (numVertices + 1) c v0 numVertices := by
  obtain ⟨hp0, hp1, hpr, hW⟩ := W
  have hN := T.num_ge
  have hat : ∀ q, TArray.at? duplicate1 q =
      if q = p then some numVertices else TArray.at? duplicate q :=
    fun q => TArray.at?_put? hput q
  have hroot : ∀ i, i ≠ numVertices → Function.update root numVertices v0 i = root i :=
    fun i hi => Function.update_noteq hi _ _
  have hrootN : Function.update root numVertices v0 numVertices = v0 :=
    Function.update_same _ _ _
  -- every link of the new table is a link of the old one or the new link
  have hlink : ∀ q d, TArray.at? duplicate1 q = some d → d ≠ -1 →
      (q ≠ p ∧ TArray.at? duplicate q = some d) ∨ (q = p ∧ d = numVertices) := by
    intro q d hq hd1
    rw [hat] at hq
    by_cases hqp : q = p
    · rw [if_pos hqp] at hq
      cases hq
      exact Or.inr ⟨hqp, rfl⟩
    · rw [if_neg hqp] at hq
      exact Or.inl ⟨hqp, hq⟩
  refine
    { table := ?_, len_dup := TArray.put?_length hput, e_range := ⟨by omega, by omega⟩,
      root_e := hrootN, e_uv := ⟨_, hy, Or.inl not_UvNe_uninitialized⟩, parent_uv := ?_, start_uv := ?_,
      root_same := fun i hi => hroot i (by omega), num_mono := by omega,
      new_slot := fun i h1 h2 => by omega, links := ?_ }
  · refine
      { num_ge := by omega, dup_range := ?_, dup_inj := ?_, dup_surj := ?_, fresh_uv := ?_,
        fresh_dup := ?_, dup_init := ?_, root_orig := ?_, root_dup := ?_, root_range := ?_ }
    · intro q d hq hd1
      rcases hlink q d hq hd1 with ⟨-, h⟩ | ⟨rfl, rfl⟩
      · have := T.dup_range q d h hd1
        omega
      · omega
    · intro q1 q2 d h1 h2 hd1
      rcases hlink q1 d h1 hd1 with ⟨-, h1⟩ | ⟨rfl, rfl⟩
      · rcases hlink q2 d h2 hd1 with ⟨-, h2⟩ | ⟨rfl, rfl⟩
        · exact T.dup_inj q1 q2 d h1 h2 hd1
        · have := T.dup_range q1 _ h1 hd1
          omega
      · rcases hlink q2 _ h2 hd1 with ⟨-, h2⟩ | ⟨rfl, -⟩
        · have := T.dup_range q2 _ h2 hd1
          omega
        · rfl
    · intro d hd0 hd1
      by_cases hdn : d = numVertices
      · subst hdn
        exact ⟨p, by rw [hat, if_pos rfl]⟩
      · obtain ⟨q, hq⟩ := T.dup_surj d hd0 (by omega)
        refine ⟨q, ?_⟩
        rw [hat, if_neg]
        · exact hq
        · rintro rfl
          rw [hq] at hd
          cases hd
          omega
    · intro i ci hi hci
      exact T.fresh_uv i ci (by omega) hci
    · intro i d hi hdi
      rw [hat, if_neg (by omega)] at hdi
      exact T.fresh_dup i d (by omega) hdi
    · intro q d cq hq hd1 hcq
      rcases hlink q d hq hd1 with ⟨-, h⟩ | ⟨rfl, rfl⟩
      · exact T.dup_init q d cq h hd1 hcq
      · rw [hx] at hcq
        cases hcq
        exact hxU
    · intro i hi0 hi1
      rw [hroot i (by omega)]
      exact T.root_orig i hi0 hi1
    · intro q d hq hd1
      rcases hlink q d hq hd1 with ⟨-, h⟩ | ⟨rfl, rfl⟩
      · have := T.dup_range q d h hd1
        rw [hroot q (by omega), hroot d (by omega)]
        exact T.root_dup q d h hd1
      · rw [hrootN, hroot q (by omega), hpr]
    · intro i hi0 hi1
      by_cases hin : i = numVertices
      · subst hin
        rw [hrootN]
        omega
      · rw [hroot i hin]
        exact T.root_range i hi0 (by omega)
  · intro q xq hq hxq
    rcases hlink q _ hq (by omega) with ⟨-, h⟩ | ⟨rfl, -⟩
    · have := T.dup_range q _ h (by omega)
      omega
    · rw [hx] at hxq
      cases hxq
      exact hxc
  · intro hne
    by_cases hpv : p = v0
    · subst hpv
      exact ⟨x, hx, hxU⟩
    · exact WalkInv.start_visited T hv0 hv1 ⟨hp0, hp1, hpr, hW⟩ hpv
  · intro q d hq hd1
    rcases hlink q d hq hd1 with ⟨-, h⟩ | ⟨rfl, rfl⟩
    · exact Or.inl h
    · exact Or.inr ⟨rfl, hp1, hpr, x, hx, hxU, hxc⟩

/-- What the `while` loop of a corner leaves behind, entered at an original vertex. -/
theorem chainWalk_post {F : Type} [FloatCompare F] [Neg F] [One F] [LawfulFloatCompare F] {numOriginal : Nat}
    {root : Int → Int} {duplicate : List Int} {vertexUv : List (FVector2D F)}
    {numVertices : Int} (T : TableInv numOriginal root duplicate vertexUv numVertices)
    (c : FVector2D F) {v0 : Int} (hv0 : 0 ≤ v0) (hv1 : v0 < (numOriginal : Int))
    (fuel : Nat) (res : List Int × Int × Int)
    (h : chainWalk vertexUv c fuel duplicate numVertices v0 = some res) :
    ∃ root1, WalkPost numOriginal root root1 duplicate res.1 vertexUv numVertices res.2.1 c
      v0 res.2.2 := by
  have hN := T.num_ge
  have W0 : WalkInv root duplicate vertexUv numVertices c v0 v0 := by
    refine ⟨hv0, by omega, T.root_orig v0 hv0 hv1, ?_⟩
    intro a ha0 hav hra
    rw [T.root_orig a ha0 (by omega)] at hra
    omega
  rcases chainWalk_spec T c v0 fuel v0 res W0 h with
    ⟨h1, h2, hW, hx⟩ | ⟨p, x, hW, hx, hxU, hxc, hd, hput, h2, h3, hy⟩
  · refine ⟨root, ?_⟩
    rw [h1, h2]
    exact WalkPost.of_exit T hv0 hv1 hW hx
  · refine ⟨Function.update root numVertices v0, ?_⟩
    rw [h2, h3]
    exact WalkPost.of_alloc T hv0 hv1 hW hx hxU hxc hd hput hy

/-! ## The corner loop -/

/-- The two writes after the `while` loop re-establish the invariant for the next corner. -/
theorem ReindexInv.write {F : Type} [FloatCompare F] [Neg F] [One F] [LawfulFloatCompare F] {numOriginal : Nat}
    {faceUv : List (List (FVector2D F))} {faces0 : List Int} {root root1 : Int → Int}
    {n : Nat} {s : ReindexState F} (hinv : ReindexInv numOriginal faceUv faces0 root n s)
    {c : FVector2D F} {v0 e : Int} {duplicate1 : List Int} {numVertices1 : Int}
    (P : WalkPost numOriginal root root1 s.duplicate duplicate1 s.vertexUv s.numVertices
      numVertices1 c v0 e)
    (hF0 : TArray.at? faces0 n = some v0)
    (hc : cornerUv faceUv n = some c) {vertexUv1 : List (FVector2D F)} {faces1 : List Int}
    (hvuv : TArray.put? s.vertexUv e c = some vertexUv1)
    (hfaces : TArray.put? s.faces n e = some faces1) :
    ReindexInv numOriginal faceUv faces0 root1 (n + 1)
      ⟨faces1, duplicate1, vertexUv1, numVertices1⟩ := by
  have T := hinv.table
  have T1 := P.table
  obtain ⟨x, hx, hxc⟩ := P.e_uv
  have hatu : ∀ i, TArray.at? vertexUv1 i = if i = e then some c else TArray.at? s.vertexUv i :=
    fun i => TArray.at?_put? hvuv i
  have hatf : ∀ k : Int, TArray.at? faces1 k =
      if k = (n : Int) then some e else TArray.at? s.faces k :=
    fun k => TArray.at?_put? hfaces k
  -- a slot that holds coordinates was there before the walk
  have hold : ∀ i ci, TArray.at? s.vertexUv i = some ci → ci ≠ uninitialized →
      i < s.numVertices := by
    intro i ci hi hci
    by_contra hge
    exact hci (T.fresh_uv i ci (by omega) hi)
  refine
    { table := ?_, len_faces := ?_, len_dup := ?_, len_uv := ?_, faces_rest := ?_,
      faces_done := ?_, uv_src := ?_, link_uv := ?_, dup_src := ?_, slot_used := ?_ }
  · exact
      { num_ge := T1.num_ge, dup_range := T1.dup_range, dup_inj := T1.dup_inj,
        dup_surj := T1.dup_surj,
        fresh_uv := by
          intro i ci hi hci
          have hi : numVertices1 ≤ i := hi
          rw [hatu, if_neg (by have := P.e_range; omega)] at hci
          exact T1.fresh_uv i ci hi hci
        fresh_dup := T1.fresh_dup,
        dup_init := by
          intro q d cq hq hd1 hcq
          rw [hatu] at hcq
          by_cases hqe : q = e
          · subst hqe
            rw [if_pos rfl] at hcq
            cases hcq
            have hxU := T1.dup_init q d x hq hd1 hx
            rcases hxc with h | h
            · exact absurd hxU h
            · exact hxU.congr_left h
          · rw [if_neg hqe] at hcq
            exact T1.dup_init q d cq hq hd1 hcq
        root_orig := T1.root_orig, root_dup := T1.root_dup, root_range := T1.root_range }
  · show faces1.length = faces0.length
    rw [TArray.put?_length hfaces]; exact hinv.len_faces
  · show duplicate1.length = faces0.length
    rw [P.len_dup]; exact hinv.len_dup
  · show vertexUv1.length = faces0.length
    rw [TArray.put?_length hvuv]; exact hinv.len_uv
  · intro k hk
    show TArray.at? faces1 k = _
    rw [hatf, if_neg (by omega)]
    exact hinv.faces_rest k (by omega)
  · intro k hk
    show ∃ v c1, TArray.at? faces1 k = some v ∧ 0 ≤ v ∧ v < numVertices1 ∧ _ ∧
      cornerUv faceUv k = some c1
    by_cases hkn : k = n
    · subst hkn
      refine ⟨e, c, ?_, P.e_range.1, P.e_range.2, ?_, hc⟩
      · rw [hatf, if_pos rfl]
      · rw [P.root_e]; exact hF0
    · obtain ⟨v, ck, h1, h2, h3, h4, h5⟩ := hinv.faces_done k (by omega)
      refine ⟨v, ck, ?_, h2, ?_, ?_, h5⟩
      · rw [hatf, if_neg (by omega)]; exact h1
      · have := P.num_mono; omega
      · rw [P.root_same v h3]; exact h4
  · intro i ci hi hci
    show ∃ k : Nat, k < n + 1 ∧ _
    rw [hatu] at hi
    by_cases hie : i = e
    · subst hie
      rw [if_pos rfl] at hi
      cases hi
      exact ⟨n, by omega, by rw [P.root_e]; exact hF0, hc⟩
    · rw [if_neg hie] at hi
      obtain ⟨k, hk, h1, h2⟩ := hinv.uv_src i ci hi hci
      exact ⟨k, by omega, by rw [P.root_same i (hold i ci hi hci)]; exact h1, h2⟩
  · intro q d cq cd hq hd1 hcq hcd
    have hcq : TArray.at? vertexUv1 q = some cq := hcq
    have hcd : TArray.at? vertexUv1 d = some cd := hcd
    have hq : TArray.at? duplicate1 q = some d := hq
    have hqd := T1.dup_range q d hq hd1
    rw [hatu] at hcq hcd
    by_cases hde : d = e
    · subst hde
      rw [if_pos rfl] at hcd
      rw [if_neg (by omega)] at hcq
      cases hcd
      exact P.parent_uv q cq hq hcq
    · rw [if_neg hde] at hcd
      rcases P.links q d hq hd1 with hl | ⟨h, -⟩
      · by_cases hqe : q = e
        · subst hqe
          rw [if_pos rfl] at hcq
          cases hcq
          have hxU := T.dup_init q d x hl hd1 hx
          rcases hxc with h | h
          · exact absurd hxU h
          · exact (hinv.link_uv q d x cd hl hd1 hx hcd).congr_left h
        · rw [if_neg hqe] at hcq
          exact hinv.link_uv q d cq cd hl hd1 hcq hcd
      · exact absurd h hde
  · intro q d hq hd1
    have hq : TArray.at? duplicate1 q = some d := hq
    show ∃ (k k1 : Nat) (c c1 : FVector2D F), k < n + 1 ∧ k1 < n + 1 ∧ _
    rcases P.links q d hq hd1 with hl | ⟨-, hqn, hrq, xq, hxq, hxqU, hxqc⟩
    · obtain ⟨k, k1, c2, c3, h1, h2, h3, h4, h5, h6, h7⟩ := hinv.dup_src q d hl hd1
      have hqn := (T.dup_range q d hl hd1)
      have hrs := P.root_same q (by omega)
      exact ⟨k, k1, c2, c3, by omega, by omega, by rw [hrs]; exact h3, by rw [hrs]; exact h4,
        h5, h6, h7⟩
    · obtain ⟨k, hk, h1, h2⟩ := hinv.uv_src q xq hxq hxqU.ne_uninitialized
      have hrs := P.root_same q hqn
      rw [hrq] at h1
      exact ⟨k, n, xq, c, by omega, by omega, by rw [hrs, hrq]; exact h1,
        by rw [hrs, hrq]; exact hF0, h2, hc, hxqc⟩
  · intro i hi0 hi1 hsrc
    have hi1 : i < numVertices1 := hi1
    show ∃ k : Nat, k < n + 1 ∧ TArray.at? faces1 k = some i
    by_cases hie : i = e
    · subst hie
      exact ⟨n, by omega, by rw [hatf, if_pos rfl]⟩
    · have hiold : i < s.numVertices := by
        by_contra hge
        exact hie (P.new_slot i (by omega) hi1)
      have key : (numOriginal : Int) ≤ i ∨ ∃ k : Nat, k < n ∧ TArray.at? faces0 k = some i := by
        rcases hsrc with h | ⟨k, hk, hki⟩
        · exact Or.inl h
        · by_cases hkn : k = n
          · subst hkn
            rw [hF0] at hki
            have hiv : v0 = i := Option.some.inj hki
            obtain ⟨x0, hx0, hx0U⟩ := P.start_uv (fun h => hie (hiv.symm.trans h.symm))
            rw [hiv] at hx0
            obtain ⟨k0, hk0, h1, -⟩ := hinv.uv_src i x0 hx0 hx0U.ne_uninitialized
            by_cases hiN : (numOriginal : Int) ≤ i
            · exact Or.inl hiN
            · rw [T.root_orig i hi0 (by omega)] at h1
              exact Or.inr ⟨k0, hk0, h1⟩
          · exact Or.inr ⟨k, by omega, hki⟩
      obtain ⟨k, hk, hki⟩ := hinv.slot_used i hi0 hiold key
      exact ⟨k, by omega, by rw [hatf, if_neg (by omega)]; exact hki⟩

theorem cornerUv_eq {F : Type} (faceUv : List (List (FVector2D F))) (f j : Nat) (hj : j < 3) :
    cornerUv faceUv (3 * f + j) =
      (TArray.at? faceUv (f : Int)).bind fun row => TArray.at? row (j : Int) := by
  unfold cornerUv
  have h1 : (3 * f + j) / 3 = f := by omega
  have h2 : (3 * f + j) % 3 = j := by omega
  rw [h1, h2]

/-- One corner of the corner loop keeps the invariant. -/
theorem processCorner_inv {F : Type} [FloatCompare F] [Neg F] [One F] [LawfulFloatCompare F] {numOriginal : Nat}
    {faceUv : List (List (FVector2D F))} {faces0 : List Int}
    (hrange : ∀ v ∈ faces0, 0 ≤ v ∧ v < (numOriginal : Int)) (f j : Nat) (hj : j < 3)
    {root : Int → Int} {s t : ReindexState F}
    (hinv : ReindexInv numOriginal faceUv faces0 root (3 * f + j) s)
    (h : processCorner faceUv f s j = some t) :
    ∃ root1, ReindexInv numOriginal faceUv faces0 root1 (3 * f + j + 1) t := by
  simp only [processCorner, Option.bind_eq_bind, Option.bind_eq_some, Option.pure_def,
    Option.some.injEq] at h
  obtain ⟨v0, hv0, row, hrow, c, hc, res, hwalk, vuv1, hvuv1, faces1, hfaces1, rfl⟩ := h
  have hidx : (f : Int) * 3 + (j : Int) = ((3 * f + j : Nat) : Int) := by push_cast; ring
  rw [hidx] at hv0 hfaces1
  have hF0 : TArray.at? faces0 ((3 * f + j : Nat) : Int) = some v0 := by
    rw [← hinv.faces_rest (3 * f + j) le_rfl]; exact hv0
  have hmem : v0 ∈ faces0 := by
    rw [TArray.at?_natCast] at hF0
    exact List.mem_iff_getElem?.2 ⟨_, hF0⟩
  obtain ⟨hv00, hv01⟩ := hrange v0 hmem
  have hcu : cornerUv faceUv (3 * f + j) = some c := by
    rw [cornerUv_eq faceUv f j hj, hrow]
    exact hc
  obtain ⟨root1, P⟩ := chainWalk_post hinv.table c hv00 hv01 _ res hwalk
  exact ⟨root1, ReindexInv.write hinv P hF0 hcu hvuv1 hfaces1⟩

/-- The invariant holds before the first corner. -/
theorem ReindexInv.init {F : Type} [FloatCompare F] [Neg F] [One F] [LawfulFloatCompare F] (numOriginal : Nat)
    (faceUv : List (List (FVector2D F))) (faces0 : List Int) :
    ReindexInv numOriginal faceUv faces0 id 0
      ⟨faces0, List.replicate faces0.length (-1),
        List.replicate faces0.length uninitialized, numOriginal⟩ := by
  have hd : ∀ (p d : Int), TArray.at? (List.replicate faces0.length (-1 : Int)) p = some d →
      d ≠ -1 → False := fun p d h hd => hd (TArray.at?_replicate h)
  have hu : ∀ (i : Int) (c : FVector2D F),
      TArray.at? (List.replicate faces0.length (uninitialized : FVector2D F)) i = some c →
      c = uninitialized := fun i c h => TArray.at?_replicate h
  exact
    { table :=
        { num_ge := le_rfl
          dup_range := fun p d h h1 => (hd p d h h1).elim
          dup_inj := fun p _ d h _ h1 => (hd p d h h1).elim
          dup_surj := fun d h1 h2 => by
            have h2 : d < (numOriginal : Int) := h2
            omega
          fresh_uv := fun i c _ h => hu i c h
          fresh_dup := fun i d _ h => TArray.at?_replicate h
          dup_init := fun p d _ h h1 _ => (hd p d h h1).elim
          root_orig := fun _ _ _ => rfl
          root_dup := fun p d h h1 => (hd p d h h1).elim
          root_range := fun i h0 h1 => ⟨h0, h1⟩ }
      len_faces := rfl
      len_dup := by simp
      len_uv := by simp
      faces_rest := fun _ _ => rfl
      faces_done := fun k hk => absurd hk (by omega)
      uv_src := fun i c h hc => absurd (hu i c h) hc
      link_uv := fun p d _ _ h h1 _ _ => (hd p d h h1).elim
      dup_src := fun p d h h1 => (hd p d h h1).elim
      slot_used := fun i h0 h1 h => by
        have h1 : i < (numOriginal : Int) := h1
        rcases h with h | ⟨k, hk, -⟩
        · omega
        · omega }

/-- One face of the corner loop keeps the invariant. -/
theorem processFace_inv {F : Type} [FloatCompare F] [Neg F] [One F] [LawfulFloatCompare F] {numOriginal : Nat}
    {faceUv : List (List (FVector2D F))} {faces0 : List Int}
    (hrange : ∀ v ∈ faces0, 0 ≤ v ∧ v < (numOriginal : Int)) (f : Nat)
    {root : Int → Int} {s t : ReindexState F}
    (hinv : ReindexInv numOriginal faceUv faces0 root (3 * f) s)
    (h : processFace faceUv s f = some t) :
    ∃ root1, ReindexInv numOriginal faceUv faces0 root1 (3 * (f + 1)) t := by
  simp only [processFace, forLoop, Option.bind_eq_some, Option.some_bind] at h
  obtain ⟨s2, ⟨s1, h0, h1⟩, h2⟩ := h
  obtain ⟨r1, i1⟩ := processCorner_inv hrange f 0 (by omega) hinv h0
  obtain ⟨r2, i2⟩ := processCorner_inv hrange f 1 (by omega) i1 h1
  obtain ⟨r3, i3⟩ := processCorner_inv hrange f 2 (by omega) i2 h2
  exact ⟨r3, i3⟩

/-- The invariant after any number of faces of the corner loop. -/
theorem facesLoop_inv {F : Type} [FloatCompare F] [Neg F] [One F] [LawfulFloatCompare F] {numOriginal : Nat}
    {faceUv : List (List (FVector2D F))} {faces0 : List Int}
    (hrange : ∀ v ∈ faces0, 0 ≤ v ∧ v < (numOriginal : Int)) (m : Nat)
    {s : ReindexState F}
    (h : forLoop (processFace faceUv) m
      ⟨faces0, List.replicate faces0.length (-1), List.replicate faces0.length uninitialized,
        numOriginal⟩ = some s) :
    ∃ root, ReindexInv numOriginal faceUv faces0 root (3 * m) s :=
  forLoop_inv (processFace faceUv)
    (fun f s => ∃ root, ReindexInv numOriginal faceUv faces0 root (3 * f) s) m _
    ⟨id, ReindexInv.init numOriginal faceUv faces0⟩
    (fun f _ _ _ hi hs => by
      obtain ⟨root, hi⟩ := hi
      exact processFace_inv hrange f hi hs)
    s h

/-- The invariant at the end of the corner loop. -/
theorem cornerLoop_inv {F : Type} [FloatCompare F] [Neg F] [One F] [LawfulFloatCompare F] {numOriginal : Nat}
    {faceUv : List (List (FVector2D F))} {faces0 : List Int}
    (hrange : ∀ v ∈ faces0, 0 ≤ v ∧ v < (numOriginal : Int)) {s : ReindexState F}
    (h : cornerLoop numOriginal faceUv faces0 = some s) :
    ∃ root, ReindexInv numOriginal faceUv faces0 root (3 * (faces0.length / 3)) s :=
  facesLoop_inv hrange _ h

/-! ## The loops after the corner loop -/

theorem copyOriginal_loop {F : Type} (originalVertices : List (FVector F)) (m : Nat)
    (st t : List (FVector F) × List Int)
    (h : forLoop (copyOriginal originalVertices) m st = some t) :
    t.1.length = st.1.length ∧ t.2.length = st.2.length ∧
    (∀ i : Int, TArray.at? t.1 i =
      if 0 ≤ i ∧ i < (m : Int) then TArray.at? originalVertices i else TArray.at? st.1 i) ∧
    (∀ i : Int, TArray.at? t.2 i =
      if 0 ≤ i ∧ i < (m : Int) then some i else TArray.at? st.2 i) := by
  refine forLoop_inv (copyOriginal originalVertices)
    (fun m t => t.1.length = st.1.length ∧ t.2.length = st.2.length ∧
      (∀ i : Int, TArray.at? t.1 i =
        if 0 ≤ i ∧ i < (m : Int) then TArray.at? originalVertices i else TArray.at? st.1 i) ∧
      (∀ i : Int, TArray.at? t.2 i =
        if 0 ≤ i ∧ i < (m : Int) then some i else TArray.at? st.2 i)) m st ?_ ?_ t h
  · refine ⟨rfl, rfl, fun i => ?_, fun i => ?_⟩ <;> rw [if_neg (by push_cast; omega)]
  · rintro n ⟨vs, im⟩ ⟨vs1, im1⟩ _ ⟨hl1, hl2, hv, hi⟩ hstep
    simp only [copyOriginal, Option.bind_eq_bind, Option.bind_eq_some, Option.pure_def,
      Option.some.injEq, Prod.mk.injEq] at hstep
    obtain ⟨p, hp, vs2, hvs2, im2, him2, rfl, rfl⟩ := hstep
    refine ⟨?_, ?_, ?_, ?_⟩
    · rw [TArray.put?_length hvs2]; exact hl1
    · rw [TArray.put?_length him2]; exact hl2
    · intro i
      show TArray.at? vs2 i = _
      rw [TArray.at?_put? hvs2, hv i]
      by_cases hin : i = (n : Int)
      · subst hin
        rw [if_pos rfl, if_pos (by push_cast; omega), hp]
      · rw [if_neg hin]
        by_cases hlt : 0 ≤ i ∧ i < (n : Int)
        · rw [if_pos hlt, if_pos (by push_cast; omega)]
        · rw [if_neg hlt, if_neg (by push_cast; omega)]
    · intro i
      show TArray.at? im2 i = _
      rw [TArray.at?_put? him2, hi i]
      by_cases hin : i = (n : Int)
      · subst hin
        rw [if_pos rfl, if_pos (by push_cast; omega)]
      · rw [if_neg hin]
        by_cases hlt : 0 ≤ i ∧ i < (n : Int)
        · rw [if_pos hlt, if_pos (by push_cast; omega)]
        · rw [if_neg hlt, if_neg (by push_cast; omega)]

theorem copyUv_loop {F : Type} (vertexUv : List (FVector2D F)) (m : Nat)
    (uv0 uv1 : List (FVector2D F)) (h : forLoop (copyUv vertexUv) m uv0 = some uv1) :
    uv1.length = uv0.length ∧
    ∀ i : Int, TArray.at? uv1 i =
      if 0 ≤ i ∧ i < (m : Int) then TArray.at? vertexUv i else TArray.at? uv0 i := by
  refine forLoop_inv (copyUv vertexUv)
    (fun m uv1 => uv1.length = uv0.length ∧
      ∀ i : Int, TArray.at? uv1 i =
        if 0 ≤ i ∧ i < (m : Int) then TArray.at? vertexUv i else TArray.at? uv0 i)
    m uv0 ?_ ?_ uv1 h
  · refine ⟨rfl, fun i => ?_⟩
    rw [if_neg (by push_cast; omega)]
  · rintro n uv2 uv3 _ ⟨hl, hu⟩ hstep
    simp only [copyUv, Option.bind_eq_bind, Option.bind_eq_some] at hstep
    obtain ⟨c, hc, hput⟩ := hstep
    refine ⟨?_, ?_⟩
    · rw [TArray.put?_length hput]; exact hl
    · intro i
      rw [TArray.at?_put? hput, hu i]
      by_cases hin : i = (n : Int)
      · subst hin
        rw [if_pos rfl, if_pos (by push_cast; omega), hc]
      · rw [if_neg hin]
        by_cases hlt : 0 ≤ i ∧ i < (n : Int)
        · rw [if_pos hlt, if_pos (by push_cast; omega)]
        · rw [if_neg hlt, if_neg (by push_cast; omega)]

/-- The loop over `duplicate` leaves the slots below `numOriginal` alone when every link
points at or above `numOriginal`. -/
theorem copyDuplicate_loop_low {F : Type} (numOriginal : Nat) (duplicate : List Int)
    (hlow : ∀ p d, TArray.at? duplicate p = some d → d ≠ -1 → (numOriginal : Int) ≤ d)
    (m : Nat) (st t : List (FVector F) × List Int)
    (h : forLoop (copyDuplicate duplicate) m st = some t) :
    t.1.length = st.1.length ∧ t.2.length = st.2.length ∧
    ∀ i : Int, i < (numOriginal : Int) →
      TArray.at? t.1 i = TArray.at? st.1 i ∧ TArray.at? t.2 i = TArray.at? st.2 i := by
  refine forLoop_inv (copyDuplicate duplicate)
    (fun _ t => t.1.length = st.1.length ∧ t.2.length = st.2.length ∧
      ∀ i : Int, i < (numOriginal : Int) →
        TArray.at? t.1 i = TArray.at? st.1 i ∧ TArray.at? t.2 i = TArray.at? st.2 i)
    m st ⟨rfl, rfl, fun _ _ => ⟨rfl, rfl⟩⟩ ?_ t h
  rintro n ⟨vs, im⟩ ⟨vs1, im1⟩ _ ⟨hl1, hl2, hv⟩ hstep
  simp only [copyDuplicate, Option.bind_eq_bind, Option.bind_eq_some] at hstep
  obtain ⟨d, hd, hstep⟩ := hstep
  by_cases hd1 : d ≠ -1
  · rw [if_pos hd1] at hstep
    simp only [Option.bind_eq_bind, Option.bind_eq_some, Option.pure_def, Option.some.injEq,
      Prod.mk.injEq] at hstep
    obtain ⟨p, hp, vs2, hvs2, im2, him2, rfl, rfl⟩ := hstep
    have hdN := hlow n d hd hd1
    refine ⟨?_, ?_, ?_⟩
    · rw [TArray.put?_length hvs2]; exact hl1
    · rw [TArray.put?_length him2]; exact hl2
    · intro i hi
      show TArray.at? vs2 i = _ ∧ TArray.at? im2 i = _
      rw [TArray.at?_put?_ne hvs2 (by omega), TArray.at?_put?_ne him2 (by omega)]
      exact hv i hi
  · rw [if_neg hd1] at hstep
    simp only [Option.pure_def, Option.some.injEq, Prod.mk.injEq] at hstep
    obtain ⟨rfl, rfl⟩ := hstep
    exact ⟨hl1, hl2, hv⟩

/-- The loop over `duplicate` copies the position of every slot to its duplicate and records
the slot in `indexMap`, when the links point forward and no two slots share a duplicate. -/
theorem copyDuplicate_loop_links {F : Type} (duplicate : List Int)
    (hfwd : ∀ p d, TArray.at? duplicate p = some d → d ≠ -1 → p < d)
    (hinj : ∀ p q d, TArray.at? duplicate p = some d → TArray.at? duplicate q = some d →
      d ≠ -1 → p = q)
    (m : Nat) (st t : List (FVector F) × List Int)
    (h : forLoop (copyDuplicate duplicate) m st = some t) :
    ∀ p : Nat, p < m → ∀ d, TArray.at? duplicate p = some d → d ≠ -1 →
      (∃ x, TArray.at? t.1 d = some x ∧ TArray.at? t.1 p = some x) ∧
      TArray.at? t.2 d = some (p : Int) := by
  refine forLoop_inv (copyDuplicate duplicate)
    (fun m t => ∀ p : Nat, p < m → ∀ d, TArray.at? duplicate p = some d → d ≠ -1 →
      (∃ x, TArray.at? t.1 d = some x ∧ TArray.at? t.1 p = some x) ∧
      TArray.at? t.2 d = some (p : Int))
    m st (fun p hp => absurd hp (by omega)) ?_ t h
  rintro n ⟨vs, im⟩ ⟨vs1, im1⟩ _ hv hstep
  simp only [copyDuplicate, Option.bind_eq_bind, Option.bind_eq_some] at hstep
  obtain ⟨d, hd, hstep⟩ := hstep
  by_cases hd1 : d ≠ -1
  · rw [if_pos hd1] at hstep
    simp only [Option.bind_eq_bind, Option.bind_eq_some, Option.pure_def, Option.some.injEq,
      Prod.mk.injEq] at hstep
    obtain ⟨x, hx, vs2, hvs2, im2, him2, rfl, rfl⟩ := hstep
    have hnd := hfwd n d hd hd1
    intro p hp dp hdp hdp1
    show (∃ x, TArray.at? vs2 dp = some x ∧ TArray.at? vs2 p = some x) ∧
      TArray.at? im2 dp = some (p : Int)
    by_cases hpn : p = n
    · subst hpn
      rw [hd] at hdp
      cases hdp
      refine ⟨⟨x, TArray.at?_put?_self hvs2, ?_⟩, TArray.at?_put?_self him2⟩
      rw [TArray.at?_put?_ne hvs2 (by omega)]
      exact hx
    · have hne : dp ≠ d := by
        intro he
        subst he
        have := hinj p n dp hdp hd hdp1
        omega
      have hpd : (p : Int) ≠ d := by omega
      rw [TArray.at?_put?_ne hvs2 hne, TArray.at?_put?_ne hvs2 hpd,
        TArray.at?_put?_ne him2 hne]
      exact hv p (by omega) dp hdp hdp1
  · rw [if_neg hd1] at hstep
    simp only [Option.pure_def, Option.some.injEq, Prod.mk.injEq] at hstep
    obtain ⟨rfl, rfl⟩ := hstep
    intro p hp dp hdp hdp1
    by_cases hpn : p = n
    · subst hpn
      rw [hd] at hdp
      cases hdp
      exact absurd hdp1 hd1
    · exact hv p (by omega) dp hdp hdp1

/-- `ConvertToUnrealFormat` is the corner loop followed by the loops that build the output. -/
theorem ConvertToUnrealFormat_split {F : Type} [FloatCompare F] [Neg F] [One F]
    {junkV : FVector F} {junkUv : FVector2D F} {originalVertices : List (FVector F)}
    {faceUv : List (List (FVector2D F))} {faces : List Int} {vertices : List (FVector F)}
    {uv : List (FVector2D F)} {indexMap : List Int} {out : UnrealMesh F}
    (h : ConvertToUnrealFormat junkV junkUv originalVertices faceUv faces vertices uv
      indexMap = some out) :
    ∃ s, cornerLoop originalVertices.length faceUv faces = some s ∧
      buildOutput junkV junkUv originalVertices vertices uv indexMap s = some out := by
  simpa [ConvertToUnrealFormat, Option.bind_eq_some] using h

/-- Sizes of the output, its texture coordinates and its first `originalVertices.Num()`
slots. -/
theorem buildOutput_shape {F : Type} {junkV : FVector F} {junkUv : FVector2D F}
    {originalVertices : List (FVector F)} {vertices : List (FVector F)}
    {uv : List (FVector2D F)} {indexMap : List Int} {s : ReindexState F} {out : UnrealMesh F}
    (h : buildOutput junkV junkUv originalVertices vertices uv indexMap s = some out)
    (hlow : ∀ p d, TArray.at? s.duplicate p = some d → d ≠ -1 →
      (originalVertices.length : Int) ≤ d) :
    out.faces = s.faces ∧ out.vertices.length = s.numVertices.toNat ∧
    out.uv.length = s.numVertices.toNat ∧ out.indexMap.length = s.numVertices.toNat ∧
    (∀ i : Int, 0 ≤ i → i < s.numVertices → TArray.at? out.uv i = TArray.at? s.vertexUv i) ∧
    (∀ i : Int, 0 ≤ i → i < (originalVertices.length : Int) →
      TArray.at? out.vertices i = TArray.at? originalVertices i ∧
      TArray.at? out.indexMap i = some i) := by
  simp only [buildOutput, Option.bind_eq_bind, Option.bind_eq_some, Option.pure_def,
    Option.some.injEq] at h
  obtain ⟨r1, h1, r2, h2, uv1, h3, rfl⟩ := h
  obtain ⟨a1, a2, a3, a4⟩ := copyOriginal_loop _ _ _ _ h1
  obtain ⟨b1, b2, b3⟩ := copyDuplicate_loop_low originalVertices.length _ hlow _ _ _ h2
  obtain ⟨c1, c2⟩ := copyUv_loop _ _ _ _ h3
  simp only [TArray.SetNum_length] at a1 a2 c1
  refine ⟨rfl, by simp only; omega, by simp only; omega, by simp only; omega, ?_, ?_⟩
  · intro i hi0 hi1
    show TArray.at? uv1 i = _
    rw [c2 i, if_pos ⟨hi0, by omega⟩]
  · intro i hi0 hi1
    show TArray.at? r2.1 i = _ ∧ TArray.at? r2.2 i = _
    rw [(b3 i hi1).1, (b3 i hi1).2, a3 i, a4 i, if_pos ⟨hi0, hi1⟩, if_pos ⟨hi0, hi1⟩]
    exact ⟨rfl, rfl⟩

/-- Every duplicate slot of the output carries the position of the slot it is linked from,
and `indexMap` records that slot. -/
theorem buildOutput_links {F : Type} {junkV : FVector F} {junkUv : FVector2D F}
    {originalVertices : List (FVector F)} {vertices : List (FVector F)}
    {uv : List (FVector2D F)} {indexMap : List Int} {s : ReindexState F} {out : UnrealMesh F}
    (h : buildOutput junkV junkUv originalVertices vertices uv indexMap s = some out)
    (hrng : ∀ p d, TArray.at? s.duplicate p = some d → d ≠ -1 → p < d ∧ d < s.numVertices)
    (hinj : ∀ p q d, TArray.at? s.duplicate p = some d → TArray.at? s.duplicate q = some d →
      d ≠ -1 → p = q) :
    ∀ p d, TArray.at? s.duplicate p = some d → d ≠ -1 →
      (∃ x, TArray.at? out.vertices d = some x ∧ TArray.at? out.vertices p = some x) ∧
      TArray.at? out.indexMap d = some p := by
  simp only [buildOutput, Option.bind_eq_bind, Option.bind_eq_some, Option.pure_def,
    Option.some.injEq] at h
  obtain ⟨r1, h1, r2, h2, uv1, h3, rfl⟩ := h
  intro p d hp hd
  have hb := TArray.at?_bounds hp
  have hr := hrng p d hp hd
  have key := copyDuplicate_loop_links s.duplicate (fun p d h1 h2 => (hrng p d h1 h2).1) hinj
    _ _ _ h2 p.toNat (by omega) d (by rw [Int.toNat_of_nonneg hb.1]; exact hp) hd
  rw [Int.toNat_of_nonneg hb.1] at key
  exact key

/-- The facts about a returning call of `ConvertToUnrealFormat` on in-range face indices. -/
theorem ConvertToUnrealFormat_inv {F : Type} [FloatCompare F] [Neg F] [One F]
    [LawfulFloatCompare F]
    {junkV : FVector F} {junkUv : FVector2D F} {originalVertices : List (FVector F)}
    {faceUv : List (List (FVector2D F))} {faces : List Int} {vertices : List (FVector F)}
    {uv : List (FVector2D F)} {indexMap : List Int} {out : UnrealMesh F}
    (hrange : ∀ v ∈ faces, 0 ≤ v ∧ v < (originalVertices.length : Int))
    (h : ConvertToUnrealFormat junkV junkUv originalVertices faceUv faces vertices uv
      indexMap = some out) :
    ∃ s root, cornerLoop originalVertices.length faceUv faces = some s ∧
      ReindexInv originalVertices.length faceUv faces root (3 * (faces.length / 3)) s ∧
      out.faces = s.faces ∧ out.vertices.length = s.numVertices.toNat ∧
      out.uv.length = s.numVertices.toNat ∧ out.indexMap.length = s.numVertices.toNat ∧
      (∀ i : Int, 0 ≤ i → i < s.numVertices →
        ∃ c, TArray.at? out.uv i = some c ∧ TArray.at? s.vertexUv i = some c) ∧
      (∀ i : Int, 0 ≤ i → i < (originalVertices.length : Int) →
        TArray.at? out.vertices i = TArray.at? originalVertices i ∧
        TArray.at? out.indexMap i = some i) ∧
      (∀ p d, TArray.at? s.duplicate p = some d → d ≠ -1 →
        (∃ x, TArray.at? out.vertices d = some x ∧ TArray.at? out.vertices p = some x) ∧
        TArray.at? out.indexMap d = some p) := by
  obtain ⟨s, hs, hb⟩ := ConvertToUnrealFormat_split h
  obtain ⟨root, hinv⟩ := cornerLoop_inv hrange hs
  have T := hinv.table
  obtain ⟨h1, h2, h3, h4, h5, h6⟩ :=
    buildOutput_shape hb (fun p d hp hd => (T.dup_range p d hp hd).1)
  have h7 := buildOutput_links hb (fun p d hp hd => (T.dup_range p d hp hd).2) T.dup_inj
  refine ⟨s, root, hs, hinv, h1, h2, h3, h4, ?_, h6, h7⟩
  intro i hi0 hi1
  obtain ⟨c, hc⟩ := @TArray.at?_of_bounds _ out.uv i hi0 (by omega)
  exact ⟨c, hc, by rw [← h5 i hi0 hi1]; exact hc⟩

/-- Every slot of the output carries the position of the original vertex at its root. -/
theorem vertices_of_root {F : Type} [FloatCompare F] [Neg F] [One F] {numOriginal : Nat} {root : Int → Int}
    {duplicate : List Int} {vertexUv : List (FVector2D F)} {numVertices : Int}
    (T : TableInv numOriginal root duplicate vertexUv numVertices)
    {originalVertices outVertices : List (FVector F)}
    (hlen : originalVertices.length = numOriginal)
    (horig : ∀ i : Int, 0 ≤ i → i < (numOriginal : Int) →
      TArray.at? outVertices i = TArray.at? originalVertices i)
    (hlink : ∀ p d, TArray.at? duplicate p = some d → d ≠ -1 →
      ∃ x, TArray.at? outVertices d = some x ∧ TArray.at? outVertices p = some x) :
    ∀ m : Nat, ∀ i : Int, i.toNat = m → 0 ≤ i → i < numVertices →
      ∃ x, TArray.at? outVertices i = some x ∧
        TArray.at? originalVertices (root i) = some x := by
  intro m
  induction m using Nat.strong_induction_on with
  | _ m ih =>
    intro i him hi0 hi1
    by_cases hlt : i < (numOriginal : Int)
    · obtain ⟨x, hx⟩ := @TArray.at?_of_bounds _ originalVertices i hi0 (by omega)
      exact ⟨x, by rw [horig i hi0 hlt]; exact hx, by rw [T.root_orig i hi0 hlt]; exact hx⟩
    · obtain ⟨p, hp⟩ := T.dup_surj i (by omega) hi1
      have hne : i ≠ -1 := by omega
      have hr := T.dup_range p i hp hne
      have hp0 := (TArray.at?_bounds hp).1
      obtain ⟨x, hx1, hx2⟩ := hlink p i hp hne
      obtain ⟨y, hy1, hy2⟩ := ih p.toNat (by omega) p rfl hp0 (by omega)
      rw [hx2] at hy1
      cases hy1
      exact ⟨x, hx1, by rw [T.root_dup p i hp hne]; exact hy2⟩

/-! ## Links never point below the original vertices -/

theorem chainWalk_low {F : Type} [FloatCompare F] [Neg F] [One F] (numOriginal : Nat)
    (vertexUv : List (FVector2D F)) (c : FVector2D F) :
    ∀ (fuel : Nat) (duplicate : List Int) (numVertices cur : Int)
      (res : List Int × Int × Int),
      (numOriginal : Int) ≤ numVertices →
      (∀ p d, TArray.at? duplicate p = some d → d ≠ -1 → (numOriginal : Int) ≤ d) →
      chainWalk vertexUv c fuel duplicate numVertices cur = some res →
      (numOriginal : Int) ≤ res.2.1 ∧
      ∀ p d, TArray.at? res.1 p = some d → d ≠ -1 → (numOriginal : Int) ≤ d := by
  intro fuel
  induction fuel with
  | zero => intro _ _ _ _ _ _ h; simp [chainWalk] at h
  | succ fuel ih =>
    intro duplicate numVertices cur res hN hlow h
    unfold chainWalk at h
    cases hx : TArray.at? vertexUv cur with
    | none => simp [hx] at h
    | some x =>
      simp only [hx] at h
      by_cases hcond : (FVector2D.ne x uninitialized && FVector2D.ne x c) = true
      · rw [if_pos hcond] at h
        cases hd : TArray.at? duplicate cur with
        | none => simp [hd] at h
        | some d =>
          simp only [hd] at h
          by_cases hd1 : d = -1
          · rw [if_pos hd1] at h
            cases hp : TArray.put? duplicate cur numVertices with
            | none => simp [hp] at h
            | some dup1 =>
              simp only [hp] at h
              refine ih dup1 (numVertices + 1) numVertices res (by omega) ?_ h
              intro p d2 hp2 hd2
              rw [TArray.at?_put? hp] at hp2
              by_cases hpc : p = cur
              · rw [if_pos hpc] at hp2
                cases hp2
                exact hN
              · rw [if_neg hpc] at hp2
                exact hlow p d2 hp2 hd2
          · rw [if_neg hd1] at h
            exact ih duplicate numVertices d res hN hlow h
      · rw [if_neg hcond] at h
        cases h
        exact ⟨hN, hlow⟩

theorem processCorner_low {F : Type} [FloatCompare F] [Neg F] [One F] (numOriginal : Nat)
    (faceUv : List (List (FVector2D F))) (f j : Nat) (s t : ReindexState F)
    (hs : (numOriginal : Int) ≤ s.numVertices ∧
      ∀ p d, TArray.at? s.duplicate p = some d → d ≠ -1 → (numOriginal : Int) ≤ d)
    (h : processCorner faceUv f s j = some t) :
    (numOriginal : Int) ≤ t.numVertices ∧
      ∀ p d, TArray.at? t.duplicate p = some d → d ≠ -1 → (numOriginal : Int) ≤ d := by
  simp only [processCorner, Option.bind_eq_bind, Option.bind_eq_some, Option.pure_def,
    Option.some.injEq] at h
  obtain ⟨v0, -, row, -, c, -, res, hwalk, vuv1, -, faces1, -, rfl⟩ := h
  exact chainWalk_low numOriginal _ c _ _ _ _ res hs.1 hs.2 hwalk

theorem cornerLoop_low {F : Type} [FloatCompare F] [Neg F] [One F] (numOriginal : Nat)
    (faceUv : List (List (FVector2D F))) (faces : List Int) (s : ReindexState F)
    (h : cornerLoop numOriginal faceUv faces = some s) :
    (numOriginal : Int) ≤ s.numVertices ∧
      ∀ p d, TArray.at? s.duplicate p = some d → d ≠ -1 → (numOriginal : Int) ≤ d := by
  refine forLoop_inv (processFace faceUv)
    (fun _ s => (numOriginal : Int) ≤ s.numVertices ∧
      ∀ p d, TArray.at? s.duplicate p = some d → d ≠ -1 → (numOriginal : Int) ≤ d)
    (faces.length / 3) _ ⟨le_rfl, fun p d hp hd => absurd (TArray.at?_replicate hp) hd⟩ ?_ s h
  intro f s1 t1 _ hs1 ht1
  exact forLoop_inv (processCorner faceUv f)
    (fun _ s => (numOriginal : Int) ≤ s.numVertices ∧
      ∀ p d, TArray.at? s.duplicate p = some d → d ≠ -1 → (numOriginal : Int) ≤ d)
    3 s1 hs1 (fun j s2 t2 _ hs2 ht2 => processCorner_low numOriginal faceUv f j s2 t2 hs2 ht2)
    t1 ht1

/-- A vertex whose corners all carry coordinates that do not compare unequal has no duplicate
link. -/
theorem ReindexInv.no_link {F : Type} [FloatCompare F] [Neg F] [One F] {numOriginal : Nat}
    {faceUv : List (List (FVector2D F))} {faces0 : List Int} {root : Int → Int} {n : Nat}
    {s : ReindexState F} (hinv : ReindexInv numOriginal faceUv faces0 root n s) {r : Int}
    (hcons : ∀ k : Nat, k < n → ∀ k1 : Nat, k1 < n → faces0[k]? = some r →
      faces0[k1]? = some r → cornerUvNe faceUv k k1 = false)
    {p d : Int} (hp : TArray.at? s.duplicate p = some d) (hd : d ≠ -1) : root p ≠ r := by
  intro hr
  obtain ⟨k, k1, c, c1, h1, h2, h3, h4, h5, h6, h7⟩ := hinv.dup_src p d hp hd
  rw [TArray.at?_natCast, hr] at h3 h4
  have := hcons k h1 k1 h2 h3 h4
  simp only [cornerUvNe, h5, h6] at this
  have h7 : FVector2D.ne c c1 = true := h7
  rw [this] at h7
  exact Bool.false_ne_true h7

/-- The slots on the chain of an original vertex without duplicate link: the vertex alone. -/
theorem TableInv.root_eq_self {F : Type} [FloatCompare F] [Neg F] [One F] {numOriginal : Nat}
    {root : Int → Int} {duplicate : List Int} {vertexUv : List (FVector2D F)}
    {numVertices : Int} (T : TableInv numOriginal root duplicate vertexUv numVertices)
    {r : Int} (hno : ∀ p d, TArray.at? duplicate p = some d → d ≠ -1 → root p ≠ r)
    {i : Int} (hi0 : 0 ≤ i) (hi1 : i < numVertices) (hr : root i = r) : i = r := by
  by_cases hlt : i < (numOriginal : Int)
  · rw [T.root_orig i hi0 hlt] at hr
    exact hr
  · obtain ⟨p, hp⟩ := T.dup_surj i (by omega) hi1
    have hne : i ≠ -1 := by omega
    exact absurd (by rw [← T.root_dup p i hp hne]; exact hr) (hno p i hp hne)

/-- The entries of a table that satisfy `P` are pairwise different when no two positions
hold the same such entry. -/
theorem filter_nodup_of_inj (P : Int → Bool) :
    ∀ l : List Int,
      (∀ (i j : Nat) (d : Int), l[i]? = some d → l[j]? = some d → P d = true → i = j) →
      (l.filter P).Nodup := by
  intro l
  induction l with
  | nil => intro _; simp
  | cons a l ih =>
    intro hinj
    have hl : (l.filter P).Nodup :=
      ih (fun i j d hi hj hd => by
        have := hinj (i + 1) (j + 1) d (by simpa using hi) (by simpa using hj) hd
        omega)
    by_cases ha : P a = true
    · rw [List.filter_cons_of_pos ha, List.nodup_cons]
      refine ⟨?_, hl⟩
      intro hmem
      obtain ⟨hm, -⟩ := List.mem_filter.1 hmem
      obtain ⟨j, hj⟩ := List.mem_iff_getElem?.1 hm
      have := hinj 0 (j + 1) a (by simp) (by simpa using hj) ha
      omega
    · rw [List.filter_cons_of_neg ha]
      exact hl

/-- The duplicate links of the table are the slots from `numOriginal` to `numVertices`, each
once. -/
theorem TableInv.links_eq {F : Type} [FloatCompare F] [Neg F] [One F] {numOriginal : Nat}
    {root : Int → Int} {duplicate : List Int} {vertexUv : List (FVector2D F)}
    {numVertices : Int} (T : TableInv numOriginal root duplicate vertexUv numVertices) :
    (duplicate.filter fun d => decide (d ≠ -1)).Nodup ∧
    (∀ d : Int, d ∈ (duplicate.filter fun d => decide (d ≠ -1)) ↔
      (numOriginal : Int) ≤ d ∧ d < numVertices) ∧
    ((duplicate.filter fun d => decide (d ≠ -1)).length : Int) =
      numVertices - (numOriginal : Int) := by
  have hnd : (duplicate.filter fun d => decide (d ≠ -1)).Nodup := by
    apply filter_nodup_of_inj
    intro i j d hi hj hd
    have hd1 : d ≠ -1 := by simpa using hd
    have := T.dup_inj i j d (by rw [TArray.at?_natCast]; exact hi)
      (by rw [TArray.at?_natCast]; exact hj) hd1
    omega
  have hmem : ∀ d : Int, d ∈ (duplicate.filter fun d => decide (d ≠ -1)) ↔
      (numOriginal : Int) ≤ d ∧ d < numVertices := by
    intro d
    rw [List.mem_filter]
    constructor
    · rintro ⟨hm, hd⟩
      have hd1 : d ≠ -1 := by simpa using hd
      obtain ⟨j, hj⟩ := List.mem_iff_getElem?.1 hm
      have := T.dup_range j d (by rw [TArray.at?_natCast]; exact hj) hd1
      exact ⟨this.1, this.2.2⟩
    · rintro ⟨h1, h2⟩
      obtain ⟨p, hp⟩ := T.dup_surj d h1 h2
      have hp0 := (TArray.at?_bounds hp).1
      have hp2 : TArray.at? duplicate ((p.toNat : Nat) : Int) = some d := by
        rw [Int.toNat_of_nonneg hp0]; exact hp
      rw [TArray.at?_natCast] at hp2
      exact ⟨List.mem_iff_getElem?.2 ⟨_, hp2⟩, by simp; omega⟩
  refine ⟨hnd, hmem, ?_⟩
  have hfin : (duplicate.filter fun d => decide (d ≠ -1)).toFinset =
      Finset.Ico (numOriginal : Int) numVertices := by
    ext d
    rw [List.mem_toFinset, hmem, Finset.mem_Ico]
  have hcard := List.toFinset_card_of_nodup hnd
  rw [hfin, Int.card_Ico] at hcard
  have := T.num_ge
  omega

/-- A corner allocates at most one slot, and the slot it allocates is the current value of
`numVertices`. -/
theorem processCorner_alloc {F : Type} [FloatCompare F] [Neg F] [One F]
    [LawfulFloatCompare F] {numOriginal : Nat}
    {faceUv : List (List (FVector2D F))} {faces0 : List Int}
    (hrange : ∀ v ∈ faces0, 0 ≤ v ∧ v < (numOriginal : Int)) (f j : Nat)
    {root : Int → Int} {s t : ReindexState F}
    (hinv : ReindexInv numOriginal faceUv faces0 root (3 * f + j) s)
    (h : processCorner faceUv f s j = some t) :
    (t.duplicate = s.duplicate ∧ t.numVertices = s.numVertices) ∨
    (∃ p, TArray.at? s.duplicate p = some (-1) ∧
      TArray.put? s.duplicate p s.numVertices = some t.duplicate ∧
      t.numVertices = s.numVertices + 1) := by
  simp only [processCorner, Option.bind_eq_bind, Option.bind_eq_some, Option.pure_def,
    Option.some.injEq] at h
  obtain ⟨v0, hv0, row, hrow, c, hc, res, hwalk, vuv1, hvuv1, faces1, hfaces1, rfl⟩ := h
  have hidx : (f : Int) * 3 + (j : Int) = ((3 * f + j : Nat) : Int) := by push_cast; ring
  rw [hidx] at hv0
  have hF0 : TArray.at? faces0 ((3 * f + j : Nat) : Int) = some v0 := by
    rw [← hinv.faces_rest (3 * f + j) le_rfl]; exact hv0
  have hmem : v0 ∈ faces0 := by
    rw [TArray.at?_natCast] at hF0
    exact List.mem_iff_getElem?.2 ⟨_, hF0⟩
  obtain ⟨hv00, hv01⟩ := hrange v0 hmem
  have T := hinv.table
  have hN := T.num_ge
  have W0 : WalkInv root s.duplicate s.vertexUv s.numVertices c v0 v0 := by
    refine ⟨hv00, by omega, T.root_orig v0 hv00 hv01, ?_⟩
    intro a ha0 hav hra
    rw [T.root_orig a ha0 (by omega)] at hra
    omega
  rcases chainWalk_spec T c v0 _ v0 res W0 hwalk with
    ⟨h1, h2, -, -⟩ | ⟨p, x, -, -, -, -, hd, hput, h2, -, -⟩
  · exact Or.inl ⟨h1, h2⟩
  · exact Or.inr ⟨p, hd, hput, h2⟩

/-- The invariant at any point of the corner loop. -/
theorem cornerLoopAt_inv {F : Type} [FloatCompare F] [Neg F] [One F]
    [LawfulFloatCompare F] {numOriginal : Nat}
    {faceUv : List (List (FVector2D F))} {faces0 : List Int}
    (hrange : ∀ v ∈ faces0, 0 ≤ v ∧ v < (numOriginal : Int)) (m j : Nat) (hj : j ≤ 3)
    {s : ReindexState F} (h : cornerLoopAt numOriginal faceUv faces0 m j = some s) :
    ∃ root, ReindexInv numOriginal faceUv faces0 root (3 * m + j) s := by
  simp only [cornerLoopAt, Option.bind_eq_some] at h
  obtain ⟨sm, hsm, hs⟩ := h
  obtain ⟨root, hinv⟩ := facesLoop_inv hrange m hsm
  exact forLoop_inv (processCorner faceUv m)
    (fun j s => ∃ root, ReindexInv numOriginal faceUv faces0 root (3 * m + j) s) j sm
    ⟨root, hinv⟩
    (fun n _ _ hn hi hstep => by
      obtain ⟨r, hi⟩ := hi
      exact processCorner_inv hrange m n (by omega) hi hstep)
    s hs

theorem originOf_eq_root {F : Type} [FloatCompare F] [Neg F] [One F] {numOriginal : Nat} {root : Int → Int}
    {duplicate : List Int} {vertexUv : List (FVector2D F)} {numVertices : Int}
    (T : TableInv numOriginal root duplicate vertexUv numVertices) (indexMap : List Int)
    (hlink : ∀ p d, TArray.at? duplicate p = some d → d ≠ -1 →
      TArray.at? indexMap d = some p) :
    ∀ (fuel : Nat) (i : Int), 0 ≤ i → i < numVertices → i.toNat < fuel →
      originOf indexMap numOriginal fuel i = some (root i) := by
  intro fuel
  induction fuel with
  | zero => intro i _ _ h; omega
  | succ f ih =>
    intro i h0 h1 hf
    unfold originOf
    by_cases hi : i < (numOriginal : Int)
    · rw [if_pos ⟨h0, hi⟩, T.root_orig i h0 hi]
    · rw [if_neg (fun h => hi h.2)]
      obtain ⟨p, hp⟩ := T.dup_surj i (by omega) h1
      have hne : i ≠ -1 := by omega
      have hr := T.dup_range p i hp hne
      have hp0 := (TArray.at?_bounds hp).1
      rw [hlink p i hp hne, Option.some_bind, ih p hp0 (by omega) (by omega),
        T.root_dup p i hp hne]
/-! ## More on loops and assertions -/

theorem assert_eq_some (b : Bool) : assert b = some () ↔ b = true := by
  cases b <;> simp [assert]

theorem assert_eq_none (b : Bool) : assert b = none ↔ b = false := by
  cases b <;> simp [assert]

/-- The states a loop runs through: a loop that returns has returned from each of its
rounds. -/
theorem forLoop_prefix {σ : Type} (body : σ → Nat → Option σ) (s0 t : σ) (n : Nat)
    (hn : forLoop body n s0 = some t) :
    ∀ m, m ≤ n → ∃ u, forLoop body m s0 = some u := by
  induction n generalizing t with
  | zero =>
    intro m hm
    have : m = 0 := by omega
    subst this
    exact ⟨t, hn⟩
  | succ n ih =>
    intro m hm
    by_cases hmn : m = n + 1
    · subst hmn; exact ⟨t, hn⟩
    · simp only [forLoop, Option.bind_eq_some] at hn
      obtain ⟨u, hu, -⟩ := hn
      exact ih u hu m (by omega)

/-- Two loops whose bodies keep a relation between their states, as long as the first one
returns. -/
theorem forLoop_sim {σ τ : Type} (body1 : σ → Nat → Option σ) (body2 : τ → Nat → Option τ)
    (R : σ → τ → Prop)
    (hstep : ∀ i s s1 t, R s s1 → body1 s i = some t → ∃ t1, body2 s1 i = some t1 ∧ R t t1)
    (s0 : σ) (s1 : τ) (h0 : R s0 s1) :
    ∀ n t, forLoop body1 n s0 = some t → ∃ t1, forLoop body2 n s1 = some t1 ∧ R t t1 := by
  intro n
  induction n with
  | zero =>
    intro t ht
    simp only [forLoop, Option.some.injEq] at ht
    subst ht
    exact ⟨s1, rfl, h0⟩
  | succ n ih =>
    intro t ht
    simp only [forLoop, Option.bind_eq_some] at ht
    obtain ⟨u, hu, hut⟩ := ht
    obtain ⟨u1, hu1, hR⟩ := ih u hu
    obtain ⟨t1, ht1, hR1⟩ := hstep n u u1 t hR hut
    exact ⟨t1, by simp [forLoop, hu1, ht1], hR1⟩

/-- A loop whose body commutes with a change `g` of the state. -/
theorem forLoop_map {σ : Type} (body : σ → Nat → Option σ) (g : σ → σ)
    (hstep : ∀ i s, body (g s) i = (body s i).map g) (s0 : σ) :
    ∀ n, forLoop body n (g s0) = (forLoop body n s0).map g := by
  intro n
  induction n with
  | zero => rfl
  | succ n ih =>
    simp only [forLoop, ih]
    cases forLoop body n s0 with
    | none => rfl
    | some u => simp [hstep]

/-! ## Reading values from the stream -/

theorem overwrite_length (old got : List Nat) (h : got.length ≤ old.length) :
    (overwrite old got).length = old.length := by
  simp [overwrite]
  omega

theorem overwrite_full (old got : List Nat) (h : old.length ≤ got.length) :
    overwrite old got = got := by
  simp [overwrite, List.drop_eq_nil_of_le h]

theorem readFloats_length {F : Type} (decodeFloat : List Nat → F) (n : Nat)
    (inputMesh : List Nat) : (readFloats decodeFloat n inputMesh).1.length = n := by
  simp [readFloats]

theorem readFloats_rest {F : Type} (decodeFloat : List Nat → F) (n : Nat)
    (inputMesh : List Nat) :
    (readFloats decodeFloat n inputMesh).2 = inputMesh.drop (4 * n) := rfl

theorem readFloats_at {F : Type} (decodeFloat : List Nat → F) (n : Nat)
    (inputMesh : List Nat) (k : Nat) (hk : k < n) :
    TArray.at? (readFloats decodeFloat n inputMesh).1 (k : Int) =
      some (decodeFloat
        (word (overwrite (List.replicate (4 * n) 0) (inputMesh.take (4 * n))) k)) := by
  rw [TArray.at?_natCast]
  simp [readFloats, hk]

/-- In a read that the stream can serve, value `k` is made from bytes `4k .. 4k+3` of the
stream. -/
theorem word_overwrite_take (old inputMesh : List Nat) (n k : Nat) (hk : k < n)
    (hold : old.length = 4 * n) (hlen : 4 * n ≤ inputMesh.length) :
    word (overwrite old (inputMesh.take (4 * n))) k = word inputMesh k := by
  rw [overwrite_full _ _ (by simp; omega)]
  unfold word
  rw [List.drop_take, List.take_take]
  congr 1
  omega

/-! ## The loop over the vertex records -/

theorem storeVector_false {F : Type} (values : List F) (first : Int)
    (arr : Option (List (FVector F))) (i : Nat) :
    storeVector false values first arr i = some arr := rfl

theorem storeVector_true {F : Type} (values : List F) (first : Int)
    (xs : List (FVector F)) (i : Nat) (a b c : F) (hi : i < xs.length)
    (ha : TArray.at? values first = some a) (hb : TArray.at? values (first + 1) = some b)
    (hc : TArray.at? values (first + 2) = some c) :
    ∃ ys, storeVector true values first (some xs) i = some (some ys) ∧
      TArray.put? xs i ⟨a, b, c⟩ = some ys := by
  obtain ⟨ys, hys⟩ := @TArray.put?_of_bounds _ xs (i : Int) ⟨a, b, c⟩ (by omega) (by omega)
  exact ⟨ys, by simp [storeVector, ha, hb, hc, hys], hys⟩

theorem storeVector_step {F : Type} (decodeFloat : List Nat → F) (body : List Nat)
    (n count : Nat) (load : Bool) (first : Nat) (hn : load = true → first + 3 ≤ n)
    (arr0 arr : Option (List (FVector F))) (m : Nat) (hm : m < count)
    (hinv : VectorsRead decodeFloat body n count load first arr0 m arr) :
    ∃ arr1, storeVector load (readFloats decodeFloat n (body.drop (4 * n * m))).1 first arr m
        = some arr1 ∧
      VectorsRead decodeFloat body n count load first arr0 (m + 1) arr1 := by
  cases load with
  | false => exact ⟨arr, rfl, hinv⟩
  | true =>
    have hn := hn rfl
    simp only [VectorsRead, if_true] at hinv ⊢
    obtain ⟨xs, rfl, hlen, hxs⟩ := hinv
    have hval : ∀ k : Nat, k < n →
        TArray.at? (readFloats decodeFloat n (body.drop (4 * n * m))).1 (k : Int) =
          some (decodeFloat (word (vertexRecord body n m) k)) :=
      fun k hk => readFloats_at decodeFloat n _ k hk
    obtain ⟨ys, hys, hput⟩ := storeVector_true
      (readFloats decodeFloat n (body.drop (4 * n * m))).1 (first : Int) xs m _ _ _
      (by omega) (hval first (by omega))
      (by have := hval (first + 1) (by omega); push_cast at this; exact this)
      (by have := hval (first + 2) (by omega); push_cast at this; exact this)
    refine ⟨some ys, hys, ys, rfl, by rw [TArray.put?_length hput]; exact hlen, ?_⟩
    intro k hk
    rw [TArray.at?_put? hput]
    by_cases hkm : k = m
    · subst hkm
      rw [if_pos rfl]
      rfl
    · rw [if_neg (by omega)]
      exact hxs k (by omega)

/-- The loop over the vertex records returns on every stream: it takes `4 * n` bytes per
record out of the stream and fills the arrays it is to load from the records. -/
theorem vertexLoop_spec {F : Type} (decodeFloat : List Nat → F) (body : List Nat)
    (n count : Nat) (loadVertices loadVerticesNormals : Bool)
    (hV : loadVertices = true → 3 ≤ n) (hN : loadVerticesNormals = true → 6 ≤ n)
    (vs ns : Option (List (FVector F)))
    (hvs : VectorsRead decodeFloat body n count loadVertices 0 vs 0 vs)
    (hns : VectorsRead decodeFloat body n count loadVerticesNormals 3 ns 0 ns) :
    ∃ t, forLoop (readVertex decodeFloat n loadVertices loadVerticesNormals) count
        ⟨body, vs, ns⟩ = some t ∧
      t.inputMesh = body.drop (4 * n * count) ∧
      VectorsRead decodeFloat body n count loadVertices 0 vs count t.vertices ∧
      VectorsRead decodeFloat body n count loadVerticesNormals 3 ns count
        t.verticesNormals := by
  refine forLoop_total (readVertex decodeFloat n loadVertices loadVerticesNormals)
    (fun m t => t.inputMesh = body.drop (4 * n * m) ∧
      VectorsRead decodeFloat body n count loadVertices 0 vs m t.vertices ∧
      VectorsRead decodeFloat body n count loadVerticesNormals 3 ns m t.verticesNormals)
    count ⟨body, vs, ns⟩ ⟨by simp, hvs, hns⟩ ?_
  rintro m ⟨inp, va, na⟩ hm ⟨hin, hva, hna⟩
  simp only at hin hva hna
  subst hin
  obtain ⟨va1, hva1, hinv1⟩ := storeVector_step decodeFloat body n count loadVertices 0
    (fun h => by have := hV h; omega) vs va m hm hva
  obtain ⟨na1, hna1, hinv2⟩ := storeVector_step decodeFloat body n count loadVerticesNormals 3
    (fun h => by have := hN h; omega) ns na m hm hna
  refine ⟨⟨(readFloats decodeFloat n (body.drop (4 * n * m))).2, va1, na1⟩, ?_, ?_, hinv1,
    hinv2⟩
  · simp only [readVertex, Option.bind_eq_bind, Option.pure_def]
    have e1 : ((0 : Nat) : Int) = 0 := rfl
    have e3 : ((3 : Nat) : Int) = 3 := rfl
    rw [e1] at hva1
    rw [e3] at hna1
    rw [hva1, Option.some_bind, hna1, Option.some_bind]
  · simp only [readFloats_rest, List.drop_drop]
    congr 1

/-- The array a finished loop over the vertex records has loaded. -/
theorem VectorsRead.loaded {F : Type} {decodeFloat : List Nat → F} {body : List Nat}
    {n count first : Nat} {arr0 arr : Option (List (FVector F))}
    (h : VectorsRead decodeFloat body n count true first arr0 count arr) :
    arr = some ((List.range count).map fun i =>
      vectorOf decodeFloat (vertexRecord body n i) first) := by
  simp only [VectorsRead, if_true] at h
  obtain ⟨xs, rfl, hlen, hxs⟩ := h
  congr 1
  apply List.ext_getElem?
  intro k
  by_cases hk : k < count
  · have := hxs k hk
    rw [TArray.at?_natCast] at this
    rw [this]
    simp [hk]
  · rw [List.getElem?_eq_none (by omega), List.getElem?_eq_none (by simp; omega)]

/-! ## The loop over the face records -/

theorem int32Bytes_length (x : Int) : (int32Bytes x).length = 4 := rfl

theorem flatMap_int32Bytes_length (old : List Int) :
    (old.flatMap int32Bytes).length = 4 * old.length := by
  induction old with
  | nil => rfl
  | cons a l ih => simp [List.flatMap_cons, ih, int32Bytes_length]; omega

theorem readInts_full (old : List Int) (idx rest : List Nat) (hold : old.length = 3)
    (hidx : idx.length = 12) :
    readInts old (idx ++ rest) = (indicesOf idx, rest) := by
  have htake : (idx ++ rest).take 12 = idx := List.take_left' hidx
  have hdrop : (idx ++ rest).drop 12 = rest := List.drop_left' hidx
  have hov : overwrite (old.flatMap int32Bytes) idx = idx :=
    overwrite_full _ _ (by rw [flatMap_int32Bytes_length]; omega)
  simp [readInts, hold, htake, hdrop, hov, indicesOf, List.range_succ]

theorem readFaceIndices_false (countVertices i : Nat) (faces : Option (List Int))
    (inputMesh : List Nat) :
    readFaceIndices false countVertices i faces inputMesh = some (faces, inputMesh) := rfl

theorem readFaceIndices_true (i : Nat) (fs : List Int) (idx rest : List Nat)
    (hfs : 3 * i + 3 ≤ fs.length) (hidx : idx.length = 12) :
    readFaceIndices true 3 i (some fs) (idx ++ rest) =
      some (some (fs.take (i * 3) ++ indicesOf idx ++ fs.drop (i * 3 + 3)), rest) := by
  have hold : ((fs.drop (i * 3)).take 3).length = 3 := by
    simp; omega
  simp only [readFaceIndices, if_true, Option.bind_eq_bind, Option.some_bind, hold,
    readInts_full _ idx rest hold hidx, Option.pure_def]

theorem readFaceUv_false {F : Type} [Sub F] [One F] (decodeFloat : List Nat → F)
    (junkUv : FVector2D F) (countVertices i : Nat)
    (uvMapping : Option (List (List (FVector2D F)))) (inputMesh : List Nat) :
    readFaceUv decodeFloat junkUv false countVertices i uvMapping inputMesh =
      some (uvMapping, inputMesh) := rfl

theorem readFaceUv_true {F : Type} [Sub F] [One F] (decodeFloat : List Nat → F)
    (junkUv : FVector2D F) (i : Nat) (uvs : List (List (FVector2D F)))
    (uvb rest : List Nat) (hi : i < uvs.length) (huvb : uvb.length = 24) :
    readFaceUv decodeFloat junkUv true 3 i (some uvs) (6 :: (uvb ++ rest)) =
      some (some (uvs.set i (uvRowOf decodeFloat uvb)), rest) := by
  obtain ⟨row, hrow⟩ := @TArray.at?_of_bounds _ uvs (i : Int) (by omega) (by omega)
  have hl : (TArray.SetNum row ((3 : Nat) : Int) junkUv).length = 3 := by
    rw [TArray.SetNum_length]; rfl
  obtain ⟨a, b, c, habc⟩ : ∃ a b c, TArray.SetNum row ((3 : Nat) : Int) junkUv = [a, b, c] := by
    generalize TArray.SetNum row ((3 : Nat) : Int) junkUv = l at hl
    match l, hl with
    | [a, b, c], _ => exact ⟨a, b, c, rfl⟩
  have hval : ∀ k : Nat, k < 6 →
      TArray.at? (readFloats decodeFloat 6 (uvb ++ rest)).1 (k : Int) =
        some (decodeFloat (word uvb k)) := by
    intro k hk
    rw [readFloats_at decodeFloat 6 _ k hk]
    have htake : (uvb ++ rest).take (4 * 6) = uvb := List.take_left' huvb
    rw [htake, overwrite_full _ _ (by simp; omega)]
  have hdrop : (readFloats decodeFloat 6 (uvb ++ rest)).2 = rest := by
    rw [readFloats_rest]; exact List.drop_left' huvb
  have h0 : TArray.at? (readFloats decodeFloat 6 (uvb ++ rest)).1 0 = _ := hval 0 (by omega)
  have h1 : TArray.at? (readFloats decodeFloat 6 (uvb ++ rest)).1 1 = _ := hval 1 (by omega)
  have h2 : TArray.at? (readFloats decodeFloat 6 (uvb ++ rest)).1 2 = _ := hval 2 (by omega)
  have h3 : TArray.at? (readFloats decodeFloat 6 (uvb ++ rest)).1 3 = _ := hval 3 (by omega)
  have h4 : TArray.at? (readFloats decodeFloat 6 (uvb ++ rest)).1 4 = _ := hval 4 (by omega)
  have h5 : TArray.at? (readFloats decodeFloat 6 (uvb ++ rest)).1 5 = _ := hval 5 (by omega)
  have hput : TArray.put? uvs (i : Int) (uvRowOf decodeFloat uvb) =
      some (uvs.set i (uvRowOf decodeFloat uvb)) := by
    simp [TArray.put?, hi]
  have hloop : forLoop (fun (row : List (FVector2D F)) (j : Nat) =>
      (TArray.at? (readFloats decodeFloat 6 (uvb ++ rest)).1 (2 * (j : Int))).bind fun u =>
        (TArray.at? (readFloats decodeFloat 6 (uvb ++ rest)).1 (2 * (j : Int) + 1)).bind
          fun v => TArray.put? row j ⟨u, 1 - v⟩) 3 [a, b, c] =
      some (uvRowOf decodeFloat uvb) := by
    simp only [forLoop, Option.some_bind]
    norm_num
    simp only [h0, h1, h2, h3, h4, h5, Option.some_bind]
    simp [TArray.put?, uvRowOf]
  simp only [readFaceUv, if_true, Option.bind_eq_bind, Option.some_bind, hrow, List.head?_cons,
    assert, beq_self_eq_true, List.drop_one, List.tail_cons, habc, Option.pure_def, hdrop]
  rw [hloop]
  simp only [Option.some_bind, hput]

theorem flatMap_indicesOf_length (recs : List (List Nat × List Nat)) :
    (recs.flatMap fun r => indicesOf r.1).length = 3 * recs.length := by
  induction recs with
  | nil => rfl
  | cons a l ih =>
    simp only [List.flatMap_cons, List.length_append, ih, List.length_cons]
    simp [indicesOf]
    omega

theorem take_succ_of_lt {α : Type} (l : List α) (m : Nat) (hm : m < l.length) :
    l.take (m + 1) = l.take m ++ [l[m]] := by
  rw [List.take_succ, List.getElem?_eq_getElem hm]
  rfl

theorem set_at_length {α : Type} (A : List α) (x y : α) (R : List α) (m : Nat)
    (h : A.length = m) : (A ++ x :: R).set m y = A ++ y :: R := by
  subst h
  induction A with
  | nil => rfl
  | cons a l ih => simp [ih]

/-- One face record that carries the counts 3 and 6 is read: the loop body returns the
stream behind the record and the arrays with the record stored. -/
theorem readFace_step {F : Type} [Sub F] [One F] (decodeFloat : List Nat → F)
    (junkUv : FVector2D F) (loadFaces loadUvMapping : Bool) (count : Nat)
    (recs : List (List Nat × List Nat)) (tail : List Nat)
    (faces0 : Option (List Int)) (uv0 : Option (List (List (FVector2D F))))
    (hlen : recs.length ≤ count)
    (hidx : loadFaces = true → ∀ r ∈ recs, r.1.length = 12)
    (huvb : loadUvMapping = true → ∀ r ∈ recs, r.2.length = 24)
    (m : Nat) (hml : m < recs.length) :
    readFace decodeFloat junkUv loadFaces loadUvMapping
        ⟨(recs.drop m).flatMap (faceRecordBytes loadFaces loadUvMapping) ++ tail,
          facesAfter loadFaces count recs m faces0,
          uvAfter decodeFloat loadUvMapping count recs m uv0⟩ m =
      some ⟨(recs.drop (m + 1)).flatMap (faceRecordBytes loadFaces loadUvMapping) ++ tail,
        facesAfter loadFaces count recs (m + 1) faces0,
        uvAfter decodeFloat loadUvMapping count recs (m + 1) uv0⟩ := by
  have hm : m < count := by omega
  have hdrop : recs.drop m = recs[m] :: recs.drop (m + 1) := List.drop_eq_getElem_cons hml
  have hmem : recs[m] ∈ recs := List.getElem_mem hml
  have htk : recs.take (m + 1) = recs.take m ++ [recs[m]] := take_succ_of_lt recs m hml
  generalize hr : recs[m] = r at hdrop hmem htk
  generalize hrest : (recs.drop (m + 1)).flatMap (faceRecordBytes loadFaces loadUvMapping)
    ++ tail = rest
  have hstream : (recs.drop m).flatMap (faceRecordBytes loadFaces loadUvMapping) ++ tail =
      3 :: ((if loadFaces then r.1 else []) ++
        ((if loadUvMapping then 6 :: r.2 else []) ++ rest)) := by
    rw [hdrop, List.flatMap_cons, ← hrest]
    simp [faceRecordBytes]
  have hA : ((recs.take m).flatMap fun r => indicesOf r.1).length = 3 * m := by
    rw [flatMap_indicesOf_length, List.length_take]
    omega
  have hB : ((recs.take m).map fun r => uvRowOf decodeFloat r.2).length = m := by
    rw [List.length_map, List.length_take]
    omega
  -- the index part
  have h1 : readFaceIndices loadFaces 3 m (facesAfter loadFaces count recs m faces0)
      ((if loadFaces then r.1 else []) ++
        ((if loadUvMapping then 6 :: r.2 else []) ++ rest)) =
      some (facesAfter loadFaces count recs (m + 1) faces0,
        (if loadUvMapping then 6 :: r.2 else []) ++ rest) := by
    cases loadFaces with
    | false => rfl
    | true =>
      simp only [facesAfter, if_true]
      rw [readFaceIndices_true m _ r.1 _ (by simp [hA]; omega) (hidx rfl r hmem)]
      congr 3
      have e1 : m * 3 = ((recs.take m).flatMap fun r => indicesOf r.1).length := by omega
      have e2 : m * 3 + 3 = ((recs.take m).flatMap fun r => indicesOf r.1).length + 3 := by
        omega
      rw [e2, List.drop_append, e1, List.take_left, List.drop_replicate, htk,
        List.flatMap_append]
      have e3 : 3 * (count - m) - 3 = 3 * (count - (m + 1)) := by omega
      rw [e3]
      simp
  -- the UV part
  have h2 : readFaceUv decodeFloat junkUv loadUvMapping 3 m
      (uvAfter decodeFloat loadUvMapping count recs m uv0)
      ((if loadUvMapping then 6 :: r.2 else []) ++ rest) =
      some (uvAfter decodeFloat loadUvMapping count recs (m + 1) uv0, rest) := by
    cases loadUvMapping with
    | false => rfl
    | true =>
      simp only [uvAfter, if_true, List.cons_append]
      rw [readFaceUv_true decodeFloat junkUv m _ r.2 rest (by simp [hB]; omega)
        (huvb rfl r hmem)]
      congr 3
      have e1 : count - m = (count - (m + 1)) + 1 := by omega
      rw [e1, List.replicate_succ, htk, List.map_append]
      rw [set_at_length _ _ _ _ m hB]
      simp
  simp only [readFace, hstream, List.head?_cons, Option.bind_eq_bind, Option.some_bind, assert,
    beq_self_eq_true, if_true, List.drop_one, List.tail_cons, h1, h2, Option.pure_def]

/-- The loop over the face records on a stream that starts with records that carry the
counts 3 and 6: after `m` of them the stream stands behind record `m - 1` and the arrays hold
the records read. -/
theorem faceLoop_spec {F : Type} [Sub F] [One F] (decodeFloat : List Nat → F)
    (junkUv : FVector2D F) (loadFaces loadUvMapping : Bool) (count : Nat)
    (recs : List (List Nat × List Nat)) (tail : List Nat)
    (faces0 : Option (List Int)) (uv0 : Option (List (List (FVector2D F))))
    (hlen : recs.length ≤ count)
    (hidx : loadFaces = true → ∀ r ∈ recs, r.1.length = 12)
    (huvb : loadUvMapping = true → ∀ r ∈ recs, r.2.length = 24) :
    ∀ m, m ≤ recs.length →
      forLoop (readFace decodeFloat junkUv loadFaces loadUvMapping) m
          ⟨recs.flatMap (faceRecordBytes loadFaces loadUvMapping) ++ tail,
            facesAfter loadFaces count recs 0 faces0,
            uvAfter decodeFloat loadUvMapping count recs 0 uv0⟩ =
        some ⟨(recs.drop m).flatMap (faceRecordBytes loadFaces loadUvMapping) ++ tail,
          facesAfter loadFaces count recs m faces0,
          uvAfter decodeFloat loadUvMapping count recs m uv0⟩ := by
  intro m
  induction m with
  | zero => intro _; rfl
  | succ m ih =>
    intro hm
    simp only [forLoop, ih (by omega), Option.some_bind]
    exact readFace_step decodeFloat junkUv loadFaces loadUvMapping count recs tail faces0 uv0
      hlen hidx huvb m (by omega)

/-! ## The body of a well-formed stream -/

theorem TArray.Init_of_lt {α : Type} (fill : α) (n : Nat) (h : n < 2147483648) :
    TArray.Init fill n = some (List.replicate n fill) := by
  simp [TArray.Init, h]

theorem initArray_false {α : Type} (count : Option Nat) (fill : α) (arr : Option (List α)) :
    initArray false count fill arr = some arr := rfl

theorem initArray_true {α : Type} (n : Nat) (fill : α) (arr : Option (List α))
    (h : n < 2147483648) :
    initArray true (some n) fill arr = some (some (List.replicate n fill)) := by
  simp [initArray, TArray.Init_of_lt fill n h]

theorem initArray_of_lt {α : Type} (load : Bool) (n : Nat) (fill : α) (arr : Option (List α))
    (h : n < 2147483648) :
    initArray load (some n) fill arr =
      some (if load then some (List.replicate n fill) else arr) := by
  cases load with
  | false => rfl
  | true => exact initArray_true n fill arr h

theorem VectorsRead.start {F : Type} (decodeFloat : List Nat → F) (body : List Nat)
    (n count : Nat) (load : Bool) (first : Nat) (junkV : FVector F)
    (arr : Option (List (FVector F))) :
    VectorsRead decodeFloat body n count load first
      (if load then some (List.replicate count junkV) else arr) 0
      (if load then some (List.replicate count junkV) else arr) := by
  cases load with
  | false => rfl
  | true =>
    simp only [VectorsRead, if_true]
    exact ⟨_, rfl, by simp, fun k hk => absurd hk (by omega)⟩

/-- What `LoadModelFromBinPLY` does behind the header on a stream whose header declares
faces and UV mapping, with both requested: the vertex records (if the header declares
positions) are followed by face records that carry the counts 3 and 6. -/
theorem loadBody_valid {F : Type} [Sub F] [One F] (decodeFloat : List Nat → F)
    (junkV : FVector F) (junkUv : FVector2D F) (hasVertices hasNormals : Bool)
    (ocv : Option Nat) (cv cf : Nat)
    (body vsec tail : List Nat) (recs : List (List Nat × List Nat))
    (vertices normals : Option (List (FVector F))) (f0 : List Int)
    (u0 : List (List (FVector2D F)))
    (hcons : (hasVertices || !hasNormals) = true)
    (hcount : if hasVertices then ocv = some cv ∧ cv < 2147483648 else cv = 0)
    (hcf : cf * 3 < 2147483648)
    (hbody : body = vsec ++ (recs.flatMap (faceRecordBytes true true) ++ tail))
    (hvsec : vsec.length =
      4 * ((if hasVertices then 3 else 0) + if hasNormals then 3 else 0) * cv)
    (hrecs : recs.length = cf) (hidx : ∀ r ∈ recs, r.1.length = 12)
    (huvb : ∀ r ∈ recs, r.2.length = 24) :
    loadBody decodeFloat junkV junkUv ⟨hasVertices, hasNormals, true, true, ocv, some cf⟩ body
        vertices normals (some f0) (some u0) =
      some ⟨if vertices.isSome && hasVertices then
          some ((List.range cv).map fun i =>
            vectorOf decodeFloat (vertexRecord body
              ((if hasVertices then 3 else 0) + if hasNormals then 3 else 0) i) 0)
        else vertices,
        if normals.isSome && hasNormals then
          some ((List.range cv).map fun i =>
            vectorOf decodeFloat (vertexRecord body
              ((if hasVertices then 3 else 0) + if hasNormals then 3 else 0) i) 3)
        else normals,
        some (recs.flatMap fun r => indicesOf r.1),
        some (recs.map fun r => uvRowOf decodeFloat r.2), tail⟩ := by
  have hface := faceLoop_spec decodeFloat junkUv true true cf recs tail (some f0) (some u0)
    (by omega) (fun _ => hidx) (fun _ => huvb) cf (by omega)
  have hdropall : recs.drop cf = [] := List.drop_eq_nil_of_le (by omega)
  have htakeall : recs.take cf = recs := List.take_of_length_le (by omega)
  simp only [facesAfter, uvAfter, if_true, List.take_zero, List.flatMap_nil, List.nil_append,
    List.map_nil, Nat.sub_zero, hdropall, htakeall, Nat.sub_self, Nat.mul_zero,
    List.replicate_zero, List.append_nil] at hface
  have hmod : cf * 3 % 18446744073709551616 = cf * 3 := Nat.mod_eq_of_lt (by omega)
  have h3cf : 3 * cf = cf * 3 := by omega
  rw [h3cf] at hface
  cases hasVertices with
  | false =>
    have hn : hasNormals = false := by
      cases hasNormals <;> simp_all
    subst hn
    simp only [Bool.false_eq_true, if_false] at hcount hvsec
    have hv : vsec = [] := List.eq_nil_of_length_eq_zero (by rw [hvsec]; simp)
    subst hv
    simp only [List.nil_append] at hbody
    simp only [loadBody, vertexSection, faceSection, Option.isSome_some, Bool.true_and,
      Bool.and_true, Bool.and_false, if_true, if_false, Option.bind_eq_bind, Option.some_bind,
      Option.map_some', Option.pure_def, hmod, initArray_false,
      initArray_true (cf * 3) (0 : Int) _ hcf,
      initArray_true cf ([] : List (FVector2D F)) _ (show cf < 2147483648 by omega),
      Bool.true_or, Bool.or_self, Bool.false_or, Bool.or_true, Bool.false_eq_true,
      Bool.not_false, assert, hbody, hface]
  | true =>
    simp only [if_true] at hcount hvsec ⊢
    obtain ⟨rfl, hcv⟩ := hcount
    obtain ⟨t, ht, hin, hV, hN⟩ := vertexLoop_spec decodeFloat body
      (3 + if hasNormals then 3 else 0) cv vertices.isSome (normals.isSome && hasNormals)
      (fun _ => by omega)
      (fun h => by
        have : hasNormals = true := by
          cases hasNormals <;> simp_all
        simp [this])
      (if vertices.isSome then some (List.replicate cv junkV) else vertices)
      (if (normals.isSome && hasNormals) then some (List.replicate cv junkV) else normals)
      (VectorsRead.start decodeFloat body _ cv vertices.isSome 0 junkV vertices)
      (VectorsRead.start decodeFloat body _ cv (normals.isSome && hasNormals) 3 junkV normals)
    have hVl : t.vertices =
        if vertices.isSome then
          some ((List.range cv).map fun i =>
            vectorOf decodeFloat (vertexRecord body (3 + if hasNormals then 3 else 0) i) 0)
        else vertices := by
      cases hl : vertices.isSome with
      | false =>
        rw [hl] at hV
        simpa [VectorsRead] using hV
      | true =>
        rw [hl] at hV
        simpa using VectorsRead.loaded hV
    have hNl : t.verticesNormals =
        if normals.isSome && hasNormals then
          some ((List.range cv).map fun i =>
            vectorOf decodeFloat (vertexRecord body (3 + if hasNormals then 3 else 0) i) 3)
        else normals := by
      cases hl : (normals.isSome && hasNormals) with
      | false =>
        rw [hl] at hN
        simpa [VectorsRead] using hN
      | true =>
        rw [hl] at hN
        simpa using VectorsRead.loaded hN
    have hin2 : t.inputMesh = recs.flatMap (faceRecordBytes true true) ++ tail := by
      rw [hin, hbody, ← hvsec]
      exact List.drop_left _ _
    simp only [loadBody, vertexSection, faceSection, Option.isSome_some, Bool.true_and,
      Bool.and_true, if_true, Option.bind_eq_bind, Option.some_bind, Option.map_some',
      Option.pure_def, hmod, initArray_of_lt _ cv junkV _ hcv,
      initArray_true (cf * 3) (0 : Int) _ hcf,
      initArray_true cf ([] : List (FVector2D F)) _ (show cf < 2147483648 by omega),
      Bool.true_or, assert, ht, hin2, hface, hVl, hNl]


/-- Behind a header that parses, `LoadModelFromBinPLY` is `loadBody` on the parsed flags. -/
theorem LoadModelFromBinPLY_of_header {F : Type} [Sub F] [One F] (decodeFloat : List Nat → F)
    (junkV : FVector F) (junkUv : FVector2D F) (inputMesh : List Nat)
    (vertices verticesNormals : Option (List (FVector F))) (faces : Option (List Int))
    (uvMapping : Option (List (List (FVector2D F)))) (hdr : PlyHeader) (body : List Nat)
    (hparse : parsePlyHeader (inputMesh.length + 1) inputMesh
      ⟨false, false, false, false, none, none⟩ = some (hdr, body)) :
    LoadModelFromBinPLY decodeFloat junkV junkUv inputMesh vertices verticesNormals faces
        uvMapping =
      loadBody decodeFloat junkV junkUv hdr body vertices verticesNormals faces uvMapping := by
  simp [LoadModelFromBinPLY, hparse]

/-- Entry `3 * i + j` of the face array that the face records give. -/
theorem flatMap_indicesOf_getElem? (recs : List (List Nat × List Nat)) :
    ∀ (i j : Nat) (r : List Nat × List Nat), j < 3 → recs[i]? = some r →
      (recs.flatMap fun r => indicesOf r.1)[3 * i + j]? = some (leInt32 (word r.1 j)) := by
  induction recs with
  | nil => intro i j r _ h; simp at h
  | cons a l ih =>
    intro i j r hj h
    rw [List.flatMap_cons]
    cases i with
    | zero =>
      simp only [List.getElem?_cons_zero, Option.some.injEq] at h
      subst h
      rw [List.getElem?_append_left (by simp [indicesOf]; omega)]
      interval_cases j <;> simp [indicesOf]
    | succ i =>
      simp only [List.getElem?_cons_succ] at h
      rw [List.getElem?_append_right (by simp [indicesOf]; omega)]
      have e : 3 * (i + 1) + j - (indicesOf a.1).length = 3 * i + j := by
        simp [indicesOf]; omega
      rw [e]
      exact ih i j r hj h


/-- With a consistent header the loop over the vertex records always returns: `loadBody` is
the part behind that loop on the stream without the vertex records. -/
theorem loadBody_after_vertices {F : Type} [Sub F] [One F] (decodeFloat : List Nat → F)
    (junkV : FVector F) (junkUv : FVector2D F) (hdr : PlyHeader) (body : List Nat) (cv : Nat)
    (vertices normals : Option (List (FVector F))) (faces : Option (List Int))
    (uvMapping : Option (List (List (FVector2D F))))
    (hcons : (hdr.existVertices || !hdr.existVerticesNormals) = true)
    (hcount : hdr.existVertices = true →
      hdr.countElementVertexInMesh = some cv ∧ cv < 2147483648) :
    loadBody decodeFloat junkV junkUv hdr body vertices normals faces uvMapping =
      loadFaceStage decodeFloat junkUv hdr
        (body.drop (if hdr.existVertices then 4 * valuesInLine hdr * cv else 0))
        (vectorsAfter decodeFloat body (valuesInLine hdr) cv
          (vertices.isSome && hdr.existVertices) 0 vertices)
        (vectorsAfter decodeFloat body (valuesInLine hdr) cv
          (normals.isSome && hdr.existVerticesNormals) 3 normals) faces uvMapping := by
  obtain ⟨ev, en, ef, eu, ocv, ocf⟩ := hdr
  cases ev with
  | false =>
    have hn : en = false := by
      cases en <;> simp_all
    subst hn
    cases hf : initArray (faces.isSome && ef)
        (ocf.map fun n => n * 3 % 18446744073709551616) (0 : Int) faces <;>
      cases hu : initArray (uvMapping.isSome && eu) ocf ([] : List (FVector2D F))
        uvMapping <;>
      simp [loadBody, loadFaceStage, vertexSection, vectorsAfter, valuesInLine,
        initArray_false, hf, hu, assert]
  | true =>
    obtain ⟨hocv, hcv⟩ := hcount rfl
    simp only at hocv
    subst hocv
    obtain ⟨t, ht, hin, hV, hN⟩ := vertexLoop_spec decodeFloat body
      (3 + if en then 3 else 0) cv vertices.isSome (normals.isSome && en)
      (fun _ => by omega)
      (fun h => by
        have : en = true := by
          cases en <;> simp_all
        simp [this])
      (if vertices.isSome then some (List.replicate cv junkV) else vertices)
      (if (normals.isSome && en) then some (List.replicate cv junkV) else normals)
      (VectorsRead.start decodeFloat body _ cv vertices.isSome 0 junkV vertices)
      (VectorsRead.start decodeFloat body _ cv (normals.isSome && en) 3 junkV normals)
    have hVl : t.vertices =
        vectorsAfter decodeFloat body (3 + if en then 3 else 0) cv vertices.isSome 0
          vertices := by
      cases hl : vertices.isSome with
      | false =>
        rw [hl] at hV
        simpa [VectorsRead, vectorsAfter] using hV
      | true =>
        rw [hl] at hV
        simpa [vectorsAfter] using VectorsRead.loaded hV
    have hNl : t.verticesNormals =
        vectorsAfter decodeFloat body (3 + if en then 3 else 0) cv (normals.isSome && en) 3
          normals := by
      cases hl : (normals.isSome && en) with
      | false =>
        rw [hl] at hN
        simpa [VectorsRead, vectorsAfter] using hN
      | true =>
        rw [hl] at hN
        simpa [vectorsAfter] using VectorsRead.loaded hN
    simp only [loadBody, loadFaceStage, vertexSection, valuesInLine, Bool.and_true, if_true,
      Option.bind_eq_bind, Option.some_bind, Option.pure_def,
      initArray_of_lt _ cv junkV _ hcv, Bool.true_or, assert, ht, hin, hVl, hNl]

theorem vertexRecord_of_le (body : List Nat) (n i : Nat)
    (h : 4 * n * (i + 1) ≤ body.length) :
    vertexRecord body n i = (body.drop (4 * n * i)).take (4 * n) := by
  unfold vertexRecord
  apply overwrite_full
  simp only [List.length_replicate, List.length_take, List.length_drop]
  have : 4 * n * (i + 1) = 4 * n * i + 4 * n := by ring
  omega

theorem vertexRecord_of_ge (body : List Nat) (n i : Nat) (h : body.length ≤ 4 * n * i) :
    vertexRecord body n i = List.replicate (4 * n) 0 := by
  unfold vertexRecord
  rw [List.drop_eq_nil_of_le h]
  simp [overwrite]

theorem word_replicate_zero (n k : Nat) (h : k < n) :
    word (List.replicate (4 * n) 0) k = [0, 0, 0, 0] := by
  unfold word
  rw [List.drop_replicate, List.take_replicate]
  have : min 4 (4 * n - 4 * k) = 4 := by omega
  rw [this]
  rfl

theorem vectorsAfter_getElem? {F : Type} (decodeFloat : List Nat → F) (body : List Nat)
    (n count first : Nat) (arr : Option (List (FVector F))) (vs : List (FVector F)) (i : Nat)
    (h : vectorsAfter decodeFloat body n count true first arr = some vs) (hi : i < count) :
    vs[i]? = some (vectorOf decodeFloat (vertexRecord body n i) first) := by
  simp only [vectorsAfter, if_true, Option.some.injEq] at h
  subst h
  simp [List.getElem?_map, List.getElem?_range hi]
/-! ## Arrays that are not loaded -/

theorem vertexSection_setVertices {F : Type} (decodeFloat : List Nat → F) (hdr : PlyHeader)
    (ln : Bool) (a : Option (List (FVector F))) (s : VertexState F) :
    vertexSection decodeFloat hdr false ln ⟨s.inputMesh, a, s.verticesNormals⟩ =
      (vertexSection decodeFloat hdr false ln s).map fun t =>
        ⟨t.inputMesh, a, t.verticesNormals⟩ := by
  unfold vertexSection
  split
  · cases hdr.countElementVertexInMesh with
    | none => rfl
    | some n =>
      exact forLoop_map _ (fun t : VertexState F => ⟨t.inputMesh, a, t.verticesNormals⟩)
        (fun i s => by
          simp only [readVertex, storeVector_false, Option.bind_eq_bind, Option.some_bind,
            Option.pure_def]
          cases storeVector ln _ 3 s.verticesNormals i <;> rfl) s n
  · rfl

theorem vertexSection_setNormals {F : Type} (decodeFloat : List Nat → F) (hdr : PlyHeader)
    (lv : Bool) (a : Option (List (FVector F))) (s : VertexState F) :
    vertexSection decodeFloat hdr lv false ⟨s.inputMesh, s.vertices, a⟩ =
      (vertexSection decodeFloat hdr lv false s).map fun t =>
        ⟨t.inputMesh, t.vertices, a⟩ := by
  unfold vertexSection
  split
  · cases hdr.countElementVertexInMesh with
    | none => rfl
    | some n =>
      exact forLoop_map _ (fun t : VertexState F => ⟨t.inputMesh, t.vertices, a⟩)
        (fun i s => by
          simp only [readVertex, storeVector_false, Option.bind_eq_bind, Option.some_bind,
            Option.pure_def]
          cases storeVector lv _ 0 s.vertices i <;> rfl) s n
  · rfl

theorem faceSection_setFaces {F : Type} [Sub F] [One F] (decodeFloat : List Nat → F)
    (junkUv : FVector2D F) (hdr : PlyHeader) (lu : Bool) (a : Option (List Int))
    (s : FaceState F) :
    faceSection decodeFloat junkUv hdr false lu ⟨s.inputMesh, a, s.uvMapping⟩ =
      (faceSection decodeFloat junkUv hdr false lu s).map fun t =>
        ⟨t.inputMesh, a, t.uvMapping⟩ := by
  unfold faceSection
  split
  · cases hdr.countElementFacesInMesh with
    | none => rfl
    | some n =>
      exact forLoop_map _ (fun t : FaceState F => ⟨t.inputMesh, a, t.uvMapping⟩)
        (fun i s => by
          simp only [readFace, readFaceIndices_false, Option.bind_eq_bind, Option.some_bind,
            Option.pure_def]
          cases s.inputMesh.head? with
          | none => rfl
          | some c =>
            simp only [Option.some_bind]
            cases assert (c == 3) with
            | none => rfl
            | some _ =>
              simp only [Option.some_bind]
              cases readFaceUv decodeFloat junkUv lu c i s.uvMapping
                (s.inputMesh.drop 1) <;> rfl) s n
  · rfl

theorem faceSection_setUv {F : Type} [Sub F] [One F] (decodeFloat : List Nat → F)
    (junkUv : FVector2D F) (hdr : PlyHeader) (lf : Bool)
    (a : Option (List (List (FVector2D F)))) (s : FaceState F) :
    faceSection decodeFloat junkUv hdr lf false ⟨s.inputMesh, s.faces, a⟩ =
      (faceSection decodeFloat junkUv hdr lf false s).map fun t =>
        ⟨t.inputMesh, t.faces, a⟩ := by
  unfold faceSection
  split
  · cases hdr.countElementFacesInMesh with
    | none => rfl
    | some n =>
      exact forLoop_map _ (fun t : FaceState F => ⟨t.inputMesh, t.faces, a⟩)
        (fun i s => by
          simp only [readFace, readFaceUv_false, Option.bind_eq_bind, Option.some_bind,
            Option.pure_def]
          cases s.inputMesh.head? with
          | none => rfl
          | some c =>
            simp only [Option.some_bind]
            cases assert (c == 3) with
            | none => rfl
            | some _ =>
              simp only [Option.some_bind]
              cases readFaceIndices lf c i s.faces (s.inputMesh.drop 1) <;> rfl) s n
  · rfl


theorem loadBody_unloaded_vertices {F : Type} [Sub F] [One F] (decodeFloat : List Nat → F)
    (junkV : FVector F) (junkUv : FVector2D F) (hdr : PlyHeader) (body : List Nat)
    (a normals : Option (List (FVector F))) (faces : Option (List Int))
    (uvMapping : Option (List (List (FVector2D F)))) (h : hdr.existVertices = false) :
    loadBody decodeFloat junkV junkUv hdr body a normals faces uvMapping =
      (loadBody decodeFloat junkV junkUv hdr body none normals faces uvMapping).map fun o =>
        { o with vertices := a } := by
  simp only [loadBody, h, Bool.and_false, initArray_false, Option.bind_eq_bind,
    Option.some_bind, Option.pure_def]
  cases initArray (normals.isSome && hdr.existVerticesNormals) hdr.countElementVertexInMesh
    junkV normals with
  | none => rfl
  | some n1 =>
    cases initArray (faces.isSome && hdr.existFaces)
      (hdr.countElementFacesInMesh.map fun n => n * 3 % 18446744073709551616) (0 : Int)
      faces with
    | none => rfl
    | some f1 =>
      cases initArray (uvMapping.isSome && hdr.existUvMapping) hdr.countElementFacesInMesh
        ([] : List (FVector2D F)) uvMapping with
      | none => rfl
      | some u1 =>
        cases assert (false || !hdr.existVerticesNormals) with
        | none => rfl
        | some _ =>
          simp only [Option.some_bind]
          rw [vertexSection_setVertices decodeFloat hdr _ a ⟨body, none, n1⟩]
          cases vertexSection decodeFloat hdr false
            (normals.isSome && hdr.existVerticesNormals) ⟨body, none, n1⟩ with
          | none => rfl
          | some vs =>
            simp only [Option.map_some', Option.some_bind]
            cases assert (hdr.existFaces || !hdr.existUvMapping) with
            | none => rfl
            | some _ =>
              simp only [Option.some_bind]
              cases faceSection decodeFloat junkUv hdr (faces.isSome && hdr.existFaces)
                (uvMapping.isSome && hdr.existUvMapping) ⟨vs.inputMesh, f1, u1⟩ <;> rfl

theorem loadBody_unloaded_normals {F : Type} [Sub F] [One F] (decodeFloat : List Nat → F)
    (junkV : FVector F) (junkUv : FVector2D F) (hdr : PlyHeader) (body : List Nat)
    (vertices a : Option (List (FVector F))) (faces : Option (List Int))
    (uvMapping : Option (List (List (FVector2D F)))) (h : hdr.existVerticesNormals = false) :
    loadBody decodeFloat junkV junkUv hdr body vertices a faces uvMapping =
      (loadBody decodeFloat junkV junkUv hdr body vertices none faces uvMapping).map fun o =>
        { o with verticesNormals := a } := by
  simp only [loadBody, h, Bool.and_false, initArray_false, Option.bind_eq_bind,
    Option.some_bind, Option.pure_def]
  cases initArray (vertices.isSome && hdr.existVertices) hdr.countElementVertexInMesh
    junkV vertices with
  | none => rfl
  | some v1 =>
    cases initArray (faces.isSome && hdr.existFaces)
      (hdr.countElementFacesInMesh.map fun n => n * 3 % 18446744073709551616) (0 : Int)
      faces with
    | none => rfl
    | some f1 =>
      cases initArray (uvMapping.isSome && hdr.existUvMapping) hdr.countElementFacesInMesh
        ([] : List (FVector2D F)) uvMapping with
      | none => rfl
      | some u1 =>
        cases assert (hdr.existVertices || !false) with
        | none => rfl
        | some _ =>
          simp only [Option.some_bind]
          rw [vertexSection_setNormals decodeFloat hdr _ a ⟨body, v1, none⟩]
          cases vertexSection decodeFloat hdr (vertices.isSome && hdr.existVertices) false
            ⟨body, v1, none⟩ with
          | none => rfl
          | some vs =>
            simp only [Option.map_some', Option.some_bind]
            cases assert (hdr.existFaces || !hdr.existUvMapping) with
            | none => rfl
            | some _ =>
              simp only [Option.some_bind]
              cases faceSection decodeFloat junkUv hdr (faces.isSome && hdr.existFaces)
                (uvMapping.isSome && hdr.existUvMapping) ⟨vs.inputMesh, f1, u1⟩ <;> rfl

theorem loadBody_unloaded_faces {F : Type} [Sub F] [One F] (decodeFloat : List Nat → F)
    (junkV : FVector F) (junkUv : FVector2D F) (hdr : PlyHeader) (body : List Nat)
    (vertices normals : Option (List (FVector F))) (a : Option (List Int))
    (uvMapping : Option (List (List (FVector2D F)))) (h : hdr.existFaces = false) :
    loadBody decodeFloat junkV junkUv hdr body vertices normals a uvMapping =
      (loadBody decodeFloat junkV junkUv hdr body vertices normals none uvMapping).map
        fun o => { o with faces := a } := by
  simp only [loadBody, h, Bool.and_false, initArray_false, Option.bind_eq_bind,
    Option.some_bind, Option.pure_def]
  cases initArray (vertices.isSome && hdr.existVertices) hdr.countElementVertexInMesh
    junkV vertices with
  | none => rfl
  | some v1 =>
    cases initArray (normals.isSome && hdr.existVerticesNormals)
      hdr.countElementVertexInMesh junkV normals with
    | none => rfl
    | some n1 =>
      cases initArray (uvMapping.isSome && hdr.existUvMapping) hdr.countElementFacesInMesh
        ([] : List (FVector2D F)) uvMapping with
      | none => rfl
      | some u1 =>
        cases assert (hdr.existVertices || !hdr.existVerticesNormals) with
        | none => rfl
        | some _ =>
          simp only [Option.some_bind]
          cases vertexSection decodeFloat hdr (vertices.isSome && hdr.existVertices)
            (normals.isSome && hdr.existVerticesNormals) ⟨body, v1, n1⟩ with
          | none => rfl
          | some vs =>
            simp only [Option.some_bind]
            cases assert (false || !hdr.existUvMapping) with
            | none => rfl
            | some _ =>
              simp only [Option.some_bind]
              rw [faceSection_setFaces decodeFloat junkUv hdr _ a ⟨vs.inputMesh, none, u1⟩]
              cases faceSection decodeFloat junkUv hdr false
                (uvMapping.isSome && hdr.existUvMapping) ⟨vs.inputMesh, none, u1⟩ <;> rfl

theorem loadBody_unloaded_uv {F : Type} [Sub F] [One F] (decodeFloat : List Nat → F)
    (junkV : FVector F) (junkUv : FVector2D F) (hdr : PlyHeader) (body : List Nat)
    (vertices normals : Option (List (FVector F))) (faces : Option (List Int))
    (a : Option (List (List (FVector2D F)))) (h : hdr.existUvMapping = false) :
    loadBody decodeFloat junkV junkUv hdr body vertices normals faces a =
      (loadBody decodeFloat junkV junkUv hdr body vertices normals faces none).map
        fun o => { o with uvMapping := a } := by
  simp only [loadBody, h, Bool.and_false, initArray_false, Option.bind_eq_bind,
    Option.some_bind, Option.pure_def]
  cases initArray (vertices.isSome && hdr.existVertices) hdr.countElementVertexInMesh
    junkV vertices with
  | none => rfl
  | some v1 =>
    cases initArray (normals.isSome && hdr.existVerticesNormals)
      hdr.countElementVertexInMesh junkV normals with
    | none => rfl
    | some n1 =>
      cases initArray (faces.isSome && hdr.existFaces)
        (hdr.countElementFacesInMesh.map fun n => n * 3 % 18446744073709551616) (0 : Int)
        faces with
      | none => rfl
      | some f1 =>
        cases assert (hdr.existVertices || !hdr.existVerticesNormals) with
        | none => rfl
        | some _ =>
          simp only [Option.some_bind]
          cases vertexSection decodeFloat hdr (vertices.isSome && hdr.existVertices)
            (normals.isSome && hdr.existVerticesNormals) ⟨body, v1, n1⟩ with
          | none => rfl
          | some vs =>
            simp only [Option.some_bind]
            cases assert (hdr.existFaces || !false) with
            | none => rfl
            | some _ =>
              simp only [Option.some_bind]
              rw [faceSection_setUv decodeFloat junkUv hdr _ a ⟨vs.inputMesh, f1, none⟩]
              cases faceSection decodeFloat junkUv hdr (faces.isSome && hdr.existFaces) false
                ⟨vs.inputMesh, f1, none⟩ <;> rfl

/-! ## Face records with other counts -/

theorem getlineAux_line (line rest : List Nat) (h : 10 ∉ line) :
    getlineAux (line ++ 10 :: rest) = (line, rest) := by
  induction line with
  | nil => simp [getlineAux]
  | cons c cs ih =>
    have hc : c ≠ 10 := fun e => h (by simp [e])
    have hcs : 10 ∉ cs := fun e => h (by simp [e])
    simp [getlineAux, hc, ih hcs]

theorem getline_line (line rest : List Nat) (h : 10 ∉ line) :
    getline (line ++ 10 :: rest) = some (line, rest) := by
  rw [← getlineAux_line line rest h]
  cases line <;> rfl

theorem keyword_exclusive (b1 b2 b3 b4 b5 b6 b7 : Bool) :
    b1.toNat + (b2.toNat + (b3.toNat + (b4.toNat + (b5.toNat + (b6.toNat + (b7.toNat + 0))))))
        ≤ 1 →
      (b1 = true → b2 = false ∧ b3 = false ∧ b4 = false ∧ b5 = false ∧ b6 = false ∧
        b7 = false) ∧
      (b2 = true → b3 = false ∧ b4 = false ∧ b5 = false ∧ b6 = false ∧ b7 = false) ∧
      (b3 = true → b4 = false ∧ b5 = false ∧ b6 = false ∧ b7 = false) ∧
      (b4 = true → b5 = false ∧ b6 = false ∧ b7 = false) ∧
      (b5 = true → b6 = false ∧ b7 = false) ∧
      (b6 = true → b7 = false) := by
  cases b1 <;> cases b2 <;> cases b3 <;> cases b4 <;> cases b5 <;> cases b6 <;> cases b7 <;>
    decide

/-- One round of the loop of `parsePlyHeader` on a line with at most one of the texts. -/
theorem headerLine_of_keywordCount (hdr : PlyHeader) (line : List Nat)
    (hk : keywordCount line ≤ 1)
    (hv : occursIn kwElementVertex line = true → (atoi (afterLastSpace line)).isSome = true)
    (hf : occursIn kwElementFace line = true → (atoi (afterLastSpace line)).isSome = true) :
    headerLine hdr line = some (headerAfterLine hdr line, occursIn kwEndHeader line) := by
  have hx := keyword_exclusive _ _ _ _ _ _ _ hk
  obtain ⟨h1, h2, h3, h4, h5, h6⟩ := hx
  obtain ⟨ev, en, ef, eu, cv, cf⟩ := hdr
  unfold headerLine headerAfterLine lineCount
  by_cases c1 : occursIn kwElementVertex line = true
  · obtain ⟨a2, a3, a4, a5, a6, a7⟩ := h1 c1
    obtain ⟨n, hn⟩ := Option.isSome_iff_exists.1 (hv c1)
    simp [c1, a2, a3, a4, a5, a6, a7, hn]
  · simp only [Bool.not_eq_true] at c1
    by_cases c2 : occursIn kwPropertyFloatX line = true
    · obtain ⟨a3, a4, a5, a6, a7⟩ := h2 c2
      simp [c1, c2, a3, a4, a5, a6, a7]
    · simp only [Bool.not_eq_true] at c2
      by_cases c3 : occursIn kwPropertyFloatNx line = true
      · obtain ⟨a4, a5, a6, a7⟩ := h3 c3
        simp [c1, c2, c3, a4, a5, a6, a7]
      · simp only [Bool.not_eq_true] at c3
        by_cases c4 : occursIn kwElementFace line = true
        · obtain ⟨a5, a6, a7⟩ := h4 c4
          obtain ⟨n, hn⟩ := Option.isSome_iff_exists.1 (hf c4)
          simp [c1, c2, c3, c4, a5, a6, a7, hn]
        · simp only [Bool.not_eq_true] at c4
          by_cases c5 : occursIn kwVertexIndices line = true
          · obtain ⟨a6, a7⟩ := h5 c5
            simp [c1, c2, c3, c4, c5, a6, a7]
          · simp only [Bool.not_eq_true] at c5
            by_cases c6 : occursIn kwTexcoord line = true
            · have a7 := h6 c6
              simp [c1, c2, c3, c4, c5, c6, a7]
            · simp only [Bool.not_eq_true] at c6
              cases c7 : occursIn kwEndHeader line <;> simp [c1, c2, c3, c4, c5, c6]



theorem headerAfterLine_end (hdr : PlyHeader) (e : List Nat) (hek : keywordCount e ≤ 1)
    (hee : occursIn kwEndHeader e = true) : headerAfterLine hdr e = hdr := by
  obtain ⟨h1, h2, h3, h4, h5, h6⟩ := keyword_exclusive _ _ _ _ _ _ _ hek
  have a1 : occursIn kwElementVertex e = false := by
    cases c : occursIn kwElementVertex e
    · rfl
    · have := (h1 c).2.2.2.2.2; simp [hee] at this
  have a2 : occursIn kwPropertyFloatX e = false := by
    cases c : occursIn kwPropertyFloatX e
    · rfl
    · have := (h2 c).2.2.2.2; simp [hee] at this
  have a3 : occursIn kwPropertyFloatNx e = false := by
    cases c : occursIn kwPropertyFloatNx e
    · rfl
    · have := (h3 c).2.2.2; simp [hee] at this
  have a4 : occursIn kwElementFace e = false := by
    cases c : occursIn kwElementFace e
    · rfl
    · have := (h4 c).2.2; simp [hee] at this
  have a5 : occursIn kwVertexIndices e = false := by
    cases c : occursIn kwVertexIndices e
    · rfl
    · have := (h5 c).2; simp [hee] at this
  have a6 : occursIn kwTexcoord e = false := by
    cases c : occursIn kwTexcoord e
    · rfl
    · have := h6 c; simp [hee] at this
  simp [headerAfterLine, a1, a2, a3, a4, a5, a6]

/-- The loop of `parsePlyHeader` on header lines with at most one of the texts each. -/
theorem parsePlyHeader_lines (e rest : List Nat) (he : 10 ∉ e) (hek : keywordCount e ≤ 1)
    (hee : occursIn kwEndHeader e = true) :
    ∀ (ls : List (List Nat)),
      (∀ l ∈ ls, 10 ∉ l ∧ keywordCount l ≤ 1 ∧ occursIn kwEndHeader l = false ∧
        (occursIn kwElementVertex l = true → (atoi (afterLastSpace l)).isSome = true) ∧
        (occursIn kwElementFace l = true → (atoi (afterLastSpace l)).isSome = true)) →
      ∀ (hdr0 : PlyHeader) (fuel : Nat), ls.length < fuel →
        parsePlyHeader fuel (ls.flatMap (fun l => l ++ [10]) ++ (e ++ 10 :: rest)) hdr0 =
          some (ls.foldl headerAfterLine hdr0, rest) := by
  intro ls
  induction ls with
  | nil =>
    intro _ hdr0 fuel hfuel
    obtain ⟨f, rfl⟩ : ∃ f, fuel = f + 1 := ⟨fuel - 1, by simp at hfuel; omega⟩
    have hl := headerLine_of_keywordCount hdr0 e hek
      (fun c => by
        have := ((keyword_exclusive _ _ _ _ _ _ _ hek).1 c).2.2.2.2.2
        simp [hee] at this)
      (fun c => by
        have := ((keyword_exclusive _ _ _ _ _ _ _ hek).2.2.2.1 c).2.2
        simp [hee] at this)
    rw [headerAfterLine_end hdr0 e hek hee, hee] at hl
    simp [parsePlyHeader, getline_line e rest he, hl]
  | cons l ls ih =>
    intro hls hdr0 fuel hfuel
    obtain ⟨f, rfl⟩ : ∃ f, fuel = f + 1 := ⟨fuel - 1, by simp at hfuel; omega⟩
    obtain ⟨h10, hk, hend, hv, hf⟩ := hls l (by simp)
    have hl := headerLine_of_keywordCount hdr0 l hk hv hf
    rw [hend] at hl
    have hstream : (l :: ls).flatMap (fun l => l ++ [10]) ++ (e ++ 10 :: rest) =
        l ++ 10 :: (ls.flatMap (fun l => l ++ [10]) ++ (e ++ 10 :: rest)) := by
      simp
    rw [hstream]
    simp only [parsePlyHeader, getline_line l _ h10, hl, List.foldl_cons]
    exact ih (fun l1 h1 => hls l1 (by simp [h1])) _ f (by simp at hfuel; omega)

theorem foldl_headerAfterLine (ls : List (List Nat)) :
    ∀ hdr0 : PlyHeader,
      ls.foldl headerAfterLine hdr0 =
        ⟨hdr0.existVertices || ls.any (occursIn kwPropertyFloatX),
          hdr0.existVerticesNormals || ls.any (occursIn kwPropertyFloatNx),
          hdr0.existFaces || ls.any (occursIn kwVertexIndices),
          hdr0.existUvMapping || ls.any (occursIn kwTexcoord),
          (lastLineWith kwElementVertex ls).elim hdr0.countElementVertexInMesh lineCount,
          (lastLineWith kwElementFace ls).elim hdr0.countElementFacesInMesh lineCount⟩ := by
  induction ls with
  | nil => intro hdr0; simp [lastLineWith]
  | cons l ls ih =>
    intro hdr0
    rw [List.foldl_cons, ih]
    have hlast : ∀ (key : List Nat) (c0 : Option Nat),
        (lastLineWith key ls).elim (if occursIn key l then lineCount l else c0) lineCount =
          (lastLineWith key (l :: ls)).elim c0 lineCount := by
      intro key c0
      unfold lastLineWith
      cases hkey : occursIn key l with
      | false => simp [List.filter_cons, hkey]
      | true =>
        simp only [List.filter_cons, hkey, if_true, List.getLast?_cons]
        cases (List.filter (occursIn key) ls).getLast? <;> rfl
    simp only [headerAfterLine, List.any_cons, Bool.or_assoc, hlast]

theorem length_le_flatMap_lines (ls : List (List Nat)) :
    ls.length ≤ (ls.flatMap fun l => l ++ [10]).length := by
  induction ls with
  | nil => simp
  | cons l ls ih =>
    simp only [List.flatMap_cons, List.length_append, List.length_cons, List.length_nil]
    omega

/-! ## The call returns on a well-formed mesh -/

/-- Counting: when every one of `numSlots` slots is related to a position of `M` and no
position is related to two slots, there are at most as many slots as positions. -/
theorem card_le_of_rel (M : Finset Nat) (numSlots : Nat) (R : Nat → Nat → Prop)
    (htot : ∀ i, i < numSlots → ∃ k, k ∈ M ∧ R k i)
    (hfun : ∀ k i i1, R k i → R k i1 → i = i1) : numSlots ≤ M.card := by
  classical
  have hg : ∀ i : Nat, ∃ k, i < numSlots → k ∈ M ∧ R k i := by
    intro i
    by_cases hi : i < numSlots
    · obtain ⟨k, hk⟩ := htot i hi
      exact ⟨k, fun _ => hk⟩
    · exact ⟨0, fun h => absurd h hi⟩
  choose g hgs using hg
  have hcard := @Finset.card_le_card_of_injOn _ _ (Finset.range numSlots) M g
    (fun i hi => (hgs i (Finset.mem_range.1 hi)).1)
    (fun i hi i1 hi1 heq => by
      have h1 := (hgs i (Finset.mem_range.1 hi)).2
      have h2 := (hgs i1 (Finset.mem_range.1 hi1)).2
      rw [heq] at h1
      exact hfun _ _ _ h1 h2)
  simpa using hcard

/-- The tables have room: after `n` corners of a mesh in which every original vertex is in
some face, `numVertices` is at most the length of the tables, and it is below that length
when corner `n` is at a vertex that an earlier corner was at. -/
theorem ReindexInv.room {F : Type} [FloatCompare F] [Neg F] [One F] {numOriginal : Nat}
    {faceUv : List (List (FVector2D F))} {faces0 : List Int} {root : Int → Int} {n : Nat}
    {s : ReindexState F} (hinv : ReindexInv numOriginal faceUv faces0 root n s)
    (hall : ∀ i : Nat, i < numOriginal →
      ∃ k : Nat, k < faces0.length ∧ TArray.at? faces0 k = some (i : Int))
    (hn : n ≤ faces0.length) :
    s.numVertices ≤ (faces0.length : Int) ∧
    ∀ v0 (k0 : Nat), TArray.at? faces0 n = some v0 → k0 < n →
      TArray.at? faces0 k0 = some v0 → s.numVertices < (faces0.length : Int) := by
  have hN := hinv.table.num_ge
  have hrel : ∀ i : Nat, (i : Int) < s.numVertices →
      ∃ k : Nat, k < faces0.length ∧
        ((k < n ∧ TArray.at? s.faces k = some (i : Int)) ∨
          (n ≤ k ∧ TArray.at? faces0 k = some (i : Int) ∧
            ∀ k1 : Nat, k1 < n → TArray.at? faces0 k1 ≠ some (i : Int))) := by
    intro i hi
    by_cases hused : (numOriginal : Int) ≤ i ∨
        ∃ k : Nat, k < n ∧ TArray.at? faces0 k = some (i : Int)
    · obtain ⟨k, hk, hks⟩ := hinv.slot_used i (by omega) hi hused
      exact ⟨k, by omega, Or.inl ⟨hk, hks⟩⟩
    · push_neg at hused
      obtain ⟨k, hk, hkf⟩ := hall i (by omega)
      refine ⟨k, hk, Or.inr ⟨?_, hkf, fun k1 hk1 => hused.2 k1 hk1⟩⟩
      by_contra hlt
      exact hused.2 k (by omega) hkf
  have hfun : ∀ k i i1 : Nat,
      ((k < n ∧ TArray.at? s.faces k = some (i : Int)) ∨
        (n ≤ k ∧ TArray.at? faces0 k = some (i : Int) ∧
          ∀ k1 : Nat, k1 < n → TArray.at? faces0 k1 ≠ some (i : Int))) →
      ((k < n ∧ TArray.at? s.faces k = some (i1 : Int)) ∨
        (n ≤ k ∧ TArray.at? faces0 k = some (i1 : Int) ∧
          ∀ k1 : Nat, k1 < n → TArray.at? faces0 k1 ≠ some (i1 : Int))) → i = i1 := by
    intro k i i1 h1 h2
    rcases h1 with ⟨a1, b1⟩ | ⟨a1, b1, -⟩ <;> rcases h2 with ⟨a2, b2⟩ | ⟨a2, b2, -⟩
    · rw [b1, Option.some.injEq] at b2; omega
    · omega
    · omega
    · rw [b1, Option.some.injEq] at b2; omega
  constructor
  · have := card_le_of_rel (Finset.range faces0.length) s.numVertices.toNat _
      (fun i hi => by
        obtain ⟨k, hk, hr⟩ := hrel i (by omega)
        exact ⟨k, Finset.mem_range.2 hk, hr⟩) hfun
    rw [Finset.card_range] at this
    omega
  · intro v0 k0 hv0 hk0 hk0v
    have hnlt : n < faces0.length := by
      have := (TArray.at?_bounds hv0).2
      omega
    have := card_le_of_rel ((Finset.range faces0.length).erase n) s.numVertices.toNat _
      (fun i hi => by
        obtain ⟨k, hk, hr⟩ := hrel i (by omega)
        refine ⟨k, Finset.mem_erase.2 ⟨?_, Finset.mem_range.2 hk⟩, hr⟩
        rintro rfl
        rcases hr with ⟨a, -⟩ | ⟨-, b, hnone⟩
        · omega
        · rw [hv0] at b
          rw [Option.some.injEq] at b
          subst b
          exact hnone k0 hk0 hk0v) hfun
    rw [Finset.card_erase_of_mem (Finset.mem_range.2 hnlt), Finset.card_range] at this
    omega

/-- The `while` loop returns when the tables have room for one more slot. -/
theorem chainWalk_total {F : Type} [FloatCompare F] [Neg F] [One F]
    [LawfulFloatCompare F] {numOriginal : Nat}
    {root : Int → Int} {duplicate : List Int} {vertexUv : List (FVector2D F)}
    {numVertices : Int} (T : TableInv numOriginal root duplicate vertexUv numVertices)
    (c : FVector2D F) (hdup : (numVertices : Int) < duplicate.length)
    (huv : (numVertices : Int) < vertexUv.length) :
    ∀ (fuel : Nat) (cur : Int), 0 ≤ cur → cur < numVertices →
      (numVertices - cur).toNat < fuel →
      ∃ res, chainWalk vertexUv c fuel duplicate numVertices cur = some res ∧
        0 ≤ res.2.2 ∧ res.2.2 < res.2.1 ∧ res.2.1 ≤ numVertices + 1 := by
  intro fuel
  induction fuel with
  | zero => intro cur _ _ h; omega
  | succ fuel ih =>
    intro cur h0 h1 hf
    unfold chainWalk
    obtain ⟨x, hx⟩ := @TArray.at?_of_bounds _ vertexUv cur h0 (by omega)
    simp only [hx]
    by_cases hcond : (FVector2D.ne x uninitialized && FVector2D.ne x c) = true
    · rw [if_pos hcond]
      obtain ⟨d, hd⟩ := @TArray.at?_of_bounds _ duplicate cur h0 (by omega)
      simp only [hd]
      by_cases hd1 : d = -1
      · rw [if_pos hd1]
        obtain ⟨dup1, hp⟩ := @TArray.put?_of_bounds _ duplicate cur numVertices h0 (by omega)
        simp only [hp]
        obtain ⟨f, rfl⟩ : ∃ f, fuel = f + 1 := ⟨fuel - 1, by omega⟩
        unfold chainWalk
        obtain ⟨y, hy⟩ := @TArray.at?_of_bounds _ vertexUv numVertices (by omega) huv
        have hyU := T.fresh_uv numVertices y le_rfl hy
        subst hyU
        simp only [hy]
        rw [if_neg (fun hn => not_UvNe_uninitialized (Bool.and_eq_true_iff.1 hn).1)]
        exact ⟨_, rfl, by simp only; omega, by simp only; omega, by simp only; omega⟩
      · rw [if_neg hd1]
        have hdr := T.dup_range cur d hd hd1
        exact ih d (by omega) hdr.2.2 (by omega)
    · rw [if_neg hcond]
      exact ⟨_, rfl, h0, h1, by simp only; omega⟩

/-- One corner of a well-formed mesh: the body of the corner loop returns. -/
theorem processCorner_total {F : Type} [FloatCompare F] [Neg F] [One F]
    [LawfulFloatCompare F] {numOriginal : Nat}
    {faceUv : List (List (FVector2D F))} {faces0 : List Int}
    (hrange : ∀ v ∈ faces0, 0 ≤ v ∧ v < (numOriginal : Int))
    (hall : ∀ i : Nat, i < numOriginal →
      ∃ k : Nat, k < faces0.length ∧ TArray.at? faces0 k = some (i : Int))
    (hshape : ∀ f : Nat, f < faces0.length / 3 →
      ∃ row, TArray.at? faceUv f = some row ∧ 3 ≤ row.length)
    (f j : Nat) (hj : j < 3) (hf : f < faces0.length / 3)
    {root : Int → Int} {s : ReindexState F}
    (hinv : ReindexInv numOriginal faceUv faces0 root (3 * f + j) s) :
    ∃ t, processCorner faceUv f s j = some t := by
  have hn : 3 * f + j < faces0.length := by omega
  have hidx : (f : Int) * 3 + (j : Int) = ((3 * f + j : Nat) : Int) := by push_cast; ring
  have T := hinv.table
  have hN := T.num_ge
  obtain ⟨hroom, hstrict⟩ := hinv.room hall (by omega)
  obtain ⟨v0, hv0⟩ := @TArray.at?_of_bounds _ s.faces ((3 * f + j : Nat) : Int) (by omega)
    (by rw [hinv.len_faces]; omega)
  have hF0 : TArray.at? faces0 ((3 * f + j : Nat) : Int) = some v0 := by
    rw [← hinv.faces_rest (3 * f + j) le_rfl]; exact hv0
  have hmem : v0 ∈ faces0 := by
    rw [TArray.at?_natCast] at hF0
    exact List.mem_iff_getElem?.2 ⟨_, hF0⟩
  obtain ⟨hv00, hv01⟩ := hrange v0 hmem
  obtain ⟨row, hrow, hrl⟩ := hshape f hf
  obtain ⟨c, hc⟩ := @TArray.at?_of_bounds _ row (j : Int) (by omega) (by omega)
  have hwalk : ∃ res, chainWalk s.vertexUv c (s.vertexUv.length + 1) s.duplicate
      s.numVertices v0 = some res ∧ 0 ≤ res.2.2 ∧ res.2.2 < (faces0.length : Int) := by
    obtain ⟨x, hx⟩ := @TArray.at?_of_bounds _ s.vertexUv v0 hv00
      (by rw [hinv.len_uv]; omega)
    by_cases hcond : (FVector2D.ne x uninitialized && FVector2D.ne x c) = true
    · have hxU : UvNe x uninitialized := (Bool.and_eq_true_iff.1 hcond).1
      obtain ⟨k, hk, hkf, -⟩ := hinv.uv_src v0 x hx hxU.ne_uninitialized
      rw [T.root_orig v0 hv00 hv01] at hkf
      have hlt := hstrict v0 k hF0 hk hkf
      obtain ⟨res, hres, h1, h2, h3⟩ := chainWalk_total T c
        (by rw [hinv.len_dup]; exact hlt) (by rw [hinv.len_uv]; exact hlt)
        (s.vertexUv.length + 1) v0 hv00 (by omega) (by rw [hinv.len_uv]; omega)
      exact ⟨res, hres, h1, by omega⟩
    · refine ⟨(s.duplicate, s.numVertices, v0), ?_, hv00, by simp only; omega⟩
      unfold chainWalk
      simp only [hx]
      rw [if_neg hcond]
  obtain ⟨res, hres, he0, he1⟩ := hwalk
  obtain ⟨vuv1, hvuv1⟩ := @TArray.put?_of_bounds _ s.vertexUv res.2.2 c he0
    (by rw [hinv.len_uv]; exact he1)
  obtain ⟨faces1, hfaces1⟩ := @TArray.put?_of_bounds _ s.faces ((3 * f + j : Nat) : Int)
    res.2.2 (by omega) (by rw [hinv.len_faces]; omega)
  refine ⟨⟨faces1, res.1, vuv1, res.2.1⟩, ?_⟩
  simp only [processCorner, Option.bind_eq_bind, Option.pure_def, hidx, hv0, hrow, hc, hres,
    hvuv1, hfaces1, Option.some_bind]

/-- The corner loop returns on a well-formed mesh. -/
theorem cornerLoop_total {F : Type} [FloatCompare F] [Neg F] [One F]
    [LawfulFloatCompare F] {numOriginal : Nat}
    {faceUv : List (List (FVector2D F))} {faces0 : List Int}
    (hrange : ∀ v ∈ faces0, 0 ≤ v ∧ v < (numOriginal : Int))
    (hall : ∀ i : Nat, i < numOriginal →
      ∃ k : Nat, k < faces0.length ∧ TArray.at? faces0 k = some (i : Int))
    (hshape : ∀ f : Nat, f < faces0.length / 3 →
      ∃ row, TArray.at? faceUv f = some row ∧ 3 ≤ row.length) :
    ∃ s root, cornerLoop numOriginal faceUv faces0 = some s ∧
      ReindexInv numOriginal faceUv faces0 root (3 * (faces0.length / 3)) s := by
  obtain ⟨s, hs, root, hroot⟩ := forLoop_total (processFace faceUv)
    (fun m s => ∃ root, ReindexInv numOriginal faceUv faces0 root (3 * m) s)
    (faces0.length / 3) _ ⟨id, ReindexInv.init numOriginal faceUv faces0⟩
    (fun m s hm hI => by
      obtain ⟨t, ht, root1, hI1⟩ := forLoop_total (processCorner faceUv m)
        (fun j s => ∃ root, ReindexInv numOriginal faceUv faces0 root (3 * m + j) s) 3 s hI
        (fun j s hj hI => by
          obtain ⟨root, hI⟩ := hI
          obtain ⟨t, ht⟩ := processCorner_total hrange hall hshape m j hj hm hI
          exact ⟨t, ht, processCorner_inv hrange m j hj hI ht⟩)
      exact ⟨t, ht, root1, hI1⟩)
  exact ⟨s, root, hs, hroot⟩

/-- The part after the corner loop returns when the tables hold `numVertices` slots. -/
theorem buildOutput_total {F : Type} [FloatCompare F] [Neg F] [One F] {numOriginal : Nat}
    {root : Int → Int} (junkV : FVector F) (junkUv : FVector2D F)
    (originalVertices : List (FVector F)) (vertices : List (FVector F))
    (uv : List (FVector2D F)) (indexMap : List Int) (s : ReindexState F)
    (T : TableInv numOriginal root s.duplicate s.vertexUv s.numVertices)
    (hlen : originalVertices.length = numOriginal)
    (hdup : s.numVertices ≤ (s.duplicate.length : Int))
    (huv : s.numVertices ≤ (s.vertexUv.length : Int)) :
    ∃ out, buildOutput junkV junkUv originalVertices vertices uv indexMap s = some out := by
  have hN := T.num_ge
  obtain ⟨r1, hr1, hl1, hl2⟩ := forLoop_total (copyOriginal originalVertices)
    (fun _ (st : List (FVector F) × List Int) =>
      st.1.length = s.numVertices.toNat ∧ st.2.length = s.numVertices.toNat)
    originalVertices.length
    (TArray.SetNum vertices s.numVertices junkV, TArray.SetNum indexMap s.numVertices 0)
    ⟨TArray.SetNum_length _ _ _, TArray.SetNum_length _ _ _⟩
    (fun i st hi hI => by
      obtain ⟨p, hp⟩ := @TArray.at?_of_bounds _ originalVertices (i : Int) (by omega)
        (by omega)
      obtain ⟨v1, hv1⟩ := @TArray.put?_of_bounds _ st.1 (i : Int) p (by omega) (by omega)
      obtain ⟨m1, hm1⟩ := @TArray.put?_of_bounds _ st.2 (i : Int) (i : Int) (by omega)
        (by omega)
      refine ⟨(v1, m1), ?_, ?_, ?_⟩
      · simp only [copyOriginal, Option.bind_eq_bind, Option.pure_def, hp, hv1, hm1,
          Option.some_bind]
      · rw [TArray.put?_length hv1]; exact hI.1
      · rw [TArray.put?_length hm1]; exact hI.2)
  obtain ⟨r2, hr2, -, -⟩ := forLoop_total (copyDuplicate s.duplicate)
    (fun _ (st : List (FVector F) × List Int) =>
      st.1.length = s.numVertices.toNat ∧ st.2.length = s.numVertices.toNat)
    s.numVertices.toNat r1 ⟨hl1, hl2⟩
    (fun i st hi hI => by
      obtain ⟨d, hd⟩ := @TArray.at?_of_bounds _ s.duplicate (i : Int) (by omega) (by omega)
      by_cases hd1 : d = -1
      · exact ⟨st, by simp [copyDuplicate, hd, hd1], hI⟩
      · have hr := T.dup_range i d hd hd1
        obtain ⟨p, hp⟩ := @TArray.at?_of_bounds _ st.1 (i : Int) (by omega) (by omega)
        obtain ⟨v1, hv1⟩ := @TArray.put?_of_bounds _ st.1 d p (by omega) (by omega)
        obtain ⟨m1, hm1⟩ := @TArray.put?_of_bounds _ st.2 d (i : Int) (by omega) (by omega)
        refine ⟨(v1, m1), ?_, ?_, ?_⟩
        · simp [copyDuplicate, hd, hd1, hp, hv1, hm1]
        · rw [TArray.put?_length hv1]; exact hI.1
        · rw [TArray.put?_length hm1]; exact hI.2)
  obtain ⟨uv1, huv1, -⟩ := forLoop_total (copyUv s.vertexUv)
    (fun _ (u : List (FVector2D F)) => u.length = s.numVertices.toNat)
    s.numVertices.toNat (TArray.SetNum uv s.numVertices junkUv) (TArray.SetNum_length _ _ _)
    (fun i u hi hI => by
      obtain ⟨c, hc⟩ := @TArray.at?_of_bounds _ s.vertexUv (i : Int) (by omega) (by omega)
      obtain ⟨u1, hu1⟩ := @TArray.put?_of_bounds _ u (i : Int) c (by omega) (by omega)
      refine ⟨u1, ?_, ?_⟩
      · simp only [copyUv, Option.bind_eq_bind, hc, Option.some_bind, hu1]
      · show u1.length = s.numVertices.toNat
        rw [TArray.put?_length hu1]; exact hI)
  exact ⟨⟨s.faces, r2.1, uv1, r2.2⟩, by
    simp only [buildOutput, Option.bind_eq_bind, Option.pure_def, hr1, hr2, huv1,
      Option.some_bind]⟩

/-! ## FlipNormals: the claims -/

/-- C10: on a face array of whole triangles with one row of three UV pairs per triangle,
`FlipNormals` returns, keeps the length of both arrays, and for every triangle `i` leaves
`faces[3i]` and the first pair of row `i` in place while the entries at `3i+1` and `3i+2` and
the second and third pair of row `i` trade places. -/
theorem FlipNormals_swaps_second_third {F : Type} (faces : List Int)
    (faceUv : List (List (FVector2D F))) (h3 : faces.length % 3 = 0)
    (hlen : faceUv.length = faces.length / 3) (hrow : ∀ row ∈ faceUv, row.length = 3) :
    ∃ faces1 faceUv1, FlipNormals faces faceUv = some (faces1, faceUv1) ∧
      faces1.length = faces.length ∧ faceUv1.length = faceUv.length ∧
      ∀ i : Nat, i < faces.length / 3 →
        faces1[3 * i]? = faces[3 * i]? ∧ faces1[3 * i + 1]? = faces[3 * i + 2]? ∧
        faces1[3 * i + 2]? = faces[3 * i + 1]? ∧
        ∃ a b c, faceUv[i]? = some [a, b, c] ∧ faceUv1[i]? = some [a, c, b] := by
  obtain ⟨faces1, faceUv1, hrun, hl1, hl2, hf, hu⟩ := FlipNormals_spec faces faceUv h3 hlen hrow
  refine ⟨faces1, faceUv1, hrun, hl1, hl2, ?_⟩
  intro i hi
  have h0 := hf ((3 * i : Nat) : Int)
  have h1 := hf ((3 * i + 1 : Nat) : Int)
  have h2 := hf ((3 * i + 2 : Nat) : Int)
  have e0 : swapIdx ((3 * i : Nat) : Int) = ((3 * i : Nat) : Int) := by
    unfold swapIdx; split_ifs <;> omega
  have e1 : swapIdx ((3 * i + 1 : Nat) : Int) = ((3 * i + 2 : Nat) : Int) := by
    unfold swapIdx; split_ifs <;> omega
  have e2 : swapIdx ((3 * i + 2 : Nat) : Int) = ((3 * i + 1 : Nat) : Int) := by
    unfold swapIdx; split_ifs <;> omega
  rw [e0, TArray.at?_natCast, TArray.at?_natCast] at h0
  rw [e1, TArray.at?_natCast, TArray.at?_natCast] at h1
  rw [e2, TArray.at?_natCast, TArray.at?_natCast] at h2
  refine ⟨h0, h1, h2, ?_⟩
  have hu1 := hu (i : Int)
  rw [TArray.at?_natCast, TArray.at?_natCast] at hu1
  have hlt : i < faceUv.length := by omega
  have hrl := hrow faceUv[i] (List.getElem_mem hlt)
  obtain ⟨a, b, c, habc⟩ : ∃ a b c, faceUv[i] = [a, b, c] := by
    generalize faceUv[i] = row at hrl
    match row, hrl with
    | [a, b, c], _ => exact ⟨a, b, c, rfl⟩
  refine ⟨a, b, c, ?_, ?_⟩
  · rw [List.getElem?_eq_getElem hlt, habc]
  · rw [hu1, List.getElem?_eq_getElem hlt, habc]; rfl

theorem FlipNormals_swaps_second_third_witness :
    ∃ faces1 faceUv1,
      FlipNormals [0, 1, 2, 2, 1, 3]
        [[(⟨0, 0⟩ : FVector2D Int), ⟨1, 0⟩, ⟨0, 1⟩], [⟨0, 1⟩, ⟨1, 0⟩, ⟨1, 1⟩]] =
        some (faces1, faceUv1) ∧
      faces1.length = [(0 : Int), 1, 2, 2, 1, 3].length ∧
      faceUv1.length =
        [[(⟨0, 0⟩ : FVector2D Int), ⟨1, 0⟩, ⟨0, 1⟩], [⟨0, 1⟩, ⟨1, 0⟩, ⟨1, 1⟩]].length ∧
      ∀ i : Nat, i < [(0 : Int), 1, 2, 2, 1, 3].length / 3 →
        faces1[3 * i]? = [(0 : Int), 1, 2, 2, 1, 3][3 * i]? ∧
        faces1[3 * i + 1]? = [(0 : Int), 1, 2, 2, 1, 3][3 * i + 2]? ∧
        faces1[3 * i + 2]? = [(0 : Int), 1, 2, 2, 1, 3][3 * i + 1]? ∧
        ∃ a b c,
          [[(⟨0, 0⟩ : FVector2D Int), ⟨1, 0⟩, ⟨0, 1⟩], [⟨0, 1⟩, ⟨1, 0⟩, ⟨1, 1⟩]][i]? =
            some [a, b, c] ∧
          faceUv1[i]? = some [a, c, b] :=
  FlipNormals_swaps_second_third [0, 1, 2, 2, 1, 3]
    [[(⟨0, 0⟩ : FVector2D Int), ⟨1, 0⟩, ⟨0, 1⟩], [⟨0, 1⟩, ⟨1, 0⟩, ⟨1, 1⟩]]
    (by decide) (by decide) (by decide)

/-- C9: on a face array of whole triangles with one row of three UV pairs per triangle,
`FlipNormals` applied twice returns the face array and the UV array it started from. -/
theorem FlipNormals_involution {F : Type} (faces : List Int)
    (faceUv : List (List (FVector2D F))) (h3 : faces.length % 3 = 0)
    (hlen : faceUv.length = faces.length / 3) (hrow : ∀ row ∈ faceUv, row.length = 3) :
    (FlipNormals faces faceUv).bind (fun r => FlipNormals r.1 r.2) = some (faces, faceUv) := by
  obtain ⟨faces1, faceUv1, hrun, hl1, hl2, hf, hu⟩ := FlipNormals_spec faces faceUv h3 hlen hrow
  have hrow1 : ∀ row ∈ faceUv1, row.length = 3 := by
    intro row hmem
    obtain ⟨n, hn⟩ := List.mem_iff_getElem?.1 hmem
    have := hu (n : Int)
    rw [TArray.at?_natCast, TArray.at?_natCast, hn] at this
    cases h0 : faceUv[n]? with
    | none => rw [h0] at this; simp at this
    | some r =>
      rw [h0] at this
      simp at this
      rw [this, flipRow_length]
      exact hrow r (List.mem_iff_getElem?.2 ⟨n, h0⟩)
  obtain ⟨faces2, faceUv2, hrun2, -, -, hf2, hu2⟩ :=
    FlipNormals_spec faces1 faceUv1 (by omega) (by omega) hrow1
  rw [hrun]
  simp only [Option.some_bind, hrun2]
  congr 2
  · apply TArray.ext
    intro k
    rw [hf2, hf, swapIdx_swapIdx]
  · apply TArray.ext
    intro i
    rw [hu2, hu]
    cases TArray.at? faceUv i with
    | none => rfl
    | some r => simp [flipRow_flipRow]

theorem FlipNormals_involution_witness :
    (FlipNormals [0, 1, 2, 2, 1, 3]
        [[(⟨0, 0⟩ : FVector2D Int), ⟨1, 0⟩, ⟨0, 1⟩], [⟨0, 1⟩, ⟨1, 0⟩, ⟨1, 1⟩]]).bind
      (fun r => FlipNormals r.1 r.2) =
    some ([0, 1, 2, 2, 1, 3],
      [[(⟨0, 0⟩ : FVector2D Int), ⟨1, 0⟩, ⟨0, 1⟩], [⟨0, 1⟩, ⟨1, 0⟩, ⟨1, 1⟩]]) :=
  FlipNormals_involution [0, 1, 2, 2, 1, 3]
    [[(⟨0, 0⟩ : FVector2D Int), ⟨1, 0⟩, ⟨0, 1⟩], [⟨0, 1⟩, ⟨1, 0⟩, ⟨1, 1⟩]]
    (by decide) (by decide) (by decide)

/-! ## ConvertToUnrealFormat: the claims -/

/-- C2: in a returning call on in-range face indices, the slot a corner is rewritten to
carries the position of the vertex the corner referenced before the call:
`vertices[faces'[3f+j]] == originalVertices[faces[3f+j]]`. -/
theorem ConvertToUnrealFormat_preserves_positions {F : Type} [FloatCompare F] [Neg F] [One F]
    [LawfulFloatCompare F]
    (junkV : FVector F) (junkUv : FVector2D F) (originalVertices : List (FVector F))
    (faceUv : List (List (FVector2D F))) (faces : List Int) (vertices : List (FVector F))
    (uv : List (FVector2D F)) (indexMap : List Int) (out : UnrealMesh F)
    (hrange : ∀ v ∈ faces, 0 ≤ v ∧ v < (originalVertices.length : Int))
    (h : ConvertToUnrealFormat junkV junkUv originalVertices faceUv faces vertices uv
      indexMap = some out)
    (f j : Nat) (hf : f < faces.length / 3) (hj : j < 3) :
    ∃ v0 v pos, faces[3 * f + j]? = some v0 ∧ out.faces[3 * f + j]? = some v ∧
      TArray.at? originalVertices v0 = some pos ∧ TArray.at? out.vertices v = some pos := by
  obtain ⟨s, root, -, hinv, hfaces, -, -, -, -, horig, hlink⟩ :=
    ConvertToUnrealFormat_inv hrange h
  obtain ⟨v, c, h1, h2, h3, h4, -⟩ := hinv.faces_done (3 * f + j) (by omega)
  rw [TArray.at?_natCast] at h1 h4
  obtain ⟨pos, hp1, hp2⟩ := vertices_of_root hinv.table rfl (fun i h0 h1 => (horig i h0 h1).1)
    (fun p d hp hd => (hlink p d hp hd).1) v.toNat v rfl h2 h3
  exact ⟨root v, v, pos, h4, by rw [hfaces]; exact h1, hp2, hp1⟩

/-- C1, the code at the failing input: the square with in-range faces and three pairs per
face, where the first triangle gives vertex 0 the coordinates `(-1, -1)` and the second
triangle gives it `(0, 0)`.  The two corners of vertex 0 carry different coordinates, but
vertex 0 gets no duplicate: both corners stay at slot 0, the call returns 4 vertices, and
slot 0 ends up with the coordinates `(0, 0)` of the second triangle, which are not the
coordinates `(-1, -1)` of corner 0 of face 0. -/
theorem ConvertToUnrealFormat_marker_overwritten :
    (∀ v ∈ squareFaces, 0 ≤ v ∧ v < (squareVertices.length : Int)) ∧
    (∀ row ∈ squareUvMarker, row.length = 3) ∧
    (squareUvMarker[0]?.bind fun row => row[0]?) = some ⟨-1, -1⟩ ∧
    ∃ out v x,
      ConvertToUnrealFormat ⟨0, 0, 0⟩ ⟨0, 0⟩ squareVertices squareUvMarker squareFaces
        [] [] [] = some out ∧
      out.faces = [0, 1, 2, 0, 2, 3] ∧ out.uv.length = 4 ∧
      out.faces[3 * 0 + 0]? = some v ∧ TArray.at? out.uv v = some x ∧ x = ⟨0, 0⟩ ∧
      FVector2D.ne x ⟨-1, -1⟩ = true :=
  ⟨by decide, by decide, by rfl, squareMesh, 0, ⟨0, 0⟩, by rfl, by rfl, by rfl, by rfl, by rfl,
    by rfl, by rfl⟩

theorem ConvertToUnrealFormat_preserves_positions_witness :
    ∃ v0 v pos, squareFaces[3 * 1 + 0]? = some v0 ∧
      squareSplitMesh.faces[3 * 1 + 0]? = some v ∧
      TArray.at? squareVertices v0 = some pos ∧
      TArray.at? squareSplitMesh.vertices v = some pos :=
  ConvertToUnrealFormat_preserves_positions ⟨0, 0, 0⟩ ⟨0, 0⟩ squareVertices squareUvSplit
    squareFaces [] [] [] squareSplitMesh (by decide) (by rfl) 1 0 (by decide) (by decide)

/-- C5: in every returning call the original vertices keep their slots: the output has at
least `originalVertices.Num()` slots, and for every `i` below that count
`indexMap[i] == i` and `vertices[i] == originalVertices[i]`. -/
theorem ConvertToUnrealFormat_keeps_original_slots {F : Type} [FloatCompare F] [Neg F] [One F]
    (junkV : FVector F) (junkUv : FVector2D F) (originalVertices : List (FVector F))
    (faceUv : List (List (FVector2D F))) (faces : List Int) (vertices : List (FVector F))
    (uv : List (FVector2D F)) (indexMap : List Int) (out : UnrealMesh F)
    (h : ConvertToUnrealFormat junkV junkUv originalVertices faceUv faces vertices uv
      indexMap = some out) :
    originalVertices.length ≤ out.vertices.length ∧
    originalVertices.length ≤ out.indexMap.length ∧
    ∀ i : Nat, i < originalVertices.length →
      out.indexMap[i]? = some (i : Int) ∧ out.vertices[i]? = originalVertices[i]? := by
  obtain ⟨s, hs, hb⟩ := ConvertToUnrealFormat_split h
  obtain ⟨hN, hlow⟩ := cornerLoop_low _ _ _ _ hs
  obtain ⟨-, h2, -, h4, -, h6⟩ := buildOutput_shape hb hlow
  refine ⟨by omega, by omega, ?_⟩
  intro i hi
  obtain ⟨a, b⟩ := h6 (i : Int) (by omega) (by omega)
  rw [TArray.at?_natCast] at a b
  rw [TArray.at?_natCast] at a
  exact ⟨b, a⟩

theorem ConvertToUnrealFormat_keeps_original_slots_witness :
    squareVertices.length ≤ squareSplitMesh.vertices.length ∧
    squareVertices.length ≤ squareSplitMesh.indexMap.length ∧
    ∀ i : Nat, i < squareVertices.length →
      squareSplitMesh.indexMap[i]? = some (i : Int) ∧
      squareSplitMesh.vertices[i]? = squareVertices[i]? :=
  ConvertToUnrealFormat_keeps_original_slots ⟨0, 0, 0⟩ ⟨0, 0⟩ squareVertices squareUvSplit
    squareFaces [] [] [] squareSplitMesh (by rfl)

/-- C4, amended: in a returning call on in-range face indices, `indexMap[i]` is a slot of
the output for every `i`; it is `i` itself for an original slot, and for a duplicate slot it
is the slot the duplicate was linked from: the one slot `m` with `duplicate[m] == i`, which
lies below `i`, carries the same position and is not always an original slot. -/
theorem ConvertToUnrealFormat_indexMap_parent {F : Type} [FloatCompare F] [Neg F] [One F]
    [LawfulFloatCompare F]
    (junkV : FVector F) (junkUv : FVector2D F) (originalVertices : List (FVector F))
    (faceUv : List (List (FVector2D F))) (faces : List Int) (vertices : List (FVector F))
    (uv : List (FVector2D F)) (indexMap : List Int) (out : UnrealMesh F)
    (hrange : ∀ v ∈ faces, 0 ≤ v ∧ v < (originalVertices.length : Int))
    (h : ConvertToUnrealFormat junkV junkUv originalVertices faceUv faces vertices uv
      indexMap = some out)
    (i : Nat) (hi : i < out.indexMap.length) :
    ∃ s, cornerLoop originalVertices.length faceUv faces = some s ∧
      ∃ m : Int, out.indexMap[i]? = some m ∧ 0 ≤ m ∧ m < (out.indexMap.length : Int) ∧
        (i < originalVertices.length → m = (i : Int)) ∧
        (originalVertices.length ≤ i → m < (i : Int) ∧
          TArray.at? s.duplicate m = some (i : Int) ∧
          (∀ q, TArray.at? s.duplicate q = some (i : Int) → q = m) ∧
          ∃ pos, out.vertices[i]? = some pos ∧ TArray.at? out.vertices m = some pos) := by
  obtain ⟨s, root, hs, hinv, -, -, -, hlen, -, horig, hlink⟩ :=
    ConvertToUnrealFormat_inv hrange h
  have T := hinv.table
  refine ⟨s, hs, ?_⟩
  by_cases hlt : i < originalVertices.length
  · have := (horig (i : Int) (by omega) (by omega)).2
    rw [TArray.at?_natCast] at this
    exact ⟨i, this, by omega, by omega, fun _ => rfl, fun hge => absurd hlt (by omega)⟩
  · obtain ⟨p, hp⟩ := T.dup_surj (i : Int) (by omega) (by omega)
    have hne : (i : Int) ≠ -1 := by omega
    have hr := T.dup_range p i hp hne
    have hp0 := (TArray.at?_bounds hp).1
    obtain ⟨⟨x, hx1, hx2⟩, him⟩ := hlink p i hp hne
    rw [TArray.at?_natCast] at him hx1
    exact ⟨p, him, hp0, by omega, fun h1 => absurd h1 hlt,
      fun _ => ⟨hr.2.1, hp, fun q hq => T.dup_inj q p i hq hp hne, x, hx1, hx2⟩⟩

theorem ConvertToUnrealFormat_indexMap_parent_witness :
    ∃ s, cornerLoop fanVertices.length fanUv fanFaces = some s ∧
      ∃ m : Int, fanMesh.indexMap[5]? = some m ∧ 0 ≤ m ∧
        m < (fanMesh.indexMap.length : Int) ∧
        (5 < fanVertices.length → m = ((5 : Nat) : Int)) ∧
        (fanVertices.length ≤ 5 → m < ((5 : Nat) : Int) ∧
          TArray.at? s.duplicate m = some ((5 : Nat) : Int) ∧
          (∀ q, TArray.at? s.duplicate q = some ((5 : Nat) : Int) → q = m) ∧
          ∃ pos, fanMesh.vertices[5]? = some pos ∧ TArray.at? fanMesh.vertices m = some pos) :=
  ConvertToUnrealFormat_indexMap_parent ⟨0, 0, 0⟩ ⟨0, 0⟩ fanVertices fanUv fanFaces [] [] []
    fanMesh (by decide) (by rfl) 5 (by decide)

/-- C4 as stated fails: in the fan, whose face indices are in range, vertex 0 gets the
duplicate slot 4 and slot 4 gets the duplicate slot 5, and `indexMap[5]` is 4, which is not
below the original vertex count 4. -/
theorem ConvertToUnrealFormat_indexMap_counterexample :
    (∀ v ∈ fanFaces, 0 ≤ v ∧ v < (fanVertices.length : Int)) ∧
    ∃ out m,
      ConvertToUnrealFormat ⟨0, 0, 0⟩ ⟨0, 0⟩ fanVertices fanUv fanFaces [] [] [] = some out ∧
      5 < out.indexMap.length ∧ out.indexMap[5]? = some m ∧
      ¬ (m < (fanVertices.length : Int)) :=
  ⟨by decide, fanMesh, 4, by rfl, by decide, by rfl, by decide⟩

/-- C6: in a returning call on in-range face indices, every duplicate slot `d` (from
`originalVertices.Num()` up to the final vertex count) has
`vertices[d] == vertices[indexMap[d]]` and `uv[d] != uv[indexMap[d]]`, with the test `!=`
of the code on the two pairs. -/
theorem ConvertToUnrealFormat_duplicate_slots {F : Type} [FloatCompare F] [Neg F] [One F]
    [LawfulFloatCompare F]
    (junkV : FVector F) (junkUv : FVector2D F) (originalVertices : List (FVector F))
    (faceUv : List (List (FVector2D F))) (faces : List Int) (vertices : List (FVector F))
    (uv : List (FVector2D F)) (indexMap : List Int) (out : UnrealMesh F)
    (hrange : ∀ v ∈ faces, 0 ≤ v ∧ v < (originalVertices.length : Int))
    (h : ConvertToUnrealFormat junkV junkUv originalVertices faceUv faces vertices uv
      indexMap = some out)
    (d : Nat) (hd0 : originalVertices.length ≤ d) (hd1 : d < out.vertices.length) :
    ∃ (m : Int) (pos : FVector F) (x y : FVector2D F), out.indexMap[d]? = some m ∧
      out.vertices[d]? = some pos ∧ TArray.at? out.vertices m = some pos ∧
      out.uv[d]? = some x ∧ TArray.at? out.uv m = some y ∧ FVector2D.ne x y = true := by
  obtain ⟨s, root, -, hinv, -, hlen, -, -, huv, -, hlink⟩ :=
    ConvertToUnrealFormat_inv hrange h
  have T := hinv.table
  obtain ⟨p, hp⟩ := T.dup_surj (d : Int) (by omega) (by omega)
  have hne : (d : Int) ≠ -1 := by omega
  have hr := T.dup_range p d hp hne
  have hp0 := (TArray.at?_bounds hp).1
  obtain ⟨⟨pos, hx1, hx2⟩, him⟩ := hlink p d hp hne
  obtain ⟨x, hx3, hx4⟩ := huv (d : Int) (by omega) (by omega)
  obtain ⟨y, hy3, hy4⟩ := huv p hp0 (by omega)
  have hxy := hinv.link_uv p d y x hp hne hy4 hx4
  rw [TArray.at?_natCast] at him hx1 hx3
  exact ⟨p, pos, x, y, him, hx1, hx2, hx3, hy3, hxy.symm⟩

theorem ConvertToUnrealFormat_duplicate_slots_witness :
    ∃ (m : Int) (pos : FVector Int) (x y : FVector2D Int), fanMesh.indexMap[5]? = some m ∧
      fanMesh.vertices[5]? = some pos ∧ TArray.at? fanMesh.vertices m = some pos ∧
      fanMesh.uv[5]? = some x ∧ TArray.at? fanMesh.uv m = some y ∧
      FVector2D.ne x y = true :=
  ConvertToUnrealFormat_duplicate_slots ⟨0, 0, 0⟩ ⟨0, 0⟩ fanVertices fanUv fanFaces [] [] []
    fanMesh (by decide) (by rfl) 5 (by decide) (by decide)

/-- C7, amended: in a returning call on in-range face indices, an original vertex `v` whose
corners all carry texture coordinates between which the test `!=` of the code fails (also
between a corner and itself, so that no coordinate is NaN) gets no duplicate (no slot from
`originalVertices.Num()` on has `indexMap` equal to `v`) and every corner that referenced `v`
still references `v`; if that holds for every vertex, the final vertex count is the original
one, the face array is unchanged and `indexMap` is the identity. -/
theorem ConvertToUnrealFormat_no_duplication {F : Type} [FloatCompare F] [Neg F] [One F]
    [LawfulFloatCompare F]
    (junkV : FVector F) (junkUv : FVector2D F) (originalVertices : List (FVector F))
    (faceUv : List (List (FVector2D F))) (faces : List Int) (vertices : List (FVector F))
    (uv : List (FVector2D F)) (indexMap : List Int) (out : UnrealMesh F)
    (hrange : ∀ v ∈ faces, 0 ≤ v ∧ v < (originalVertices.length : Int))
    (h : ConvertToUnrealFormat junkV junkUv originalVertices faceUv faces vertices uv
      indexMap = some out) :
    (∀ v : Int, 0 ≤ v → v < (originalVertices.length : Int) →
      (∀ k : Nat, k < 3 * (faces.length / 3) → ∀ k1 : Nat, k1 < 3 * (faces.length / 3) →
        faces[k]? = some v → faces[k1]? = some v →
        cornerUvNe faceUv k k1 = false) →
      (∀ d : Nat, originalVertices.length ≤ d → out.indexMap[d]? ≠ some v) ∧
      (∀ k : Nat, k < 3 * (faces.length / 3) → faces[k]? = some v →
        out.faces[k]? = some v)) ∧
    ((∀ k : Nat, k < 3 * (faces.length / 3) → ∀ k1 : Nat, k1 < 3 * (faces.length / 3) →
        faces[k]? = faces[k1]? → cornerUvNe faceUv k k1 = false) →
      out.vertices.length = originalVertices.length ∧
      out.uv.length = originalVertices.length ∧ out.faces = faces ∧
      out.indexMap = (List.range originalVertices.length).map Int.ofNat) := by
  obtain ⟨s, root, -, hinv, hfaces, hlv, hlu, hli, -, horig, hlink⟩ :=
    ConvertToUnrealFormat_inv hrange h
  have T := hinv.table
  constructor
  · intro v hv0 hv1 hcons
    have hno := fun p d hp hd =>
      @ReindexInv.no_link _ _ _ _ _ _ _ _ _ _ hinv v hcons p d hp hd
    constructor
    · intro d hd him
      have hdl : d < out.indexMap.length := (List.getElem?_eq_some_iff.1 him).1
      obtain ⟨p, hp⟩ := T.dup_surj (d : Int) (by omega) (by omega)
      have hne : (d : Int) ≠ -1 := by omega
      have h2 := (hlink p d hp hne).2
      rw [TArray.at?_natCast, him] at h2
      have hpv : p = v := (Option.some.inj h2).symm
      exact hno p d hp hne (by rw [hpv]; exact T.root_orig v hv0 hv1)
    · intro k hk hkv
      obtain ⟨w, c, h1, h2, h3, h4, -⟩ := hinv.faces_done k hk
      rw [TArray.at?_natCast] at h1 h4
      rw [hkv] at h4
      have hw := T.root_eq_self hno h2 h3 (Option.some.inj h4).symm
      rw [hfaces, h1, hw]
  · intro hcons
    have hno : ∀ p d, TArray.at? s.duplicate p = some d → d ≠ -1 → False := by
      intro p d hp hd
      exact @ReindexInv.no_link _ _ _ _ _ _ _ _ _ _ hinv (root p)
        (fun k hk k1 hk1 e1 e2 => hcons k hk k1 hk1 (by rw [e1, e2])) p d hp hd rfl
    have hnum : s.numVertices = (originalVertices.length : Int) := by
      by_contra hne
      have hge := T.num_ge
      obtain ⟨p, hp⟩ := T.dup_surj (originalVertices.length : Int) le_rfl (by omega)
      exact hno p _ hp (by omega)
    refine ⟨by omega, by omega, ?_, ?_⟩
    · rw [hfaces]
      apply TArray.ext
      intro i
      by_cases hi : 0 ≤ i ∧ i < (3 * (faces.length / 3) : Nat)
      · obtain ⟨w, c, h1, h2, h3, h4, -⟩ := hinv.faces_done i.toNat (by omega)
        rw [Int.toNat_of_nonneg hi.1] at h1 h4
        rw [h1, h4, T.root_orig w h2 (by omega)]
      · by_cases hi0 : 0 ≤ i
        · have := hinv.faces_rest i.toNat (by omega)
          rw [Int.toNat_of_nonneg hi0] at this
          exact this
        · rw [TArray.at?_none (Or.inl (by omega)), TArray.at?_none (Or.inl (by omega))]
    · apply List.ext_getElem?
      intro i
      by_cases hi : i < originalVertices.length
      · have := (horig (i : Int) (by omega) (by omega)).2
        rw [TArray.at?_natCast] at this
        rw [this]
        simp [hi]
      · rw [List.getElem?_eq_none (by omega), List.getElem?_eq_none (by simp; omega)]

theorem ConvertToUnrealFormat_no_duplication_witness :
    squareMesh.vertices.length = squareVertices.length ∧
    squareMesh.uv.length = squareVertices.length ∧ squareMesh.faces = squareFaces ∧
    squareMesh.indexMap = (List.range squareVertices.length).map Int.ofNat :=
  (ConvertToUnrealFormat_no_duplication ⟨0, 0, 0⟩ ⟨0, 0⟩ squareVertices squareUvWelded
    squareFaces [] [] [] squareMesh (by decide) (by rfl)).2 (by decide)

set_option synthInstance.maxSize 1024 in
/-- C7 as stated fails: in the square over `SampleFloat` with in-range faces, every corner
that references a vertex carries the same pair as every other corner of that vertex (the
two corners of vertex 0 both carry `(nan, 0)`), yet vertex 0 gets the duplicate slot 4: the
call returns 5 vertices and the second triangle is rewritten to `4, 2, 3`. -/
theorem ConvertToUnrealFormat_no_duplication_counterexample :
    (∀ v ∈ squareFaces, 0 ≤ v ∧ v < (nanSquareVertices.length : Int)) ∧
    (∀ k : Nat, k < 3 * (squareFaces.length / 3) → ∀ k1 : Nat,
      k1 < 3 * (squareFaces.length / 3) → squareFaces[k]? = squareFaces[k1]? →
      cornerUv nanSquareUv k = cornerUv nanSquareUv k1) ∧
    ∃ out,
      ConvertToUnrealFormat ⟨SampleFloat.num 0, SampleFloat.num 0, SampleFloat.num 0⟩
        ⟨SampleFloat.num 0, SampleFloat.num 0⟩ nanSquareVertices nanSquareUv squareFaces
        [] [] [] = some out ∧
      out.vertices.length = 5 ∧ out.vertices.length ≠ nanSquareVertices.length ∧
      out.faces = [0, 1, 2, 4, 2, 3] ∧ out.faces ≠ squareFaces ∧
      out.indexMap = [0, 1, 2, 3, 0] :=
  ⟨by decide, by decide, _, rfl, by decide, by decide, by rfl, by decide, by rfl⟩
/-- C3: in a returning call on in-range face indices, `vertices`, `uv` and `indexMap` have
the same length, which is `originalVertices.Num()` plus the number of duplicate links the
corner loop has set; the links are the slots from `originalVertices.Num()` up to that length,
each once, and are handed out in allocation order (a corner that allocates takes the current
`numVertices` and raises it by one); `faces` keeps its length and each of its entries is a
slot of the output. -/
theorem ConvertToUnrealFormat_output_sizing {F : Type} [FloatCompare F] [Neg F] [One F]
    [LawfulFloatCompare F]
    (junkV : FVector F) (junkUv : FVector2D F) (originalVertices : List (FVector F))
    (faceUv : List (List (FVector2D F))) (faces : List Int) (vertices : List (FVector F))
    (uv : List (FVector2D F)) (indexMap : List Int) (out : UnrealMesh F)
    (hrange : ∀ v ∈ faces, 0 ≤ v ∧ v < (originalVertices.length : Int))
    (h : ConvertToUnrealFormat junkV junkUv originalVertices faceUv faces vertices uv
      indexMap = some out) :
    ∃ s, cornerLoop originalVertices.length faceUv faces = some s ∧
      out.vertices.length = out.uv.length ∧ out.uv.length = out.indexMap.length ∧
      out.indexMap.length =
        originalVertices.length + (s.duplicate.filter fun d => decide (d ≠ -1)).length ∧
      (s.duplicate.filter fun d => decide (d ≠ -1)).Nodup ∧
      (∀ d : Int, d ∈ (s.duplicate.filter fun d => decide (d ≠ -1)) ↔
        (originalVertices.length : Int) ≤ d ∧ d < (out.vertices.length : Int)) ∧
      (∀ (m j : Nat) (t t1 : ReindexState F), j < 3 →
        cornerLoopAt originalVertices.length faceUv faces m j = some t →
        processCorner faceUv m t j = some t1 →
        (t1.duplicate = t.duplicate ∧ t1.numVertices = t.numVertices) ∨
        (∃ p, TArray.at? t.duplicate p = some (-1) ∧
          TArray.put? t.duplicate p t.numVertices = some t1.duplicate ∧
          t1.numVertices = t.numVertices + 1)) ∧
      out.faces.length = faces.length ∧
      ∀ k : Nat, k < faces.length →
        ∃ v : Int, out.faces[k]? = some v ∧ 0 ≤ v ∧ v < (out.vertices.length : Int) := by
  obtain ⟨s, root, hs, hinv, hfaces, hlv, hlu, hli, -, -, -⟩ :=
    ConvertToUnrealFormat_inv hrange h
  have T := hinv.table
  have hN := T.num_ge
  obtain ⟨hnd, hmem, hlen⟩ := T.links_eq
  refine ⟨s, hs, by omega, by omega, by omega, hnd, ?_, ?_, ?_, ?_⟩
  · intro d
    rw [hmem d]
    constructor
    · rintro ⟨h1, h2⟩; exact ⟨h1, by omega⟩
    · rintro ⟨h1, h2⟩; exact ⟨h1, by omega⟩
  · intro m j t t1 hj ht ht1
    obtain ⟨r, hi⟩ := cornerLoopAt_inv hrange m j (by omega) ht
    exact processCorner_alloc hrange m j hi ht1
  · rw [hfaces]; exact hinv.len_faces
  · intro k hk
    rw [hfaces]
    by_cases hk3 : k < 3 * (faces.length / 3)
    · obtain ⟨v, c, h1, h2, h3, -⟩ := hinv.faces_done k hk3
      rw [TArray.at?_natCast] at h1
      exact ⟨v, h1, h2, by omega⟩
    · have h1 := hinv.faces_rest k (by omega)
      rw [TArray.at?_natCast, TArray.at?_natCast] at h1
      have hv : faces[k]? = some faces[k] := List.getElem?_eq_getElem hk
      have hr := hrange faces[k] (List.getElem_mem hk)
      exact ⟨faces[k], by rw [h1, hv], hr.1, by omega⟩

theorem ConvertToUnrealFormat_output_sizing_witness :
    ∃ s, cornerLoop fanVertices.length fanUv fanFaces = some s ∧
      fanMesh.vertices.length = fanMesh.uv.length ∧
      fanMesh.uv.length = fanMesh.indexMap.length ∧
      fanMesh.indexMap.length =
        fanVertices.length + (s.duplicate.filter fun d => decide (d ≠ -1)).length ∧
      (s.duplicate.filter fun d => decide (d ≠ -1)).Nodup ∧
      (∀ d : Int, d ∈ (s.duplicate.filter fun d => decide (d ≠ -1)) ↔
        (fanVertices.length : Int) ≤ d ∧ d < (fanMesh.vertices.length : Int)) ∧
      (∀ (m j : Nat) (t t1 : ReindexState Int), j < 3 →
        cornerLoopAt fanVertices.length fanUv fanFaces m j = some t →
        processCorner fanUv m t j = some t1 →
        (t1.duplicate = t.duplicate ∧ t1.numVertices = t.numVertices) ∨
        (∃ p, TArray.at? t.duplicate p = some (-1) ∧
          TArray.put? t.duplicate p t.numVertices = some t1.duplicate ∧
          t1.numVertices = t.numVertices + 1)) ∧
      fanMesh.faces.length = fanFaces.length ∧
      ∀ k : Nat, k < fanFaces.length →
        ∃ v : Int, fanMesh.faces[k]? = some v ∧ 0 ≤ v ∧ v < (fanMesh.vertices.length : Int) :=
  ConvertToUnrealFormat_output_sizing ⟨0, 0, 0⟩ ⟨0, 0⟩ fanVertices fanUv fanFaces [] [] []
    fanMesh (by decide) (by rfl)

/-! ## The marker of a free slot -/

set_option synthInstance.maxSize 1024 in
/-- C8, the code at the failing input: in the square, vertex 0 is referenced by the two
faces with the two different coordinates `(-1, -1)` and `(0, 0)` and every other vertex has
the same coordinates at all its corners.  Vertex 0 gets no duplicate: the call returns 4
vertices, not `4 + 2 - 1`, no entry of `faces` is a duplicate slot and `indexMap` is the
identity. -/
theorem ConvertToUnrealFormat_marker_no_duplicate :
    (∀ v ∈ squareFaces, 0 ≤ v ∧ v < (squareVertices.length : Int)) ∧
    squareFaces.length % 3 = 0 ∧ squareFaces.count 0 = 2 ∧
    (∀ k : Nat, k < squareFaces.length → ∀ k1 : Nat, k1 < squareFaces.length →
      squareFaces[k]? = some 0 → squareFaces[k1]? = some 0 → k ≠ k1 →
      cornerUvNe squareUvMarker k k1 = true) ∧
    (∀ k : Nat, k < squareFaces.length → ∀ k1 : Nat, k1 < squareFaces.length →
      squareFaces[k]? = squareFaces[k1]? → squareFaces[k]? ≠ some 0 →
      cornerUv squareUvMarker k = cornerUv squareUvMarker k1) ∧
    ∃ out,
      ConvertToUnrealFormat ⟨0, 0, 0⟩ ⟨0, 0⟩ squareVertices squareUvMarker squareFaces
        [] [] [] = some out ∧
      out.vertices.length = 4 ∧
      out.vertices.length ≠ squareVertices.length + (squareFaces.count 0 - 1) ∧
      out.faces = squareFaces ∧ out.indexMap = [0, 1, 2, 3] :=
  ⟨by decide, by decide, by decide, by decide, by decide, squareMesh, by rfl, by decide,
    by decide, by rfl, by rfl⟩
/-! ## AdjustPhysicalUnits and the size of the side tables: the claims -/

/-- C19: `AdjustPhysicalUnits` keeps the number and order of the vertices and multiplies
each of the three components of every position by `scale`:
`vertices'[i] == (scale * x_i, scale * y_i, scale * z_i)`, for scalars with a commutative
multiplication. -/
theorem AdjustPhysicalUnits_scales_components {F : Type} [Mul F]
    (hcomm : ∀ a b : F, a * b = b * a) (vertices : List (FVector F)) (scale : F) :
    (AdjustPhysicalUnits vertices scale).length = vertices.length ∧
    ∀ (i : Nat) (p : FVector F), vertices[i]? = some p →
      (AdjustPhysicalUnits vertices scale)[i]? =
        some ⟨scale * p.X, scale * p.Y, scale * p.Z⟩ := by
  refine ⟨by simp [AdjustPhysicalUnits], ?_⟩
  intro i p hp
  simp only [AdjustPhysicalUnits, List.getElem?_map, hp, Option.map_some', FVector.scaleBy]
  rw [hcomm p.X, hcomm p.Y, hcomm p.Z]

theorem AdjustPhysicalUnits_scales_components_witness :
    (AdjustPhysicalUnits squareVertices 100).length = squareVertices.length ∧
    ∀ (i : Nat) (p : FVector Int), squareVertices[i]? = some p →
      (AdjustPhysicalUnits squareVertices 100)[i]? =
        some ⟨100 * p.X, 100 * p.Y, 100 * p.Z⟩ :=
  AdjustPhysicalUnits_scales_components Int.mul_comm squareVertices 100

/-- C20, the code at the failing input: four original vertices and the single triangle
`[0, 1, 2]` (in-range indices, vertex 3 in no face).  The corner loop ends with
`numVertices == 4` while `duplicate` and `vertexUv` have `faces.Num() == 3` entries, and the
call does not return: the loops after the corner loop read `duplicate[3]`. -/
theorem ConvertToUnrealFormat_tables_too_small :
    (∀ v ∈ looseFaces, 0 ≤ v ∧ v < (squareVertices.length : Int)) ∧
    (∃ s, cornerLoop squareVertices.length looseUv looseFaces = some s ∧
      s.numVertices = 4 ∧ s.duplicate.length = 3 ∧ s.vertexUv.length = 3 ∧
      ¬ (s.numVertices ≤ (looseFaces.length : Int)) ∧
      TArray.at? s.duplicate 3 = none) ∧
    ConvertToUnrealFormat ⟨0, 0, 0⟩ ⟨0, 0⟩ squareVertices looseUv looseFaces [] [] [] =
      none :=
  ⟨by decide, ⟨⟨[0, 1, 2], [-1, -1, -1], [⟨0, 0⟩, ⟨1, 0⟩, ⟨1, 1⟩], 4⟩, by rfl, by rfl,
    by rfl, by rfl, by decide, by rfl⟩, by rfl⟩

/-! ## Loading a well-formed stream -/

/-- C11: on a stream whose header declares positions, faces and UV mapping (with the counts
`cv` and `cf`) and whose body holds `cv` vertex records and `cf` face records with the
counts 3 and 6, `LoadModelFromBinPLY` called for vertices, faces and UV mapping returns
`cv` vertices, `3 * cf` face indices and `cf` UV rows of three pairs each. -/
theorem LoadModelFromBinPLY_counts {F : Type} [Sub F] [One F] (decodeFloat : List Nat → F)
    (junkV : FVector F) (junkUv : FVector2D F) (inputMesh body vsec tail : List Nat)
    (hasNormals : Bool) (cv cf : Nat) (recs : List (List Nat × List Nat))
    (v0 : List (FVector F)) (normals : Option (List (FVector F))) (f0 : List Int)
    (u0 : List (List (FVector2D F)))
    (hparse : parsePlyHeader (inputMesh.length + 1) inputMesh
      ⟨false, false, false, false, none, none⟩ =
        some (⟨true, hasNormals, true, true, some cv, some cf⟩, body))
    (hcv : cv < 2147483648) (hcf : cf * 3 < 2147483648)
    (hbody : body = vsec ++ (recs.flatMap (faceRecordBytes true true) ++ tail))
    (hvsec : vsec.length = 4 * (3 + if hasNormals then 3 else 0) * cv)
    (hrecs : recs.length = cf) (hidx : ∀ r ∈ recs, r.1.length = 12)
    (huvb : ∀ r ∈ recs, r.2.length = 24) :
    ∃ out vs fs uvs,
      LoadModelFromBinPLY decodeFloat junkV junkUv inputMesh (some v0) normals (some f0)
        (some u0) = some out ∧
      out.vertices = some vs ∧ vs.length = cv ∧ out.faces = some fs ∧ fs.length = 3 * cf ∧
      out.uvMapping = some uvs ∧ uvs.length = cf ∧ ∀ row ∈ uvs, row.length = 3 := by
  have hload := loadBody_valid decodeFloat junkV junkUv true hasNormals (some cv) cv cf body
    vsec tail recs (some v0) normals f0 u0 rfl ⟨rfl, hcv⟩ hcf hbody hvsec hrecs hidx huvb
  rw [← LoadModelFromBinPLY_of_header _ _ _ _ _ _ _ _ _ _ hparse] at hload
  simp only [Option.isSome_some, Bool.and_self, if_true] at hload
  refine ⟨_, _, _, _, hload, rfl, ?_, rfl, ?_, rfl, ?_, ?_⟩
  · simp
  · rw [flatMap_indicesOf_length, hrecs]
  · simp [hrecs]
  · intro row hrow
    obtain ⟨r, -, rfl⟩ := List.mem_map.1 hrow
    rfl

set_option maxRecDepth 100000 in
theorem LoadModelFromBinPLY_counts_witness :
    ∃ out vs fs uvs,
      LoadModelFromBinPLY leInt32 ⟨0, 0, 0⟩ ⟨0, 0⟩ sampleStream (some []) none (some [])
        (some []) = some out ∧
      out.vertices = some vs ∧ vs.length = 2 ∧ out.faces = some fs ∧ fs.length = 3 * 1 ∧
      out.uvMapping = some uvs ∧ uvs.length = 1 ∧ ∀ row ∈ uvs, row.length = 3 :=
  LoadModelFromBinPLY_counts leInt32 ⟨0, 0, 0⟩ ⟨0, 0⟩ sampleStream
    (sampleVertexBytes ++ sampleFaceBytes) sampleVertexBytes [] false 2 1 sampleRecords
    [] none [] [] (by decide) (by decide) (by decide) (by decide) (by decide) (by decide)
    (by decide) (by decide)

/-- C12: on a stream whose header declares faces and UV mapping (and whose vertex section,
if the header declares positions, holds `cv` records), with faces and UV mapping requested:
for every face record `i` and corner `j` the face array holds at `3 * i + j` the `j`-th
4-byte integer (lowest byte first) behind the count byte 3, and row `i` of the UV mapping
holds at `j` the pair `(f[2j], 1 - f[2j+1])` of the six values `f` behind the count byte
6. -/
theorem LoadModelFromBinPLY_face_records {F : Type} [Sub F] [One F]
    (decodeFloat : List Nat → F)
    (junkV : FVector F) (junkUv : FVector2D F) (inputMesh body vsec tail : List Nat)
    (hasVertices hasNormals : Bool) (ocv : Option Nat) (cv cf : Nat)
    (recs : List (List Nat × List Nat))
    (vertices normals : Option (List (FVector F))) (f0 : List Int)
    (u0 : List (List (FVector2D F)))
    (hparse : parsePlyHeader (inputMesh.length + 1) inputMesh
      ⟨false, false, false, false, none, none⟩ =
        some (⟨hasVertices, hasNormals, true, true, ocv, some cf⟩, body))
    (hcons : (hasVertices || !hasNormals) = true)
    (hcount : if hasVertices then ocv = some cv ∧ cv < 2147483648 else cv = 0)
    (hcf : cf * 3 < 2147483648)
    (hbody : body = vsec ++ (recs.flatMap (faceRecordBytes true true) ++ tail))
    (hvsec : vsec.length =
      4 * ((if hasVertices then 3 else 0) + if hasNormals then 3 else 0) * cv)
    (hrecs : recs.length = cf) (hidx : ∀ r ∈ recs, r.1.length = 12)
    (huvb : ∀ r ∈ recs, r.2.length = 24) :
    ∃ out fs uvs,
      LoadModelFromBinPLY decodeFloat junkV junkUv inputMesh vertices normals (some f0)
        (some u0) = some out ∧
      out.faces = some fs ∧ out.uvMapping = some uvs ∧
      ∀ i j : Nat, i < cf → j < 3 →
        ∃ r row, recs[i]? = some r ∧ fs[3 * i + j]? = some (leInt32 (word r.1 j)) ∧
          uvs[i]? = some row ∧
          row[j]? = some ⟨decodeFloat (word r.2 (2 * j)),
            1 - decodeFloat (word r.2 (2 * j + 1))⟩ := by
  have hload := loadBody_valid decodeFloat junkV junkUv hasVertices hasNormals ocv cv cf body
    vsec tail recs vertices normals f0 u0 hcons hcount hcf hbody hvsec hrecs hidx huvb
  rw [← LoadModelFromBinPLY_of_header _ _ _ _ _ _ _ _ _ _ hparse] at hload
  refine ⟨_, _, _, hload, rfl, rfl, ?_⟩
  · intro i j hi hj
    have hil : i < recs.length := by omega
    refine ⟨recs[i], uvRowOf decodeFloat recs[i].2, List.getElem?_eq_getElem hil,
      flatMap_indicesOf_getElem? recs i j recs[i] hj (List.getElem?_eq_getElem hil), ?_, ?_⟩
    · simp [List.getElem?_map, List.getElem?_eq_getElem hil]
    · interval_cases j <;> rfl

set_option maxRecDepth 100000 in
theorem LoadModelFromBinPLY_face_records_witness :
    ∃ out fs uvs,
      LoadModelFromBinPLY leInt32 ⟨0, 0, 0⟩ ⟨0, 0⟩ sampleStream none none (some [])
        (some []) = some out ∧
      out.faces = some fs ∧ out.uvMapping = some uvs ∧
      ∀ i j : Nat, i < 1 → j < 3 →
        ∃ r row, sampleRecords[i]? = some r ∧ fs[3 * i + j]? = some (leInt32 (word r.1 j)) ∧
          uvs[i]? = some row ∧
          row[j]? = some ⟨leInt32 (word r.2 (2 * j)), 1 - leInt32 (word r.2 (2 * j + 1))⟩ :=
  LoadModelFromBinPLY_face_records leInt32 ⟨0, 0, 0⟩ ⟨0, 0⟩ sampleStream
    (sampleVertexBytes ++ sampleFaceBytes) sampleVertexBytes [] true false (some 2) 2 1
    sampleRecords none none [] [] (by decide) (by decide) (by decide) (by decide) (by decide)
    (by decide) (by decide) (by decide) (by decide)

/-! ## Face records that are not triangles -/

/-- C17: when the header that `parsePlyHeader` has read declares normals without positions,
or texture coordinates without vertex indices, one of the two `assert`s of
`LoadModelFromBinPLY` on the header fails and the call fails whatever is requested; for
every other header both `assert`s hold, and the call with no array requested returns (given
a vertex count when the header declares positions). -/
theorem LoadModelFromBinPLY_header_consistency {F : Type} [Sub F] [One F]
    (decodeFloat : List Nat → F) (junkV : FVector F) (junkUv : FVector2D F)
    (inputMesh : List Nat) (hdr : PlyHeader) (body : List Nat)
    (hparse : parsePlyHeader (inputMesh.length + 1) inputMesh
      ⟨false, false, false, false, none, none⟩ = some (hdr, body)) :
    ((hdr.existVerticesNormals = true ∧ hdr.existVertices = false ∨
        hdr.existUvMapping = true ∧ hdr.existFaces = false) →
      (assert (hdr.existVertices || !hdr.existVerticesNormals) = none ∨
        assert (hdr.existFaces || !hdr.existUvMapping) = none) ∧
      ∀ vertices normals faces uvMapping,
        LoadModelFromBinPLY decodeFloat junkV junkUv inputMesh vertices normals faces
          uvMapping = none) ∧
    (¬ (hdr.existVerticesNormals = true ∧ hdr.existVertices = false ∨
        hdr.existUvMapping = true ∧ hdr.existFaces = false) →
      assert (hdr.existVertices || !hdr.existVerticesNormals) = some () ∧
      assert (hdr.existFaces || !hdr.existUvMapping) = some () ∧
      ∀ cv, (hdr.existVertices = true →
          hdr.countElementVertexInMesh = some cv ∧ cv < 2147483648) →
        (LoadModelFromBinPLY decodeFloat junkV junkUv inputMesh none none none none).isSome =
          true) := by
  constructor
  · intro hbad
    constructor
    · rcases hbad with ⟨h1, h2⟩ | ⟨h1, h2⟩
      · left; simp [assert, h1, h2]
      · right; simp [assert, h1, h2]
    · intro vertices normals faces uvMapping
      rw [LoadModelFromBinPLY_of_header _ _ _ _ _ _ _ _ _ _ hparse]
      cases hl : loadBody decodeFloat junkV junkUv hdr body vertices normals faces
        uvMapping with
      | none => rfl
      | some out =>
        exfalso
        simp only [loadBody, Option.bind_eq_bind, Option.bind_eq_some, Option.pure_def] at hl
        obtain ⟨_, _, _, _, _, _, _, _, _, ha1, _, _, _, ha2, _⟩ := hl
        rw [assert_eq_some] at ha1 ha2
        rcases hbad with ⟨h1, h2⟩ | ⟨h1, h2⟩
        · simp [h1, h2] at ha1
        · simp [h1, h2] at ha2
  · intro hok
    have hV : (hdr.existVertices || !hdr.existVerticesNormals) = true := by
      cases h1 : hdr.existVertices <;> cases h2 : hdr.existVerticesNormals <;> simp_all
    have hF : (hdr.existFaces || !hdr.existUvMapping) = true := by
      cases h1 : hdr.existFaces <;> cases h2 : hdr.existUvMapping <;> simp_all
    refine ⟨(assert_eq_some _).2 hV, (assert_eq_some _).2 hF, ?_⟩
    intro cv hcv
    rw [LoadModelFromBinPLY_of_header _ _ _ _ _ _ _ _ _ _ hparse,
      loadBody_after_vertices decodeFloat junkV junkUv hdr body cv none none none none hV hcv]
    simp [loadFaceStage, initArray_false, hF, assert, faceSection]

set_option maxRecDepth 100000 in
theorem LoadModelFromBinPLY_header_consistency_witness :
    LoadModelFromBinPLY leInt32 ⟨0, 0, 0⟩ ⟨0, 0⟩ sampleNormalsOnly (some []) (some []) none
        none = none ∧
      (LoadModelFromBinPLY leInt32 ⟨0, 0, 0⟩ ⟨0, 0⟩ sampleStream none none none
        none).isSome = true :=
  ⟨((LoadModelFromBinPLY_header_consistency leInt32 ⟨0, 0, 0⟩ ⟨0, 0⟩ sampleNormalsOnly
      ⟨false, true, false, false, some 1, none⟩ [] (by decide)).1
      (Or.inl ⟨rfl, rfl⟩)).2 (some []) (some []) none none,
    ((LoadModelFromBinPLY_header_consistency leInt32 ⟨0, 0, 0⟩ ⟨0, 0⟩ sampleStream
      sampleHeaderFlags (sampleVertexBytes ++ sampleFaceBytes) (by decide)).2
      (by decide)).2.2 2 (by decide)⟩

/-! ## Vertex records -/

/-- C13: behind a consistent header (with the vertex count when it declares positions),
`LoadModelFromBinPLY` without faces and UV mapping returns, having taken
`4 * valuesInLine * count` bytes out of the stream whether vertices or normals are requested
or not; an array that is requested and declared holds for record `i` the vector of the
values 0, 1, 2 (positions) or 3, 4, 5 (normals) of the record.  A record has 3 values when
the header declares positions plus 3 when it declares normals, and it is the stretch of
`4 * valuesInLine` bytes at `4 * valuesInLine * i` when the stream holds it.  The two arrays
are the same when faces or UV mapping are requested as well, and the vertices, the faces,
the UV mapping and the stream that is left do not depend on the normals argument. -/
theorem LoadModelFromBinPLY_vertex_records {F : Type} [Sub F] [One F]
    (decodeFloat : List Nat → F) (junkV : FVector F) (junkUv : FVector2D F)
    (inputMesh : List Nat) (hdr : PlyHeader) (body : List Nat) (cv : Nat)
    (vertices normals : Option (List (FVector F)))
    (hparse : parsePlyHeader (inputMesh.length + 1) inputMesh
      ⟨false, false, false, false, none, none⟩ = some (hdr, body))
    (hconsV : (hdr.existVertices || !hdr.existVerticesNormals) = true)
    (hconsF : (hdr.existFaces || !hdr.existUvMapping) = true)
    (hcv : hdr.existVertices = true →
      hdr.countElementVertexInMesh = some cv ∧ cv < 2147483648) :
    LoadModelFromBinPLY decodeFloat junkV junkUv inputMesh vertices normals none none =
      some ⟨if vertices.isSome && hdr.existVertices then
          some ((List.range cv).map fun i =>
            ⟨decodeFloat (word (vertexRecord body (valuesInLine hdr) i) 0),
              decodeFloat (word (vertexRecord body (valuesInLine hdr) i) 1),
              decodeFloat (word (vertexRecord body (valuesInLine hdr) i) 2)⟩)
        else vertices,
        if normals.isSome && hdr.existVerticesNormals then
          some ((List.range cv).map fun i =>
            ⟨decodeFloat (word (vertexRecord body (valuesInLine hdr) i) 3),
              decodeFloat (word (vertexRecord body (valuesInLine hdr) i) 4),
              decodeFloat (word (vertexRecord body (valuesInLine hdr) i) 5)⟩)
        else normals,
        none, none,
        body.drop (if hdr.existVertices then 4 * valuesInLine hdr * cv else 0)⟩ ∧
    valuesInLine hdr =
      (if hdr.existVertices then 3 else 0) + (if hdr.existVerticesNormals then 3 else 0) ∧
    (∀ i, 4 * valuesInLine hdr * (i + 1) ≤ body.length →
      vertexRecord body (valuesInLine hdr) i =
        (body.drop (4 * valuesInLine hdr * i)).take (4 * valuesInLine hdr)) ∧
    (∀ faces uvMapping out,
      LoadModelFromBinPLY decodeFloat junkV junkUv inputMesh vertices normals faces
          uvMapping = some out →
        ∃ out0, LoadModelFromBinPLY decodeFloat junkV junkUv inputMesh vertices normals none
            none = some out0 ∧
          out.vertices = out0.vertices ∧ out.verticesNormals = out0.verticesNormals) ∧
    ∀ normals1 faces uvMapping,
      (LoadModelFromBinPLY decodeFloat junkV junkUv inputMesh vertices normals faces
          uvMapping).map (fun o => (o.vertices, o.faces, o.uvMapping, o.inputMesh)) =
        (LoadModelFromBinPLY decodeFloat junkV junkUv inputMesh vertices normals1 faces
          uvMapping).map (fun o => (o.vertices, o.faces, o.uvMapping, o.inputMesh)) := by
  refine ⟨?_, rfl, fun i hi => vertexRecord_of_le body _ i hi, ?_, ?_⟩
  · rw [LoadModelFromBinPLY_of_header _ _ _ _ _ _ _ _ _ _ hparse,
      loadBody_after_vertices decodeFloat junkV junkUv hdr body cv vertices normals none none
        hconsV hcv]
    simp [loadFaceStage, initArray_false, hconsF, assert, faceSection, vectorsAfter, vectorOf]
  · intro faces uvMapping out hout
    rw [LoadModelFromBinPLY_of_header _ _ _ _ _ _ _ _ _ _ hparse,
      loadBody_after_vertices decodeFloat junkV junkUv hdr body cv vertices normals faces
        uvMapping hconsV hcv] at hout
    rw [LoadModelFromBinPLY_of_header _ _ _ _ _ _ _ _ _ _ hparse,
      loadBody_after_vertices decodeFloat junkV junkUv hdr body cv vertices normals none none
        hconsV hcv]
    simp only [loadFaceStage, Option.bind_eq_some] at hout
    obtain ⟨_, _, _, _, _, _, fs, _, hfs⟩ := hout
    cases hfs
    have h0 : loadFaceStage decodeFloat junkUv hdr
        (body.drop (if hdr.existVertices then 4 * valuesInLine hdr * cv else 0))
        (vectorsAfter decodeFloat body (valuesInLine hdr) cv
          (vertices.isSome && hdr.existVertices) 0 vertices)
        (vectorsAfter decodeFloat body (valuesInLine hdr) cv
          (normals.isSome && hdr.existVerticesNormals) 3 normals) none none =
        some ⟨vectorsAfter decodeFloat body (valuesInLine hdr) cv
            (vertices.isSome && hdr.existVertices) 0 vertices,
          vectorsAfter decodeFloat body (valuesInLine hdr) cv
            (normals.isSome && hdr.existVerticesNormals) 3 normals, none, none,
          body.drop (if hdr.existVertices then 4 * valuesInLine hdr * cv else 0)⟩ := by
      simp [loadFaceStage, initArray_false, hconsF, assert, faceSection]
    exact ⟨_, h0, rfl, rfl⟩
  · intro normals1 faces uvMapping
    rw [LoadModelFromBinPLY_of_header _ _ _ _ _ _ _ _ _ _ hparse,
      LoadModelFromBinPLY_of_header _ _ _ _ _ _ _ _ _ _ hparse,
      loadBody_after_vertices decodeFloat junkV junkUv hdr body cv vertices normals faces
        uvMapping hconsV hcv,
      loadBody_after_vertices decodeFloat junkV junkUv hdr body cv vertices normals1 faces
        uvMapping hconsV hcv]
    simp only [loadFaceStage]
    cases initArray (faces.isSome && hdr.existFaces)
      (hdr.countElementFacesInMesh.map fun n => n * 3 % 18446744073709551616) (0 : Int)
      faces with
    | none => rfl
    | some f1 =>
      cases initArray (uvMapping.isSome && hdr.existUvMapping) hdr.countElementFacesInMesh
        ([] : List (FVector2D F)) uvMapping with
      | none => rfl
      | some u1 =>
        cases assert (hdr.existFaces || !hdr.existUvMapping) with
        | none => rfl
        | some _ =>
          simp only [Option.some_bind]
          cases faceSection decodeFloat junkUv hdr (faces.isSome && hdr.existFaces)
            (uvMapping.isSome && hdr.existUvMapping) ⟨_, f1, u1⟩ <;> rfl

set_option maxRecDepth 100000 in
theorem LoadModelFromBinPLY_vertex_records_witness :
    LoadModelFromBinPLY leInt32 ⟨0, 0, 0⟩ ⟨0, 0⟩ sampleStream (some []) (some []) none none =
      some ⟨some [⟨1, 2, 3⟩, ⟨4, 5, 6⟩], some [], none, none, sampleFaceBytes⟩ :=
  (LoadModelFromBinPLY_vertex_records leInt32 ⟨0, 0, 0⟩ ⟨0, 0⟩ sampleStream
    sampleHeaderFlags (sampleVertexBytes ++ sampleFaceBytes) 2 (some []) (some [])
    (by decide) (by decide) (by decide) (by decide)).1

/-! ## Streams that end early -/

set_option maxRecDepth 100000 in
/-- C16 counterexample: the stream `sampleShortStream` ends after 14 of the 24 bytes of the
two vertex records that its header declares; `LoadModelFromBinPLY` for vertices returns two
vertices, the second one made from two bytes of the stream and ten bytes that were never in
it. -/
theorem LoadModelFromBinPLY_short_stream_counterexample :
    parsePlyHeader (sampleShortStream.length + 1) sampleShortStream
        ⟨false, false, false, false, none, none⟩ =
      some (sampleHeaderFlags, sampleVertexBytes.take 14) ∧
    (sampleVertexBytes.take 14).length < 4 * 3 * 2 ∧
    LoadModelFromBinPLY leInt32 ⟨0, 0, 0⟩ ⟨0, 0⟩ sampleShortStream (some []) none none none =
      some ⟨some [⟨1, 2, 3⟩, ⟨4, 0, 0⟩], none, none, none, []⟩ :=
  ⟨by decide, by decide, rfl⟩

/-- C16: `LoadModelFromBinPLY` does not look at the end of the stream: behind a consistent
header (with the vertex count when it declares positions) the call for vertices and normals
returns on every stream, with arrays of the declared length, and a record that begins behind
the end of the stream gives the vector made from zero bytes. -/
theorem LoadModelFromBinPLY_short_stream {F : Type} [Sub F] [One F]
    (decodeFloat : List Nat → F) (junkV : FVector F) (junkUv : FVector2D F)
    (inputMesh : List Nat) (hdr : PlyHeader) (body : List Nat) (cv : Nat)
    (vertices normals : Option (List (FVector F)))
    (hparse : parsePlyHeader (inputMesh.length + 1) inputMesh
      ⟨false, false, false, false, none, none⟩ = some (hdr, body))
    (hconsV : (hdr.existVertices || !hdr.existVerticesNormals) = true)
    (hconsF : (hdr.existFaces || !hdr.existUvMapping) = true)
    (hcv : hdr.existVertices = true →
      hdr.countElementVertexInMesh = some cv ∧ cv < 2147483648) :
    ∃ out, LoadModelFromBinPLY decodeFloat junkV junkUv inputMesh vertices normals none
        none = some out ∧
      (∀ vs, (vertices.isSome && hdr.existVertices) = true → out.vertices = some vs →
        vs.length = cv ∧
        ∀ i, i < cv → body.length ≤ 4 * valuesInLine hdr * i →
          vs[i]? = some ⟨decodeFloat [0, 0, 0, 0], decodeFloat [0, 0, 0, 0],
            decodeFloat [0, 0, 0, 0]⟩) ∧
      (∀ ns, (normals.isSome && hdr.existVerticesNormals) = true →
        out.verticesNormals = some ns →
        ns.length = cv ∧
        ∀ i, i < cv → body.length ≤ 4 * valuesInLine hdr * i →
          ns[i]? = some ⟨decodeFloat [0, 0, 0, 0], decodeFloat [0, 0, 0, 0],
            decodeFloat [0, 0, 0, 0]⟩) := by
  have hLoad : LoadModelFromBinPLY decodeFloat junkV junkUv inputMesh vertices normals none
      none =
      some ⟨vectorsAfter decodeFloat body (valuesInLine hdr) cv
          (vertices.isSome && hdr.existVertices) 0 vertices,
        vectorsAfter decodeFloat body (valuesInLine hdr) cv
          (normals.isSome && hdr.existVerticesNormals) 3 normals, none, none,
        body.drop (if hdr.existVertices then 4 * valuesInLine hdr * cv else 0)⟩ := by
    rw [LoadModelFromBinPLY_of_header _ _ _ _ _ _ _ _ _ _ hparse,
      loadBody_after_vertices decodeFloat junkV junkUv hdr body cv vertices normals none none
        hconsV hcv]
    simp [loadFaceStage, initArray_false, hconsF, assert, faceSection]
  refine ⟨_, hLoad, ?_, ?_⟩
  · intro vs hl hvs
    simp only [hl] at hvs
    have hV : hdr.existVertices = true := by
      cases h : hdr.existVertices <;> simp_all
    have h3 : 3 ≤ valuesInLine hdr := by
      simp [valuesInLine, hV]
    refine ⟨?_, ?_⟩
    · simp only [vectorsAfter, if_true, Option.some.injEq] at hvs
      subst hvs
      simp
    · intro i hi hlen
      rw [vectorsAfter_getElem? decodeFloat body _ cv 0 vertices vs i hvs hi,
        vertexRecord_of_ge body _ i hlen]
      simp only [vectorOf, word_replicate_zero (valuesInLine hdr) 0 (by omega),
        word_replicate_zero (valuesInLine hdr) (0 + 1) (by omega), word_replicate_zero (valuesInLine hdr) (0 + 2) (by omega)]
  · intro ns hl hns
    simp only [hl] at hns
    have hN : hdr.existVerticesNormals = true := by
      cases h : hdr.existVerticesNormals <;> simp_all
    have hV : hdr.existVertices = true := by
      cases h : hdr.existVertices <;> simp_all
    have h6 : 6 ≤ valuesInLine hdr := by
      simp [valuesInLine, hV, hN]
    refine ⟨?_, ?_⟩
    · simp only [vectorsAfter, if_true, Option.some.injEq] at hns
      subst hns
      simp
    · intro i hi hlen
      rw [vectorsAfter_getElem? decodeFloat body _ cv 3 normals ns i hns hi,
        vertexRecord_of_ge body _ i hlen]
      simp only [vectorOf, word_replicate_zero (valuesInLine hdr) 3 (by omega),
        word_replicate_zero (valuesInLine hdr) (3 + 1) (by omega), word_replicate_zero (valuesInLine hdr) (3 + 2) (by omega)]

set_option maxRecDepth 100000 in
theorem LoadModelFromBinPLY_short_stream_witness :
    ∃ out, LoadModelFromBinPLY leInt32 ⟨0, 0, 0⟩ ⟨0, 0⟩ (sampleHeader ++ [1, 0, 0, 0])
        (some []) none none none = some out ∧
      (∀ vs, ((some ([] : List (FVector Int))).isSome && sampleHeaderFlags.existVertices) = true →
        out.vertices = some vs →
        vs.length = 2 ∧
        ∀ i, i < 2 → [1, 0, 0, 0].length ≤ 4 * valuesInLine sampleHeaderFlags * i →
          vs[i]? = some ⟨leInt32 [0, 0, 0, 0], leInt32 [0, 0, 0, 0], leInt32 [0, 0, 0, 0]⟩) ∧
      (∀ ns, ((none : Option (List (FVector Int))).isSome &&
          sampleHeaderFlags.existVerticesNormals) = true →
        out.verticesNormals = some ns →
        ns.length = 2 ∧
        ∀ i, i < 2 → [1, 0, 0, 0].length ≤ 4 * valuesInLine sampleHeaderFlags * i →
          ns[i]? = some ⟨leInt32 [0, 0, 0, 0], leInt32 [0, 0, 0, 0], leInt32 [0, 0, 0, 0]⟩) :=
  LoadModelFromBinPLY_short_stream leInt32 ⟨0, 0, 0⟩ ⟨0, 0⟩ (sampleHeader ++ [1, 0, 0, 0])
    sampleHeaderFlags [1, 0, 0, 0] 2 (some []) none (by decide) (by decide) (by decide)
    (by decide)

/-! ## Sections that the header does not declare -/

/-- C14: when the header that `parsePlyHeader` has read does not declare a section
(positions, normals, vertex indices or texture coordinates), the call of
`LoadModelFromBinPLY` with an array `a` for that section ends as the call without it (it
fails only when that call fails), with the array `a` as it was passed and every other output
the same. -/
theorem LoadModelFromBinPLY_downgrade {F : Type} [Sub F] [One F]
    (decodeFloat : List Nat → F) (junkV : FVector F) (junkUv : FVector2D F)
    (inputMesh : List Nat) (hdr : PlyHeader) (body : List Nat)
    (hparse : parsePlyHeader (inputMesh.length + 1) inputMesh
      ⟨false, false, false, false, none, none⟩ = some (hdr, body)) :
    (hdr.existVertices = false → ∀ a normals faces uvMapping,
      LoadModelFromBinPLY decodeFloat junkV junkUv inputMesh (some a) normals faces
          uvMapping =
        (LoadModelFromBinPLY decodeFloat junkV junkUv inputMesh none normals faces
          uvMapping).map fun o => { o with vertices := some a }) ∧
    (hdr.existVerticesNormals = false → ∀ vertices a faces uvMapping,
      LoadModelFromBinPLY decodeFloat junkV junkUv inputMesh vertices (some a) faces
          uvMapping =
        (LoadModelFromBinPLY decodeFloat junkV junkUv inputMesh vertices none faces
          uvMapping).map fun o => { o with verticesNormals := some a }) ∧
    (hdr.existFaces = false → ∀ vertices normals a uvMapping,
      LoadModelFromBinPLY decodeFloat junkV junkUv inputMesh vertices normals (some a)
          uvMapping =
        (LoadModelFromBinPLY decodeFloat junkV junkUv inputMesh vertices normals none
          uvMapping).map fun o => { o with faces := some a }) ∧
    (hdr.existUvMapping = false → ∀ vertices normals faces a,
      LoadModelFromBinPLY decodeFloat junkV junkUv inputMesh vertices normals faces
          (some a) =
        (LoadModelFromBinPLY decodeFloat junkV junkUv inputMesh vertices normals faces
          none).map fun o => { o with uvMapping := some a }) := by
  refine ⟨fun h a normals faces uvMapping => ?_, fun h vertices a faces uvMapping => ?_,
    fun h vertices normals a uvMapping => ?_, fun h vertices normals faces a => ?_⟩
  · rw [LoadModelFromBinPLY_of_header _ _ _ _ _ _ _ _ _ _ hparse,
      LoadModelFromBinPLY_of_header _ _ _ _ _ _ _ _ _ _ hparse]
    exact loadBody_unloaded_vertices decodeFloat junkV junkUv hdr body _ _ _ _ h
  · rw [LoadModelFromBinPLY_of_header _ _ _ _ _ _ _ _ _ _ hparse,
      LoadModelFromBinPLY_of_header _ _ _ _ _ _ _ _ _ _ hparse]
    exact loadBody_unloaded_normals decodeFloat junkV junkUv hdr body _ _ _ _ h
  · rw [LoadModelFromBinPLY_of_header _ _ _ _ _ _ _ _ _ _ hparse,
      LoadModelFromBinPLY_of_header _ _ _ _ _ _ _ _ _ _ hparse]
    exact loadBody_unloaded_faces decodeFloat junkV junkUv hdr body _ _ _ _ h
  · rw [LoadModelFromBinPLY_of_header _ _ _ _ _ _ _ _ _ _ hparse,
      LoadModelFromBinPLY_of_header _ _ _ _ _ _ _ _ _ _ hparse]
    exact loadBody_unloaded_uv decodeFloat junkV junkUv hdr body _ _ _ _ h

set_option maxRecDepth 100000 in
theorem LoadModelFromBinPLY_downgrade_witness :
    LoadModelFromBinPLY leInt32 ⟨0, 0, 0⟩ ⟨0, 0⟩ sampleStream (some []) (some [⟨7, 8, 9⟩])
        (some []) (some []) =
      some ⟨some [⟨1, 2, 3⟩, ⟨4, 5, 6⟩], some [⟨7, 8, 9⟩], some [0, 1, 0],
        some [[⟨7, 1 - 8⟩, ⟨9, 1 - 10⟩, ⟨11, 1 - 12⟩]], []⟩ ∧
    LoadModelFromBinPLY leInt32 ⟨0, 0, 0⟩ ⟨0, 0⟩ sampleStream (some []) none
        (some []) (some []) =
      some ⟨some [⟨1, 2, 3⟩, ⟨4, 5, 6⟩], none, some [0, 1, 0],
        some [[⟨7, 1 - 8⟩, ⟨9, 1 - 10⟩, ⟨11, 1 - 12⟩]], []⟩ :=
  ⟨(LoadModelFromBinPLY_downgrade leInt32 ⟨0, 0, 0⟩ ⟨0, 0⟩ sampleStream sampleHeaderFlags
    (sampleVertexBytes ++ sampleFaceBytes) (by decide)).2.1 rfl (some []) [⟨7, 8, 9⟩]
    (some []) (some []), rfl⟩

/-! ## The header -/

/-- C18 counterexample: in the header `sampleTrailingSpace` the line with the vertex count
ends in a space; the last of the tokens of the line that white space separates has the value
4, and `parsePlyHeader` gives the count 0. -/
theorem parsePlyHeader_last_token_counterexample :
    (∀ l ∈ [bytesOf ("element vertex 4 "), bytesOf ("end_header")], keywordCount l ≤ 1) ∧
    sampleTrailingSpace =
      bytesOf ("element vertex 4 ") ++ 10 :: (bytesOf ("end_header") ++ [10]) ∧
    (parsePlyHeader (sampleTrailingSpace.length + 1) sampleTrailingSpace
        ⟨false, false, false, false, none, none⟩).map
      (fun r => r.1.countElementVertexInMesh) = some (some 0) ∧
    specLastTokenValue (bytesOf ("element vertex 4 ")) = some 4 := by
  decide

/-- C18: on a stream that holds the lines `ls` (none with `end_header`), a line `e` with
`end_header` and then the bytes `rest`, each line with at most one of the texts that
`parsePlyHeader` looks for and each line with a count such that `atoi` can read it,
`parsePlyHeader` returns with the stream at `rest`; a flag is set exactly when it was set
before or one of the lines `ls` has its text; a count is `atoi` of the text after the last
space of the last line with its text, as `size_t`, and is as before when no line has the
text. -/
theorem parsePlyHeader_scan (ls : List (List Nat)) (e rest : List Nat) (hdr0 : PlyHeader)
    (hls : ∀ l ∈ ls, 10 ∉ l ∧ keywordCount l ≤ 1 ∧ occursIn kwEndHeader l = false)
    (hatoi : ∀ l ∈ ls, occursIn kwElementVertex l = true ∨ occursIn kwElementFace l = true →
      (atoi (afterLastSpace l)).isSome = true)
    (he : 10 ∉ e) (hek : keywordCount e ≤ 1) (hee : occursIn kwEndHeader e = true) :
    ∃ hdr,
      parsePlyHeader ((ls.flatMap (fun l => l ++ [10]) ++ (e ++ 10 :: rest)).length + 1)
        (ls.flatMap (fun l => l ++ [10]) ++ (e ++ 10 :: rest)) hdr0 = some (hdr, rest) ∧
      hdr.existVertices = (hdr0.existVertices || ls.any (occursIn kwPropertyFloatX)) ∧
      hdr.existVerticesNormals =
        (hdr0.existVerticesNormals || ls.any (occursIn kwPropertyFloatNx)) ∧
      hdr.existFaces = (hdr0.existFaces || ls.any (occursIn kwVertexIndices)) ∧
      hdr.existUvMapping = (hdr0.existUvMapping || ls.any (occursIn kwTexcoord)) ∧
      hdr.countElementVertexInMesh =
        (lastLineWith kwElementVertex ls).elim hdr0.countElementVertexInMesh
          (fun l => (atoi (afterLastSpace l)).map toSizeT) ∧
      hdr.countElementFacesInMesh =
        (lastLineWith kwElementFace ls).elim hdr0.countElementFacesInMesh
          (fun l => (atoi (afterLastSpace l)).map toSizeT) := by
  have hparse := parsePlyHeader_lines e rest he hek hee ls
    (fun l hl => ⟨(hls l hl).1, (hls l hl).2.1, (hls l hl).2.2,
      fun c => hatoi l hl (Or.inl c), fun c => hatoi l hl (Or.inr c)⟩) hdr0
    ((ls.flatMap (fun l => l ++ [10]) ++ (e ++ 10 :: rest)).length + 1)
    (by
      have := length_le_flatMap_lines ls
      simp only [List.length_append]
      omega)
  rw [foldl_headerAfterLine] at hparse
  exact ⟨_, hparse, rfl, rfl, rfl, rfl, rfl, rfl⟩

set_option maxRecDepth 100000 in
theorem parsePlyHeader_scan_witness :
    ∃ hdr,
      parsePlyHeader
        ((sampleHeaderLines.flatMap (fun l => l ++ [10]) ++
          (bytesOf ("end_header") ++ 10 :: sampleVertexBytes)).length + 1)
        (sampleHeaderLines.flatMap (fun l => l ++ [10]) ++
          (bytesOf ("end_header") ++ 10 :: sampleVertexBytes))
        ⟨false, false, false, false, none, none⟩ = some (hdr, sampleVertexBytes) ∧
      hdr.existVertices = (false || sampleHeaderLines.any (occursIn kwPropertyFloatX)) ∧
      hdr.existVerticesNormals =
        (false || sampleHeaderLines.any (occursIn kwPropertyFloatNx)) ∧
      hdr.existFaces = (false || sampleHeaderLines.any (occursIn kwVertexIndices)) ∧
      hdr.existUvMapping = (false || sampleHeaderLines.any (occursIn kwTexcoord)) ∧
      hdr.countElementVertexInMesh =
        (lastLineWith kwElementVertex sampleHeaderLines).elim none
          (fun l => (atoi (afterLastSpace l)).map toSizeT) ∧
      hdr.countElementFacesInMesh =
        (lastLineWith kwElementFace sampleHeaderLines).elim none
          (fun l => (atoi (afterLastSpace l)).map toSizeT) :=
  parsePlyHeader_scan sampleHeaderLines (bytesOf ("end_header")) sampleVertexBytes
    ⟨false, false, false, false, none, none⟩ (by decide) (by decide) (by decide) (by decide)
    (by decide)

/-! ## Requests for a part of the face records -/

set_option maxRecDepth 100000 in
/-- C21, the code at the failing inputs: both sample streams declare vertex indices and
texture coordinates.  On `sampleTwoFaceStream` the call for faces and UV mapping returns the
six face indices, the call for faces alone does not return: the bytes of the texture
coordinates of the first record are not taken out of the stream, and the count byte of the
second record is read from them.  On `sampleStream` the call for faces and UV mapping returns
the UV row, the call for the UV mapping alone does not return: its count byte is read from
the vertex indices. -/
theorem LoadModelFromBinPLY_partial_request :
    (LoadModelFromBinPLY leInt32 ⟨0, 0, 0⟩ ⟨0, 0⟩ sampleTwoFaceStream none none (some [])
      (some [])).map (fun o => o.faces) = some (some [0, 1, 0, 0, 1, 0]) ∧
    LoadModelFromBinPLY leInt32 ⟨0, 0, 0⟩ ⟨0, 0⟩ sampleTwoFaceStream none none (some [])
      none = none ∧
    (LoadModelFromBinPLY leInt32 ⟨0, 0, 0⟩ ⟨0, 0⟩ sampleStream none none (some [])
      (some [])).map (fun o => o.uvMapping) =
        some (some [[⟨7, 1 - 8⟩, ⟨9, 1 - 10⟩, ⟨11, 1 - 12⟩]]) ∧
    LoadModelFromBinPLY leInt32 ⟨0, 0, 0⟩ ⟨0, 0⟩ sampleStream none none none (some []) =
      none :=
  ⟨by rfl, by rfl, by rfl, by rfl⟩

/-! ## The chains of duplicates -/

/-- C23: in a returning call on in-range face indices, every duplicate slot `d` has
`indexMap[d] < d` and `indexMap[d]` is the slot whose entry of `duplicate` is `d`; every link
of `duplicate` is such a slot; two duplicate slots with the same `indexMap` entry are one
slot; going from a slot to its `indexMap` entry again and again reaches a slot below
`originalVertices.Num()` within `indexMap.Num()` slots; and for every corner the slot reached
from its rewritten index is the index that the corner had before the call. -/
theorem ConvertToUnrealFormat_chains_forward {F : Type} [FloatCompare F] [Neg F] [One F]
    [LawfulFloatCompare F]
    (junkV : FVector F) (junkUv : FVector2D F) (originalVertices : List (FVector F))
    (faceUv : List (List (FVector2D F))) (faces : List Int) (vertices : List (FVector F))
    (uv : List (FVector2D F)) (indexMap : List Int) (out : UnrealMesh F)
    (hrange : ∀ v ∈ faces, 0 ≤ v ∧ v < (originalVertices.length : Int))
    (h : ConvertToUnrealFormat junkV junkUv originalVertices faceUv faces vertices uv
      indexMap = some out) :
    ∃ s, cornerLoop originalVertices.length faceUv faces = some s ∧
      (∀ d : Int, (originalVertices.length : Int) ≤ d → d < (out.indexMap.length : Int) →
        ∃ p, TArray.at? out.indexMap d = some p ∧ 0 ≤ p ∧ p < d ∧
          TArray.at? s.duplicate p = some d) ∧
      (∀ p d, TArray.at? s.duplicate p = some d → d ≠ -1 →
        (originalVertices.length : Int) ≤ d ∧ d < (out.indexMap.length : Int) ∧
          TArray.at? out.indexMap d = some p) ∧
      (∀ d d1 : Int, (originalVertices.length : Int) ≤ d → d < (out.indexMap.length : Int) →
        (originalVertices.length : Int) ≤ d1 → d1 < (out.indexMap.length : Int) →
        TArray.at? out.indexMap d = TArray.at? out.indexMap d1 → d = d1) ∧
      (∀ i : Int, 0 ≤ i → i < (out.indexMap.length : Int) →
        ∃ r, originOf out.indexMap originalVertices.length out.indexMap.length i = some r ∧
          0 ≤ r ∧ r < (originalVertices.length : Int)) ∧
      ∀ k : Nat, k < faces.length →
        ∃ v v0, out.faces[k]? = some v ∧ faces[k]? = some v0 ∧
          originOf out.indexMap originalVertices.length out.indexMap.length v = some v0 := by
  obtain ⟨s, root, hs, hinv, hfaces, hlv, hlu, hli, -, horig, hlink⟩ :=
    ConvertToUnrealFormat_inv hrange h
  have T := hinv.table
  have hN := T.num_ge
  have hnum : ((out.indexMap.length : Nat) : Int) = s.numVertices := by
    rw [hli]; omega
  have hparent : ∀ d : Int, (originalVertices.length : Int) ≤ d →
      d < (out.indexMap.length : Int) →
      ∃ p, TArray.at? out.indexMap d = some p ∧ 0 ≤ p ∧ p < d ∧
        TArray.at? s.duplicate p = some d := by
    intro d hd0 hd1
    obtain ⟨p, hp⟩ := T.dup_surj d hd0 (by omega)
    have hne : d ≠ -1 := by omega
    exact ⟨p, (hlink p d hp hne).2, (TArray.at?_bounds hp).1, (T.dup_range p d hp hne).2.1,
      hp⟩
  have horigin := originOf_eq_root T out.indexMap (fun p d hp hne => (hlink p d hp hne).2)
  refine ⟨s, hs, hparent, ?_, ?_, ?_, ?_⟩
  · intro p d hp hne
    have hr := T.dup_range p d hp hne
    exact ⟨hr.1, by omega, (hlink p d hp hne).2⟩
  · intro d d1 hd0 hd1 he0 he1 heq
    obtain ⟨p, hp, -, -, hdp⟩ := hparent d hd0 hd1
    obtain ⟨q, hq, -, -, hdq⟩ := hparent d1 he0 he1
    rw [hp, hq, Option.some.injEq] at heq
    subst heq
    rw [hdp, Option.some.injEq] at hdq
    exact hdq
  · intro i hi0 hi1
    have hr := T.root_range i hi0 (by omega)
    exact ⟨root i, horigin _ i hi0 (by omega) (by omega), hr.1, hr.2⟩
  · intro k hk
    rw [hfaces]
    have hv0 : faces[k]? = some faces[k] := List.getElem?_eq_getElem hk
    by_cases hk3 : k < 3 * (faces.length / 3)
    · obtain ⟨v, c, h1, h2, h3, h4, -⟩ := hinv.faces_done k hk3
      rw [TArray.at?_natCast] at h1 h4
      exact ⟨v, root v, h1, h4, horigin _ v h2 h3 (by omega)⟩
    · have h1 := hinv.faces_rest k (by omega)
      rw [TArray.at?_natCast, TArray.at?_natCast] at h1
      have hr := hrange faces[k] (List.getElem_mem hk)
      refine ⟨faces[k], faces[k], by rw [h1, hv0], hv0, ?_⟩
      rw [horigin _ faces[k] hr.1 (by omega) (by omega), T.root_orig _ hr.1 hr.2]

theorem ConvertToUnrealFormat_chains_forward_witness :
    ∃ s, cornerLoop fanVertices.length fanUv fanFaces = some s ∧
      (∀ d : Int, (fanVertices.length : Int) ≤ d → d < (fanMesh.indexMap.length : Int) →
        ∃ p, TArray.at? fanMesh.indexMap d = some p ∧ 0 ≤ p ∧ p < d ∧
          TArray.at? s.duplicate p = some d) ∧
      (∀ p d, TArray.at? s.duplicate p = some d → d ≠ -1 →
        (fanVertices.length : Int) ≤ d ∧ d < (fanMesh.indexMap.length : Int) ∧
          TArray.at? fanMesh.indexMap d = some p) ∧
      (∀ d d1 : Int, (fanVertices.length : Int) ≤ d → d < (fanMesh.indexMap.length : Int) →
        (fanVertices.length : Int) ≤ d1 → d1 < (fanMesh.indexMap.length : Int) →
        TArray.at? fanMesh.indexMap d = TArray.at? fanMesh.indexMap d1 → d = d1) ∧
      (∀ i : Int, 0 ≤ i → i < (fanMesh.indexMap.length : Int) →
        ∃ r, originOf fanMesh.indexMap fanVertices.length fanMesh.indexMap.length i = some r ∧
          0 ≤ r ∧ r < (fanVertices.length : Int)) ∧
      ∀ k : Nat, k < fanFaces.length →
        ∃ v v0, fanMesh.faces[k]? = some v ∧ fanFaces[k]? = some v0 ∧
          originOf fanMesh.indexMap fanVertices.length fanMesh.indexMap.length v = some v0 :=
  ConvertToUnrealFormat_chains_forward ⟨0, 0, 0⟩ ⟨0, 0⟩ fanVertices fanUv fanFaces [] [] []
    fanMesh (by decide) (by rfl)

/-! ## Well-formed meshes -/

/-- C22: on a mesh whose `faces` has a multiple of 3 entries, all of them in
`[0, originalVertices.Num())`, whose `faceUv` has one row of three pairs for every face and
in which every original vertex is in some face, `ConvertToUnrealFormat` returns: every walk
along the duplicates ends within the rounds it is given and no access leaves its array.  In
particular the loop reaches every corner of every face and its body returns there. -/
theorem ConvertToUnrealFormat_returns {F : Type} [FloatCompare F] [Neg F] [One F]
    [LawfulFloatCompare F]
    (junkV : FVector F) (junkUv : FVector2D F) (originalVertices : List (FVector F))
    (faceUv : List (List (FVector2D F))) (faces : List Int) (vertices : List (FVector F))
    (uv : List (FVector2D F)) (indexMap : List Int)
    (h3 : faces.length % 3 = 0)
    (hfaceUv : faceUv.length = faces.length / 3)
    (hrows : ∀ row ∈ faceUv, row.length = 3)
    (hrange : ∀ v ∈ faces, 0 ≤ v ∧ v < (originalVertices.length : Int))
    (hall : ∀ i : Nat, i < originalVertices.length → (i : Int) ∈ faces) :
    (∃ out, ConvertToUnrealFormat junkV junkUv originalVertices faceUv faces vertices uv
      indexMap = some out) ∧
    ∀ (m j : Nat), m < faces.length / 3 → j < 3 →
      ∃ s r, cornerLoopAt originalVertices.length faceUv faces m j = some s ∧
        processCorner faceUv m s j = some r := by
  have hall1 : ∀ i : Nat, i < originalVertices.length →
      ∃ k : Nat, k < faces.length ∧ TArray.at? faces k = some (i : Int) := by
    intro i hi
    obtain ⟨k, hk, hkv⟩ := List.mem_iff_getElem.1 (hall i hi)
    exact ⟨k, hk, by rw [TArray.at?_natCast, List.getElem?_eq_getElem hk, hkv]⟩
  have hshape : ∀ f : Nat, f < faces.length / 3 →
      ∃ row, TArray.at? faceUv f = some row ∧ 3 ≤ row.length := by
    intro f hf
    have hfl : f < faceUv.length := by omega
    refine ⟨faceUv[f], by rw [TArray.at?_natCast, List.getElem?_eq_getElem hfl], ?_⟩
    rw [hrows _ (List.getElem_mem hfl)]
  constructor
  · obtain ⟨s, root, hs, hinv⟩ := cornerLoop_total hrange hall1 hshape
    have hroom := (hinv.room hall1 (by omega)).1
    obtain ⟨out, hout⟩ := buildOutput_total junkV junkUv originalVertices vertices uv indexMap
      s hinv.table rfl (by rw [hinv.len_dup]; exact hroom) (by rw [hinv.len_uv]; exact hroom)
    exact ⟨out, by simp [ConvertToUnrealFormat, hs, hout]⟩
  · intro m j hm hj
    obtain ⟨s0, hs0, root0, hI0⟩ := forLoop_total (processFace faceUv)
      (fun m s => ∃ root, ReindexInv originalVertices.length faceUv faces root (3 * m) s)
      m _ ⟨id, ReindexInv.init originalVertices.length faceUv faces⟩
      (fun m1 s hm1 hI => by
        obtain ⟨t, ht, root1, hI1⟩ := forLoop_total (processCorner faceUv m1)
          (fun j s => ∃ root,
            ReindexInv originalVertices.length faceUv faces root (3 * m1 + j) s) 3 s hI
          (fun j s hj hI => by
            obtain ⟨root, hI⟩ := hI
            obtain ⟨t, ht⟩ := processCorner_total hrange hall1 hshape m1 j hj (by omega) hI
            exact ⟨t, ht, processCorner_inv hrange m1 j hj hI ht⟩)
        exact ⟨t, ht, root1, hI1⟩)
    obtain ⟨s1, hs1, root1, hI1⟩ := forLoop_total (processCorner faceUv m)
      (fun j s => ∃ root,
        ReindexInv originalVertices.length faceUv faces root (3 * m + j) s) j s0
      ⟨root0, hI0⟩
      (fun j1 s hj1 hI => by
        obtain ⟨root, hI⟩ := hI
        obtain ⟨t, ht⟩ := processCorner_total hrange hall1 hshape m j1 (by omega) hm hI
        exact ⟨t, ht, processCorner_inv hrange m j1 (by omega) hI ht⟩)
    obtain ⟨r, hr⟩ := processCorner_total hrange hall1 hshape m j hj hm hI1
    exact ⟨s1, r, by simp [cornerLoopAt, hs0, hs1], hr⟩

theorem ConvertToUnrealFormat_returns_witness :
    (∃ out, ConvertToUnrealFormat ⟨0, 0, 0⟩ ⟨0, 0⟩ fanVertices fanUv fanFaces [] [] [] =
      some out) ∧
    ∀ (m j : Nat), m < fanFaces.length / 3 → j < 3 →
      ∃ s r, cornerLoopAt fanVertices.length fanUv fanFaces m j = some s ∧
        processCorner fanUv m s j = some r :=
  ConvertToUnrealFormat_returns ⟨0, 0, 0⟩ ⟨0, 0⟩ fanVertices fanUv fanFaces [] [] []
    (by decide) (by decide) (by decide) (by decide) (by decide)

end ItSeez3D
